import Mathlib

/-!
# GPGProc (qca-gnupg, `gpgproc.cpp`): a shallow embedding

The session object `GPGProc::Private` becomes the record `Private`; every slot
and every public method of `GPGProc` becomes a function on that record which
returns the new record together with the ordered list of observable effects
(signals emitted, bytes written to a channel, channel ends closed, calls made on
the child).  Code that dereferences `proc` while it is null has no defined
behaviour and returns `none`.

What the file does not contain is taken as follows.
* `QString::fromUtf8` is a parameter `fromUtf8` of the status parser.
* `QByteArray::indexOf`, `QString::truncate`, `QString::left`, `QString::mid`
  follow the Qt documentation.
* `QPipe` and `SProcess` are records holding what the session can observe of
  them; what the operating system decides (whether `create` succeeds, which
  identifiers the ends get) is an argument of `start`.
-/

namespace gpgQCAPlugin

/-! ## Qt value types -/

/-- Bytes of a `QByteArray`. -/
abbrev QByteArray := List UInt8

/-- Characters of a `QString`. -/
abbrev QString := List Char

/-- A `QStringList`. -/
abbrev QStringList := List QString

/-- The line-feed byte (the character constant the source searches for). -/
def LF : UInt8 := 10

/-- `QByteArray::indexOf(char)`: position of the first occurrence, `-1` when
there is none. -/
def QByteArray.indexOf (a : QByteArray) (c : UInt8) : Int :=
  if c ∈ a then (List.indexOf c a : Nat) else -1

/-- `QString::truncate(pos)`: cut the string at `pos` when `pos` is smaller than
its length; a negative `pos` empties it. -/
def QString.truncate (s : QString) (pos : Int) : QString :=
  if pos < (s.length : Int) then s.take pos.toNat else s

/-- `QString::left(n)`: the first `n` characters, the whole string when it is
shorter. -/
def QString.left (s : QString) (n : Nat) : QString := s.take n

/-- `QString::mid(pos)`: the characters from position `pos` on, empty when `pos`
is past the end. -/
def QString.mid (s : QString) (pos : Nat) : QString := s.drop pos

/-- The status-line header tested by `processStatusData`. -/
def header : QString := "[GNUPG:] ".toList

/-! ## Enumerations -/

/-- `enum ResetMode`. -/
inductive ResetMode
  | ResetSession
  | ResetSessionAndData
  | ResetAll
  deriving DecidableEq, Repr

/-- Numeric value of a `ResetMode`, as the enumeration declares it. -/
def ResetMode.toNat : ResetMode → Nat
  | .ResetSession => 0
  | .ResetSessionAndData => 1
  | .ResetAll => 2

/-- `GPGProc::Error`. -/
inductive Error
  | FailedToStart
  | UnexpectedExit
  | ErrorWrite
  deriving DecidableEq, Repr

/-- `GPGProc::Mode`; the source names only `ExtendedMode`. -/
inductive Mode
  | BasicMode
  | ExtendedMode
  deriving DecidableEq, Repr

/-- `QProcess::ProcessState`. -/
inductive ProcessState
  | NotRunning
  | Starting
  | Running
  deriving DecidableEq, Repr

/-- `QProcess::ProcessError`. -/
inductive ProcessError
  | FailedToStart
  | Crashed
  | Timedout
  | WriteError
  | ReadError
  | UnknownError
  deriving DecidableEq, Repr

/-- `QPipeEnd::Error`. -/
inductive PipeError
  | ErrorEOF
  | ErrorBroken
  deriving DecidableEq, Repr

/-! ## The collaborators: `QPipe` and `SProcess` -/

/-- One end of a `QPipe`, as far as the session observes it. -/
structure QPipeEnd where
  /-- Answer of `isValid()`: the end holds an open descriptor. -/
  valid : Bool
  /-- Set by `enable()`: the end delivers its notifications. -/
  enabled : Bool
  /-- Answer of `id()`. -/
  id : Int
  /-- Answer of `idAsString()`. -/
  idAsString : QString
  deriving DecidableEq, Repr

/-- A `QPipe`: a read end and a write end. -/
structure QPipe where
  readEnd : QPipeEnd
  writeEnd : QPipeEnd
  deriving DecidableEq, Repr

/-- An end that holds no descriptor. -/
def QPipeEnd.invalid : QPipeEnd :=
  { valid := false, enabled := false, id := -1, idAsString := "-1".toList }

/-- `QPipeEnd::close()`. -/
def QPipeEnd.close (_e : QPipeEnd) : QPipeEnd := QPipeEnd.invalid

/-- `QPipeEnd::enable()`. -/
def QPipeEnd.enable (e : QPipeEnd) : QPipeEnd := { e with enabled := true }

/-- `QPipe::reset()`: both ends are released. -/
def QPipe.reset (_p : QPipe) : QPipe :=
  { readEnd := QPipeEnd.invalid, writeEnd := QPipeEnd.invalid }

/-- Identifiers the operating system gives to the two ends of a new pipe. -/
structure PipeIds where
  readId : Int
  readIdAsString : QString
  writeId : Int
  writeIdAsString : QString
  deriving DecidableEq, Repr

/-- `QPipe::create()`: `os` is the answer of the operating system, `none` when
no pipe can be made.  Returns the success flag and the pipe afterwards. -/
def QPipe.create (p : QPipe) (os : Option PipeIds) : Bool × QPipe :=
  match os with
  | none => (false, p.reset)
  | some ids =>
    (true,
     { readEnd := { valid := true, enabled := false, id := ids.readId,
                    idAsString := ids.readIdAsString },
       writeEnd := { valid := true, enabled := false, id := ids.writeId,
                     idAsString := ids.writeIdAsString } })

/-- What the operating system answers to the three `create()` calls of one
`start`. -/
structure StartEnv where
  aux : Option PipeIds
  command : Option PipeIds
  status : Option PipeIds
  deriving DecidableEq, Repr

/-- The child process object, as far as the session observes it. -/
structure SProcess where
  /-- Answer of `state()`. -/
  state : ProcessState
  /-- Bytes `readAll()` returns on the standard-output channel. -/
  stdoutData : QByteArray
  /-- Bytes `readAll()` returns on the standard-error channel. -/
  stderrData : QByteArray
  deriving DecidableEq, Repr

/-- The three pipes of a session. -/
inductive PipeName
  | Aux
  | Command
  | Status
  deriving DecidableEq, Repr

/-- Everything a call of the session does to the outside, in the order in
which it is done: signals of `GPGProc`, calls on the child, calls on the
pipes. -/
inductive Effect
  | debug (str : QString)
  | readyReadStdout
  | readyReadStderr
  | readyReadStatusLines
  | bytesWrittenStdin (x : Int)
  | bytesWrittenAux (x : Int)
  | bytesWrittenCommand (x : Int)
  | finished (exitCode : Int)
  | error (e : Error)
  /-- The `error` signal posted through `Qt::QueuedConnection`. -/
  | errorQueued (e : Error)
  | procStart (bin : QString) (args : QStringList)
  | procSetClosePipeList (plist : List Int)
  | procWrite (a : QByteArray)
  | procCloseWriteChannel
  | procDisconnect
  | procTerminate
  | procDeleteLater
  | pipeReset (p : PipeName)
  | pipeCreate (p : PipeName)
  | readEndClose (p : PipeName)
  | readEndEnable (p : PipeName)
  | writeEndClose (p : PipeName)
  | writeEndEnable (p : PipeName)
  | writeEndWrite (p : PipeName) (a : QByteArray)
  deriving DecidableEq, Repr

/-- A final notification of a round: `finished` or `error`. -/
def Effect.isFinal : Effect → Bool
  | .finished _ => true
  | .error _ => true
  | _ => false

/-! ## The session record -/

/-- The fields of `GPGProc::Private`. -/
structure Private where
  proc : Option SProcess
  pipeAux : QPipe
  pipeCommand : QPipe
  pipeStatus : QPipe
  statusBuf : QByteArray
  statusLines : QStringList
  error : Error
  exitCode : Int
  pre_stdin : QByteArray
  pre_aux : QByteArray
  pre_command : QByteArray
  pre_stdin_close : Bool
  pre_aux_close : Bool
  pre_command_close : Bool
  need_status : Bool
  fin_process : Bool
  fin_process_success : Bool
  fin_status : Bool
  leftover_stdout : QByteArray
  leftover_stderr : QByteArray
  deriving DecidableEq, Repr

/-- `Private::closePipes`. -/
def Private.closePipes (d : Private) : Private × List Effect :=
  ({ d with pipeAux := d.pipeAux.reset,
            pipeCommand := d.pipeCommand.reset,
            pipeStatus := d.pipeStatus.reset },
   [.pipeReset .Aux, .pipeReset .Command, .pipeReset .Status])

/-- The `if(proc)` block of `Private::reset`: the child is disconnected,
terminated unless it is `NotRunning`, and released. -/
def Private.releaseProc (d : Private) : Private × List Effect :=
  match d.proc with
  | none => (d, [])
  | some p =>
    ({ d with proc := none },
     [.procDisconnect] ++
       (if p.state ≠ .NotRunning then [.procTerminate] else []) ++
       [.procDeleteLater])

/-- `Private::reset`. -/
def Private.reset (d : Private) (mode : ResetMode) : Private × List Effect :=
  let r1 := closePipes d
  let r2 := releaseProc r1.1
  let d2 : Private :=
    { r2.1 with pre_stdin := [], pre_aux := [], pre_command := [],
                pre_stdin_close := false, pre_aux_close := false,
                pre_command_close := false,
                need_status := false, fin_process := false, fin_status := false }
  let d3 : Private :=
    if mode.toNat ≥ ResetMode.ResetSessionAndData.toNat then
      { d2 with statusBuf := [], statusLines := [],
                leftover_stdout := [], leftover_stderr := [],
                error := .FailedToStart, exitCode := -1 }
    else d2
  (d3, r1.2 ++ r2.2)

/-- `Private::setupPipes`, in the build without `Q_OS_WIN`.  The three
`create()` calls are answered by `os`. -/
def Private.setupPipes (os : StartEnv) (d : Private) (makeAux : Bool) :
    Bool × Private × List Effect :=
  let ca := d.pipeAux.create os.aux
  if makeAux && !ca.1 then
    let r := closePipes { d with pipeAux := ca.2 }
    (false, r.1, [.pipeCreate .Aux] ++ r.2 ++ [.debug "Error creating pipeAux".toList])
  else
    let d1 : Private := if makeAux then { d with pipeAux := ca.2 } else d
    let e1 : List Effect := if makeAux then [.pipeCreate .Aux] else []
    let cc := d1.pipeCommand.create os.command
    if !cc.1 then
      let r := closePipes { d1 with pipeCommand := cc.2 }
      (false, r.1,
       e1 ++ [.pipeCreate .Command] ++ r.2 ++ [.debug "Error creating pipeCommand".toList])
    else
      let d2 : Private := { d1 with pipeCommand := cc.2 }
      let cs := d2.pipeStatus.create os.status
      if !cs.1 then
        let r := closePipes { d2 with pipeStatus := cs.2 }
        (false, r.1,
         e1 ++ [.pipeCreate .Command, .pipeCreate .Status] ++ r.2 ++
           [.debug "Error creating pipeStatus".toList])
      else
        (true, { d2 with pipeStatus := cs.2 },
         e1 ++ [.pipeCreate .Command, .pipeCreate .Status])

/-! ## The status parser -/

set_option linter.unusedVariables false in
/-- The body of the `while(1)` loop of `processStatusData`, with the two
variables it updates: the member `statusBuf` and the local `list`.  Every turn
that does not leave the loop removes at least one byte from `statusBuf`. -/
def Private.processStatusData.loop (fromUtf8 : QByteArray → QString)
    (statusBuf : QByteArray) (list : QStringList) : QByteArray × QStringList :=
  let n : Int := QByteArray.indexOf statusBuf LF
  if hn : n = -1 then
    (statusBuf, list)
  else
    -- extract the string from statusbuf
    let n : Int := n + 1
    let cs : QByteArray := statusBuf.take n.toNat
    let newsize : Int := (statusBuf.length : Int) - n
    -- `memmove(p, p + n, newsize)` followed by `resize(newsize)`
    let statusBuf1 : QByteArray := (statusBuf.drop n.toNat).take newsize.toNat
    -- convert to string without newline
    let str : QString := fromUtf8 cs
    let str : QString := QString.truncate str ((str.length : Int) - 1)
    -- ensure it has a proper header
    if QString.left str 9 ≠ header then
      processStatusData.loop fromUtf8 statusBuf1 list
    else
      -- take it off, add to the list
      processStatusData.loop fromUtf8 statusBuf1 (list ++ [QString.mid str 9])
termination_by statusBuf.length
decreasing_by
  all_goals
    have hmem : LF ∈ statusBuf := by
      by_contra hc
      exact hn (if_neg hc)
    have hpos : 0 < statusBuf.length := List.length_pos_of_mem hmem
    have hidx : QByteArray.indexOf statusBuf LF = (List.indexOf LF statusBuf : Nat) :=
      if_pos hmem
    simp only [hidx, List.length_take, List.length_drop]
    omega

/-- `Private::processStatusData`: the new session record and the returned
flag. -/
def Private.processStatusData (fromUtf8 : QByteArray → QString) (d : Private)
    (buf : QByteArray) : Private × Bool :=
  let r := processStatusData.loop fromUtf8 (d.statusBuf ++ buf) []
  let d1 : Private := { d with statusBuf := r.1 }
  if r.2.isEmpty then
    (d1, false)
  else
    ({ d1 with statusLines := d1.statusLines ++ r.2 }, true)

/-! ## Slots -/

/-- `Private::aux_written`. -/
def Private.aux_written (d : Private) (x : Int) : Private × List Effect :=
  (d, [.bytesWrittenAux x])

/-- `Private::aux_error`. -/
def Private.aux_error (d : Private) (_e : PipeError) : Private × List Effect :=
  let r := reset d .ResetSession
  (r.1, [.debug "Aux: Pipe error".toList] ++ r.2 ++ [.error .ErrorWrite])

/-- `Private::command_written`. -/
def Private.command_written (d : Private) (x : Int) : Private × List Effect :=
  (d, [.bytesWrittenCommand x])

/-- `Private::command_error`. -/
def Private.command_error (d : Private) (_e : PipeError) : Private × List Effect :=
  let r := reset d .ResetSession
  (r.1, [.debug "Command: Pipe error".toList] ++ r.2 ++ [.error .ErrorWrite])

/-- `Private::status_read`; `buf` is what `pipeStatus.readEnd().read()`
returns. -/
def Private.status_read (fromUtf8 : QByteArray → QString) (d : Private)
    (buf : QByteArray) : Private × List Effect :=
  if buf.isEmpty then
    (d, [])
  else
    let r := processStatusData fromUtf8 d buf
    if r.2 then (r.1, [.readyReadStatusLines]) else (r.1, [])

/-- `Private::doTryDone`.  Past the two guards the function calls through
`proc`; with a null `proc` that has no defined behaviour (`none`). -/
def Private.doTryDone (d : Private) : Option (Private × List Effect) :=
  if !d.fin_process then
    some (d, [])
  else if d.need_status && !d.fin_status then
    some (d, [])
  else
    match d.proc with
    | none => none
    | some p =>
      -- get leftover data
      let p1 : SProcess := { p with stdoutData := [] }
      let d1 : Private := { d with leftover_stdout := p.stdoutData, proc := some p1 }
      let p2 : SProcess := { p1 with stderrData := [] }
      let d2 : Private := { d1 with leftover_stderr := p1.stderrData, proc := some p2 }
      let r := reset d2 .ResetSession
      some (r.1,
        [.debug "Done".toList] ++ r.2 ++
          [if r.1.fin_process_success then .finished r.1.exitCode else .error r.1.error])

/-- `Private::status_error`. -/
def Private.status_error (d : Private) (e : PipeError) : Option (Private × List Effect) :=
  let msg : Effect :=
    if e = .ErrorEOF then .debug "Status: Closed (EOF)".toList
    else .debug "Status: Closed (gone)".toList
  (doTryDone { d with fin_status := true }).map fun r => (r.1, [msg] ++ r.2)

/-- `Private::proc_started`.  Writing `pre_stdin` to the child and closing its
write channel call through `proc`; with a null `proc` a run that reaches one
of the two has no defined behaviour (`none`). -/
def Private.proc_started (d : Private) : Option (Private × List Effect) :=
  -- close these, we don't need them
  let d0 : Private :=
    { d with pipeAux := { d.pipeAux with readEnd := d.pipeAux.readEnd.close },
             pipeCommand := { d.pipeCommand with readEnd := d.pipeCommand.readEnd.close },
             pipeStatus := { d.pipeStatus with writeEnd := d.pipeStatus.writeEnd.close } }
  let e0 : List Effect :=
    [.debug "Process started".toList,
     .readEndClose .Aux, .readEndClose .Command, .writeEndClose .Status]
  -- do the pre* stuff
  if (!d0.pre_stdin.isEmpty || d0.pre_stdin_close) && d0.proc.isNone then
    none
  else
    let e1 : List Effect := if !d0.pre_stdin.isEmpty then [.procWrite d0.pre_stdin] else []
    let d1 : Private := if !d0.pre_stdin.isEmpty then { d0 with pre_stdin := [] } else d0
    let e2 : List Effect :=
      if !d1.pre_aux.isEmpty then [.writeEndWrite .Aux d1.pre_aux] else []
    let d2 : Private := if !d1.pre_aux.isEmpty then { d1 with pre_aux := [] } else d1
    let e3 : List Effect :=
      if !d2.pre_command.isEmpty then [.writeEndWrite .Command d2.pre_command] else []
    let d3 : Private := if !d2.pre_command.isEmpty then { d2 with pre_command := [] } else d2
    let e4 : List Effect := if d3.pre_stdin_close then [.procCloseWriteChannel] else []
    let e5 : List Effect := if d3.pre_aux_close then [.writeEndClose .Aux] else []
    let d5 : Private :=
      if d3.pre_aux_close then
        { d3 with pipeAux := { d3.pipeAux with writeEnd := d3.pipeAux.writeEnd.close } }
      else d3
    let e6 : List Effect := if d5.pre_command_close then [.writeEndClose .Command] else []
    let d6 : Private :=
      if d5.pre_command_close then
        { d5 with pipeCommand :=
            { d5.pipeCommand with writeEnd := d5.pipeCommand.writeEnd.close } }
      else d5
    some (d6, e0 ++ e1 ++ e2 ++ e3 ++ e4 ++ e5 ++ e6)

/-- `Private::proc_readyReadStandardOutput`. -/
def Private.proc_readyReadStandardOutput (d : Private) : Private × List Effect :=
  (d, [.readyReadStdout])

/-- `Private::proc_readyReadStandardError`. -/
def Private.proc_readyReadStandardError (d : Private) : Private × List Effect :=
  (d, [.readyReadStderr])

/-- The conversion `(int)lx` of a `qint64`: the low 32 bits, read as a signed
number. -/
def toInt32 (lx : Int) : Int := (lx + 2 ^ 31) % 2 ^ 32 - 2 ^ 31

/-- `Private::proc_bytesWritten`. -/
def Private.proc_bytesWritten (d : Private) (lx : Int) : Private × List Effect :=
  (d, [.bytesWrittenStdin (toInt32 lx)])

/-- The text of `QString("Process finished: %1").arg(x)`. -/
def finishedMessage (x : Int) : QString := "Process finished: ".toList ++ (toString x).toList

/-- `Private::proc_finished`. -/
def Private.proc_finished (d : Private) (x : Int) : Option (Private × List Effect) :=
  (doTryDone { d with exitCode := x, fin_process := true, fin_process_success := true }).map
    fun r => (r.1, [.debug (finishedMessage x)] ++ r.2)

/-- The entries of `errmap` in `proc_error`. -/
def errmap : ProcessError → QString
  | .FailedToStart => "FailedToStart".toList
  | .Crashed => "Crashed".toList
  | .Timedout => "Timedout".toList
  | .WriteError => "WriteError".toList
  | .ReadError => "ReadError".toList
  | .UnknownError => "UnknownError".toList

/-- `Private::proc_error`. -/
def Private.proc_error (d : Private) (x : ProcessError) : Option (Private × List Effect) :=
  let err : Error :=
    if x = .FailedToStart then .FailedToStart
    else if x = .WriteError then .ErrorWrite
    else .UnexpectedExit
  (doTryDone { d with error := err, fin_process := true, fin_process_success := false }).map
    fun r => (r.1, [.debug ("Process error: ".toList ++ errmap x)] ++ r.2)

/-! ## The public methods of `GPGProc` -/

/-- The record a constructed `GPGProc` holds: null `proc`, default-constructed
pipes and buffers, then `reset(ResetSessionAndData)`.  Neither the constructor
nor `reset` gives `fin_process_success` a value, so it is an argument. -/
def GPGProc.init (fin_process_success : Bool) : Private :=
  (Private.reset
    { proc := none,
      pipeAux := { readEnd := QPipeEnd.invalid, writeEnd := QPipeEnd.invalid },
      pipeCommand := { readEnd := QPipeEnd.invalid, writeEnd := QPipeEnd.invalid },
      pipeStatus := { readEnd := QPipeEnd.invalid, writeEnd := QPipeEnd.invalid },
      statusBuf := [], statusLines := [],
      error := .FailedToStart, exitCode := -1,
      pre_stdin := [], pre_aux := [], pre_command := [],
      pre_stdin_close := false, pre_aux_close := false, pre_command_close := false,
      need_status := false, fin_process := false,
      fin_process_success := fin_process_success, fin_status := false,
      leftover_stdout := [], leftover_stderr := [] }
    .ResetSessionAndData).1

/-- `GPGProc::reset`. -/
def GPGProc.reset (d : Private) : Private × List Effect :=
  Private.reset d .ResetAll

/-- `GPGProc::isActive`. -/
def GPGProc.isActive (d : Private) : Bool :=
  if d.proc.isSome then true else false

/-- The placeholder token of the auxiliary channel. -/
def auxToken : QString := "-&?".toList

/-- The `for` loop of `GPGProc::start` over the caller's arguments. -/
def substArgs (d : Private) (mode : Mode) : QStringList → QStringList
  | [] => []
  | a :: rest =>
    (if mode = .ExtendedMode ∧ a = auxToken then
       "-&".toList ++ d.pipeAux.readEnd.idAsString
     else a) :: substArgs d mode rest

/-- The argument list `fullargs` built by `GPGProc::start`. -/
def GPGProc.start.fullargs (d : Private) (args : QStringList) (mode : Mode) : QStringList :=
  let fullargs0 : QStringList := ["--no-tty".toList]
  let fullargs1 : QStringList :=
    if mode = .ExtendedMode then
      fullargs0 ++
        ["--enable-special-filenames".toList,
         "--status-fd".toList, d.pipeStatus.writeEnd.idAsString,
         "--command-fd".toList, d.pipeCommand.readEnd.idAsString]
    else fullargs0
  fullargs1 ++ substArgs d mode args

/-- The block of `GPGProc::start` that enables the pipe ends the session uses,
each one if it is valid. -/
def GPGProc.start.enablePipes (d : Private) : Private × List Effect :=
  let r1 : Private × List Effect :=
    if d.pipeAux.writeEnd.valid then
      ({ d with pipeAux := { d.pipeAux with writeEnd := d.pipeAux.writeEnd.enable } },
       [.writeEndEnable .Aux])
    else (d, [])
  let r2 : Private × List Effect :=
    if r1.1.pipeCommand.writeEnd.valid then
      ({ r1.1 with pipeCommand :=
          { r1.1.pipeCommand with writeEnd := r1.1.pipeCommand.writeEnd.enable } },
       r1.2 ++ [.writeEndEnable .Command])
    else r1
  if r2.1.pipeStatus.readEnd.valid then
    ({ r2.1 with pipeStatus :=
        { r2.1.pipeStatus with readEnd := r2.1.pipeStatus.readEnd.enable } },
     r2.2 ++ [.readEndEnable .Status])
  else r2

/-- The part of `GPGProc::start` that follows the pipe setup, in the build with
`Q_OS_UNIX`: the argument list is built, `need_status` is set in
`ExtendedMode`, the child is created, the pipes are enabled, the child is
started.  The new child is in state `Starting` once `SProcess::start` has been
called. -/
def GPGProc.start.launch (d : Private) (bin : QString) (args : QStringList) (mode : Mode) :
    Private × List Effect :=
  let fullargs : QStringList := GPGProc.start.fullargs d args mode
  let d1 : Private := if mode = .ExtendedMode then { d with need_status := true } else d
  let fullcmd : QString := List.intercalate " ".toList fullargs
  let plist : List Int :=
    [d1.pipeAux.writeEnd.id, d1.pipeCommand.writeEnd.id, d1.pipeStatus.readEnd.id]
  let en := GPGProc.start.enablePipes d1
  ({ en.1 with proc := some { state := .Starting, stdoutData := [], stderrData := [] } },
   [.debug ("Running: [".toList ++ bin ++ [' '] ++ fullcmd ++ [']']),
    .procSetClosePipeList plist] ++ en.2 ++ [.procStart bin fullargs])

/-- `GPGProc::start`.  The three `create()` calls of the pipe setup are
answered by `os`. -/
def GPGProc.start (os : StartEnv) (d : Private) (bin : QString) (args : QStringList)
    (mode : Mode) : Private × List Effect :=
  let r0 : Private × List Effect :=
    if GPGProc.isActive d then Private.reset d .ResetSessionAndData else (d, [])
  if mode = .ExtendedMode then
    let sp := Private.setupPipes os r0.1 (args.contains auxToken)
    if !sp.1 then
      -- emit later
      let d1 : Private := { sp.2.1 with error := .FailedToStart }
      (d1, r0.2 ++ sp.2.2 ++ [.errorQueued d1.error])
    else
      let l := GPGProc.start.launch sp.2.1 bin args mode
      (l.1, r0.2 ++ sp.2.2 ++ [.debug "Pipe setup complete".toList] ++ l.2)
  else
    let l := GPGProc.start.launch r0.1 bin args mode
    (l.1, r0.2 ++ l.2)

/-- `GPGProc::readStdout`: the bytes returned and the record afterwards. -/
def GPGProc.readStdout (d : Private) : QByteArray × Private :=
  match d.proc with
  | some p => (p.stdoutData, { d with proc := some { p with stdoutData := [] } })
  | none => (d.leftover_stdout, { d with leftover_stdout := [] })

/-- `GPGProc::readStderr`: the bytes returned and the record afterwards. -/
def GPGProc.readStderr (d : Private) : QByteArray × Private :=
  match d.proc with
  | some p => (p.stderrData, { d with proc := some { p with stderrData := [] } })
  | none => (d.leftover_stderr, { d with leftover_stderr := [] })

/-- `GPGProc::readStatusLines`: the lines returned and the record afterwards. -/
def GPGProc.readStatusLines (d : Private) : QStringList × Private :=
  (d.statusLines, { d with statusLines := [] })

/-- `GPGProc::writeStdin`. -/
def GPGProc.writeStdin (d : Private) (a : QByteArray) : Private × List Effect :=
  match d.proc with
  | none => (d, [])
  | some p =>
    if a.isEmpty then (d, [])
    else if p.state = .Running then (d, [.procWrite a])
    else ({ d with pre_stdin := d.pre_stdin ++ a }, [])

/-- `GPGProc::writeAux`. -/
def GPGProc.writeAux (d : Private) (a : QByteArray) : Private × List Effect :=
  match d.proc with
  | none => (d, [])
  | some p =>
    if a.isEmpty then (d, [])
    else if p.state = .Running then (d, [.writeEndWrite .Aux a])
    else ({ d with pre_aux := d.pre_aux ++ a }, [])

/-- `GPGProc::writeCommand` (the build without `QPIPE_SECURE`; the other one
differs in the array type only). -/
def GPGProc.writeCommand (d : Private) (a : QByteArray) : Private × List Effect :=
  match d.proc with
  | none => (d, [])
  | some p =>
    if a.isEmpty then (d, [])
    else if p.state = .Running then (d, [.writeEndWrite .Command a])
    else ({ d with pre_command := d.pre_command ++ a }, [])

/-- `GPGProc::closeStdin`. -/
def GPGProc.closeStdin (d : Private) : Private × List Effect :=
  match d.proc with
  | none => (d, [])
  | some p =>
    if p.state = .Running then (d, [.procCloseWriteChannel])
    else ({ d with pre_stdin_close := true }, [])

/-- `GPGProc::closeAux`. -/
def GPGProc.closeAux (d : Private) : Private × List Effect :=
  match d.proc with
  | none => (d, [])
  | some p =>
    if p.state = .Running then
      ({ d with pipeAux := { d.pipeAux with writeEnd := d.pipeAux.writeEnd.close } },
       [.writeEndClose .Aux])
    else ({ d with pre_aux_close := true }, [])

/-- `GPGProc::closeCommand`. -/
def GPGProc.closeCommand (d : Private) : Private × List Effect :=
  match d.proc with
  | none => (d, [])
  | some p =>
    if p.state = .Running then
      ({ d with pipeCommand :=
          { d.pipeCommand with writeEnd := d.pipeCommand.writeEnd.close } },
       [.writeEndClose .Command])
    else ({ d with pre_command_close := true }, [])

/-! ## Notifications reaching the session -/

/-- What can happen to a session between two calls of its owner: a signal of
a pipe end or of the child reaches its slot, or the child itself moves on
(its state changes, it produces output). -/
inductive Event
  | aux_written (x : Int)
  | aux_error (e : PipeError)
  | command_written (x : Int)
  | command_error (e : PipeError)
  | status_read (buf : QByteArray)
  | status_error (e : PipeError)
  | proc_started
  | proc_readyReadStandardOutput
  | proc_readyReadStandardError
  | proc_bytesWritten (lx : Int)
  | proc_finished (x : Int)
  | proc_error (x : ProcessError)
  | childState (s : ProcessState)
  | childStdout (a : QByteArray)
  | childStderr (a : QByteArray)
  deriving DecidableEq, Repr

/-- The child has ended: `proc_finished` or `proc_error`. -/
def Event.isProcessExit : Event → Bool
  | .proc_finished _ => true
  | .proc_error _ => true
  | _ => false

/-- The status channel has closed. -/
def Event.isStatusError : Event → Bool
  | .status_error _ => true
  | _ => false

/-- A write-side channel has failed: `aux_error` or `command_error`. -/
def Event.isWriteFault : Event → Bool
  | .aux_error _ => true
  | .command_error _ => true
  | _ => false

/-- One event.  The child is connected in `start` and disconnected in `reset`,
the pipes are enabled in `start` and released in `reset`: a session without a
child receives nothing. -/
def deliver (fromUtf8 : QByteArray → QString) (d : Private) (ev : Event) :
    Option (Private × List Effect) :=
  match d.proc with
  | none => some (d, [])
  | some p =>
    match ev with
    | .aux_written x => some (d.aux_written x)
    | .aux_error e => some (d.aux_error e)
    | .command_written x => some (d.command_written x)
    | .command_error e => some (d.command_error e)
    | .status_read buf => some (d.status_read fromUtf8 buf)
    | .status_error e => d.status_error e
    | .proc_started => d.proc_started
    | .proc_readyReadStandardOutput => some d.proc_readyReadStandardOutput
    | .proc_readyReadStandardError => some d.proc_readyReadStandardError
    | .proc_bytesWritten lx => some (d.proc_bytesWritten lx)
    | .proc_finished x => d.proc_finished x
    | .proc_error x => d.proc_error x
    | .childState s => some ({ d with proc := some { p with state := s } }, [])
    | .childStdout a =>
      some ({ d with proc := some { p with stdoutData := p.stdoutData ++ a } }, [])
    | .childStderr a =>
      some ({ d with proc := some { p with stderrData := p.stderrData ++ a } }, [])

/-- A sequence of events, one after the other; the effects are collected in
order. -/
def run (fromUtf8 : QByteArray → QString) (d : Private) :
    List Event → Option (Private × List Effect)
  | [] => some (d, [])
  | ev :: evs =>
    match deliver fromUtf8 d ev with
    | none => none
    | some r =>
      match run fromUtf8 r.1 evs with
      | none => none
      | some r2 => some (r2.1, r.2 ++ r2.2)

/-- The final notifications among a list of effects. -/
def finals (effs : List Effect) : List Effect := effs.filter Effect.isFinal

/-- The session is idle: no child, and the three barrier flags are down. -/
def Private.idle (d : Private) : Prop :=
  d.proc = none ∧ d.need_status = false ∧ d.fin_process = false ∧ d.fin_status = false

/-! ## Reference definitions for the status stream -/

/-- A byte stream cut at its line feeds: the lines that are terminated by a
line feed, in stream order and without the line feed, and what follows the last
line feed (the whole stream when it has none). -/
def splitLines : QByteArray → List QByteArray × QByteArray
  | [] => ([], [])
  | b :: bs =>
    if b = LF then ([] :: (splitLines bs).1, (splitLines bs).2)
    else
      match (splitLines bs).1 with
      | [] => ([], b :: (splitLines bs).2)
      | l :: ls => ((b :: l) :: ls, (splitLines bs).2)

/-- The line-feed-terminated lines of a byte stream, without the line feed. -/
def terminatedLines (s : QByteArray) : List QByteArray := (splitLines s).1

/-- What follows the last line feed of a byte stream. -/
def unterminatedTail (s : QByteArray) : QByteArray := (splitLines s).2

/-- What a line (given without its line feed) adds to the backlog: nothing
unless its text begins with the header, else the text after the header. -/
def statusEntry (fromUtf8 : QByteArray → QString) (line : QByteArray) : Option QString :=
  if (fromUtf8 line).take 9 = header then some ((fromUtf8 line).drop 9) else none

/-- What one turn of the loop of `processStatusData` does with the line it has
cut off (given here without its line feed). -/
def lineEntry (fromUtf8 : QByteArray → QString) (line : QByteArray) : Option QString :=
  let str : QString := fromUtf8 (line ++ [LF])
  let str : QString := QString.truncate str ((str.length : Int) - 1)
  if QString.left str 9 ≠ header then none else some (QString.mid str 9)

/-- Feeding the parser a sequence of chunks, one call per chunk. -/
def feedChunks (fromUtf8 : QByteArray → QString) (d : Private) :
    List QByteArray → Private
  | [] => d
  | c :: cs => feedChunks fromUtf8 (d.processStatusData fromUtf8 c).1 cs

/-- A decoder for sample inputs: every byte is taken as the character with
that code. -/
def bytewise (a : QByteArray) : QString := a.map fun b => Char.ofNat b.toNat

/-- The bytes of a sample text. -/
def bytesOf (s : String) : QByteArray := s.toList.map fun c => UInt8.ofNat c.toNat

/-! ## Reference definitions for the completion barrier -/

/-- The condition of the completion barrier: the process has finished, and the
status channel has finished too when the round needs it. -/
def Private.barrierOpen (d : Private) : Bool :=
  d.fin_process && (!d.need_status || d.fin_status)

/-- The final notification the record stands for: success with the exit code,
or failure with the recorded error. -/
def Private.outcome (d : Private) : Effect :=
  if d.fin_process_success then .finished d.exitCode else .error d.error

/-- The record the barrier leaves when it fires over the child `p`: the unread
output is kept as leftover, then the session is reset. -/
def Private.fired (d : Private) (p : SProcess) : Private :=
  (Private.reset
    { d with leftover_stdout := p.stdoutData, leftover_stderr := p.stderrData,
             proc := some { p with stdoutData := [], stderrData := [] } }
    .ResetSession).1

/-- The error class of a process error. -/
def classify : ProcessError → Error
  | .FailedToStart => .FailedToStart
  | .WriteError => .ErrorWrite
  | _ => .UnexpectedExit

/-- The final notification a process-exit event stands for. -/
def exitOutcome : Event → Option Effect
  | .proc_finished c => some (.finished c)
  | .proc_error x => some (.error (classify x))
  | _ => none

/-- The three outbound channels of a session. -/
inductive OutChannel
  | Stdin
  | Aux
  | Command
  deriving DecidableEq, Repr

/-- The write operation of an outbound channel. -/
def GPGProc.write (ch : OutChannel) (d : Private) (a : QByteArray) : Private × List Effect :=
  match ch with
  | .Stdin => GPGProc.writeStdin d a
  | .Aux => GPGProc.writeAux d a
  | .Command => GPGProc.writeCommand d a

/-- The close operation of an outbound channel. -/
def GPGProc.close (ch : OutChannel) (d : Private) : Private × List Effect :=
  match ch with
  | .Stdin => GPGProc.closeStdin d
  | .Aux => GPGProc.closeAux d
  | .Command => GPGProc.closeCommand d

/-- The pending buffer of an outbound channel. -/
def Private.pending (d : Private) : OutChannel → QByteArray
  | .Stdin => d.pre_stdin
  | .Aux => d.pre_aux
  | .Command => d.pre_command

/-- A sequence of write calls, each on its channel, one after the other. -/
def writeAll (d : Private) : List (OutChannel × QByteArray) → Private × List Effect
  | [] => (d, [])
  | w :: rest =>
    ((writeAll (GPGProc.write w.1 d w.2).1 rest).1,
     (GPGProc.write w.1 d w.2).2 ++ (writeAll (GPGProc.write w.1 d w.2).1 rest).2)

/-- The payloads a sequence of write calls passes to one channel, in call
order. -/
def payloadsFor (ch : OutChannel) : List (OutChannel × QByteArray) → List QByteArray
  | [] => []
  | w :: rest => if w.1 = ch then w.2 :: payloadsFor ch rest else payloadsFor ch rest

/-- The byte strings that a list of effects writes to one channel, in order. -/
def written (ch : OutChannel) : List Effect → List QByteArray
  | [] => []
  | .procWrite a :: rest => if ch = .Stdin then a :: written ch rest else written ch rest
  | .writeEndWrite .Aux a :: rest =>
    if ch = .Aux then a :: written ch rest else written ch rest
  | .writeEndWrite .Command a :: rest =>
    if ch = .Command then a :: written ch rest else written ch rest
  | _ :: rest => written ch rest

/-- The record once the child has reached the state `Running`. -/
def Private.childRunning (d : Private) : Private :=
  match d.proc with
  | none => d
  | some p => { d with proc := some { p with state := .Running } }

/-! ## Calls of the owner -/

/-- A call of one of the public methods of `GPGProc`. -/
inductive Call
  | start (os : StartEnv) (bin : QString) (args : QStringList) (mode : Mode)
  | reset
  | writeStdin (a : QByteArray)
  | writeAux (a : QByteArray)
  | writeCommand (a : QByteArray)
  | closeStdin
  | closeAux
  | closeCommand
  | readStdout
  | readStderr
  | readStatusLines
  deriving DecidableEq, Repr

/-- What a call returns to the owner. -/
inductive Reply
  | unit
  | bytes (a : QByteArray)
  | lines (l : QStringList)
  deriving DecidableEq, Repr

/-- One call: the record afterwards, the effects, the value returned. -/
def GPGProc.call (d : Private) : Call → Private × List Effect × Reply
  | .start os bin args mode =>
    ((GPGProc.start os d bin args mode).1, (GPGProc.start os d bin args mode).2, .unit)
  | .reset => ((GPGProc.reset d).1, (GPGProc.reset d).2, .unit)
  | .writeStdin a => ((GPGProc.writeStdin d a).1, (GPGProc.writeStdin d a).2, .unit)
  | .writeAux a => ((GPGProc.writeAux d a).1, (GPGProc.writeAux d a).2, .unit)
  | .writeCommand a => ((GPGProc.writeCommand d a).1, (GPGProc.writeCommand d a).2, .unit)
  | .closeStdin => ((GPGProc.closeStdin d).1, (GPGProc.closeStdin d).2, .unit)
  | .closeAux => ((GPGProc.closeAux d).1, (GPGProc.closeAux d).2, .unit)
  | .closeCommand => ((GPGProc.closeCommand d).1, (GPGProc.closeCommand d).2, .unit)
  | .readStdout => ((GPGProc.readStdout d).2, [], .bytes (GPGProc.readStdout d).1)
  | .readStderr => ((GPGProc.readStderr d).2, [], .bytes (GPGProc.readStderr d).1)
  | .readStatusLines =>
    ((GPGProc.readStatusLines d).2, [], .lines (GPGProc.readStatusLines d).1)

/-- A `start` or a full `reset`. -/
def Call.isStartOrReset : Call → Bool
  | .start _ _ _ _ => true
  | .reset => true
  | _ => false

/-- The byte strings returned by the `readStdout` calls of a sequence of calls,
in call order. -/
def stdoutReads (d : Private) : List Call → List QByteArray
  | [] => []
  | .readStdout :: rest =>
    (GPGProc.readStdout d).1 :: stdoutReads (GPGProc.call d .readStdout).1 rest
  | c :: rest => stdoutReads (GPGProc.call d c).1 rest

/-- The byte strings returned by the `readStderr` calls of a sequence of calls,
in call order. -/
def stderrReads (d : Private) : List Call → List QByteArray
  | [] => []
  | .readStderr :: rest =>
    (GPGProc.readStderr d).1 :: stderrReads (GPGProc.call d .readStderr).1 rest
  | c :: rest => stderrReads (GPGProc.call d c).1 rest

/-- The byte string `o` once, then the empty byte string: what `n` reads
return when `o` is kept and nothing is added. -/
def onceThenEmpty (o : QByteArray) : Nat → List QByteArray
  | 0 => []
  | n + 1 => o :: List.replicate n []

/-! ## Sample inputs -/

/-- An operating system that makes all three pipes. -/
def sampleEnv : StartEnv :=
  { aux := some { readId := 3, readIdAsString := "3".toList,
                  writeId := 4, writeIdAsString := "4".toList },
    command := some { readId := 5, readIdAsString := "5".toList,
                      writeId := 6, writeIdAsString := "6".toList },
    status := some { readId := 7, readIdAsString := "7".toList,
                     writeId := 8, writeIdAsString := "8".toList } }

/-- A freshly constructed session on which `start` has been called. -/
def sampleRound (mode : Mode) : Private :=
  (GPGProc.start sampleEnv (GPGProc.init false) "gpg".toList ["--op".toList] mode).1

/-- The child of `sampleRound`. -/
def sampleChild : SProcess := { state := .Starting, stdoutData := [], stderrData := [] }

/-! ## Reference definitions for `start`, `reset` and reachable records -/

/-- A pipe whose two ends hold no descriptor: what `QPipe::reset` leaves. -/
def QPipe.closed : QPipe := { readEnd := QPipeEnd.invalid, writeEnd := QPipeEnd.invalid }

/-- The argument list with which a list of effects starts the child: that of
its first `procStart`. -/
def spawnedArgs : List Effect → Option QStringList
  | [] => none
  | .procStart _ args :: _ => some args
  | _ :: rest => spawnedArgs rest

/-- An `error` signal posted for later delivery. -/
def Effect.isQueued : Effect → Bool
  | .errorQueued _ => true
  | _ => false

/-- A signal of `GPGProc` other than the diagnostic trace, emitted at once. -/
def Effect.isNotification : Effect → Bool
  | .readyReadStdout => true
  | .readyReadStderr => true
  | .readyReadStatusLines => true
  | .bytesWrittenStdin _ => true
  | .bytesWrittenAux _ => true
  | .bytesWrittenCommand _ => true
  | .finished _ => true
  | .error _ => true
  | _ => false

/-- The placeholder rule for one argument: the token that is exactly the
placeholder becomes `-&` followed by the identifier, every other token stays. -/
def substToken (auxId : QString) (a : QString) : QString :=
  if a = auxToken then "-&".toList ++ auxId else a

/-- The identifier string of the read end of the aux pipe the operating system
makes (empty when it makes none). -/
def StartEnv.auxReadId (os : StartEnv) : QString :=
  match os.aux with
  | some ids => ids.readIdAsString
  | none => []

/-- Whether the pipe setup of `start` in `ExtendedMode` succeeds: the aux pipe
when the arguments ask for it, the command pipe and the status pipe can all be
made. -/
def StartEnv.setupOk (os : StartEnv) (args : QStringList) : Bool :=
  (!args.contains auxToken || os.aux.isSome) && os.command.isSome && os.status.isSome

/-- No write and no close is pending: the pending buffers are empty and the
pending-close flags are down. -/
def Private.nothingPending (d : Private) : Prop :=
  d.pre_stdin = [] ∧ d.pre_aux = [] ∧ d.pre_command = []
    ∧ d.pre_stdin_close = false ∧ d.pre_aux_close = false ∧ d.pre_command_close = false

/-- Nothing of a round is left: the pending buffers are empty, the
pending-close flags and the three barrier flags are down. -/
def Private.cleared (d : Private) : Prop :=
  d.pre_stdin = [] ∧ d.pre_aux = [] ∧ d.pre_command = []
    ∧ d.pre_stdin_close = false ∧ d.pre_aux_close = false ∧ d.pre_command_close = false
    ∧ d.need_status = false ∧ d.fin_process = false ∧ d.fin_status = false

/-- One thing that happens to a session: a call of its owner, or an event. -/
inductive Step
  | call (c : Call)
  | event (ev : Event)
  deriving DecidableEq, Repr

/-- The record after one step. -/
def step (fromUtf8 : QByteArray → QString) (d : Private) : Step → Option Private
  | .call c => some (GPGProc.call d c).1
  | .event ev => (deliver fromUtf8 d ev).map fun r => r.1

/-- The record after a sequence of steps. -/
def steps (fromUtf8 : QByteArray → QString) (d : Private) : List Step → Option Private
  | [] => some d
  | st :: rest =>
    match step fromUtf8 d st with
    | none => none
    | some d1 => steps fromUtf8 d1 rest

/-- Housekeeping: an effect that is no signal to the owner other than the
trace, posts nothing, starts no child and writes to no channel. -/
def Effect.isQuiet : Effect → Bool
  | .debug _ => true
  | .procSetClosePipeList _ => true
  | .procDisconnect => true
  | .procTerminate => true
  | .procDeleteLater => true
  | .pipeReset _ => true
  | .pipeCreate _ => true
  | .readEndClose _ => true
  | .readEndEnable _ => true
  | .writeEndClose _ => true
  | .writeEndEnable _ => true
  | _ => false

/-- `QPipeEnd::enable()` on an end that is valid, nothing otherwise: what
`start` does to each end it uses. -/
def QPipeEnd.enableIfValid (e : QPipeEnd) : QPipeEnd := if e.valid then e.enable else e

/-- The pipe `QPipe::create` leaves when the operating system gives `ids`. -/
def QPipe.created (ids : PipeIds) : QPipe :=
  { readEnd := { valid := true, enabled := false, id := ids.readId,
                 idAsString := ids.readIdAsString },
    writeEnd := { valid := true, enabled := false, id := ids.writeId,
                  idAsString := ids.writeIdAsString } }

/-- The child `start` creates. -/
def SProcess.fresh : SProcess := { state := .Starting, stdoutData := [], stderrData := [] }

/-- The record on which `start` works after its first statement: the reset
record when the session is active, the record itself otherwise. -/
def GPGProc.start.entry (d : Private) : Private × List Effect :=
  if GPGProc.isActive d then Private.reset d .ResetSessionAndData else (d, [])

/-! ## Reference definitions for decoding, and for calls before startup -/

/-- A decoder for sample inputs that reads a byte string the way
`QString::fromUtf8` of Qt 4 and Qt 5 reads a `QByteArray`: up to its first NUL
byte only.  The bytes before it are taken as the characters with their codes,
which is what UTF-8 gives for ASCII. -/
def untilNul (a : QByteArray) : QString := bytewise (a.takeWhile fun b => b ≠ 0)

/-- The effect that writes a byte string to an outbound channel. -/
def writeEffect : OutChannel → QByteArray → Effect
  | .Stdin, a => .procWrite a
  | .Aux, a => .writeEndWrite .Aux a
  | .Command, a => .writeEndWrite .Command a

/-- The effect that closes an outbound channel. -/
def closeEffect : OutChannel → Effect
  | .Stdin => .procCloseWriteChannel
  | .Aux => .writeEndClose .Aux
  | .Command => .writeEndClose .Command

/-- A write to one of the three outbound channels. -/
def Effect.isOutWrite : Effect → Bool
  | .procWrite _ => true
  | .writeEndWrite _ _ => true
  | _ => false

/-- The closing of one of the three outbound channels. -/
def Effect.isOutClose : Effect → Bool
  | .procCloseWriteChannel => true
  | .writeEndClose .Aux => true
  | .writeEndClose .Command => true
  | _ => false

/-- The pending-close flag of an outbound channel. -/
def Private.pendingClose (d : Private) : OutChannel → Bool
  | .Stdin => d.pre_stdin_close
  | .Aux => d.pre_aux_close
  | .Command => d.pre_command_close

/-- A write call or a close call on an outbound channel. -/
inductive OutOp
  | write (ch : OutChannel) (a : QByteArray)
  | close (ch : OutChannel)
  deriving DecidableEq, Repr

/-- One write or close call. -/
def GPGProc.outOp (d : Private) : OutOp → Private × List Effect
  | .write ch a => GPGProc.write ch d a
  | .close ch => GPGProc.close ch d

/-- A sequence of write and close calls, one after the other; the effects are
collected in order. -/
def outOps (d : Private) : List OutOp → Private × List Effect
  | [] => (d, [])
  | op :: rest =>
    ((outOps (GPGProc.outOp d op).1 rest).1,
     (GPGProc.outOp d op).2 ++ (outOps (GPGProc.outOp d op).1 rest).2)

/-- The bytes a sequence of calls passes to one channel, in call order. -/
def writtenTo (ch : OutChannel) : List OutOp → QByteArray
  | [] => []
  | .write c a :: rest => if c = ch then a ++ writtenTo ch rest else writtenTo ch rest
  | .close _ :: rest => writtenTo ch rest

/-- Whether a sequence of calls asks for the closing of one channel. -/
def closeAsked (ch : OutChannel) : List OutOp → Bool
  | [] => false
  | .write _ _ :: rest => closeAsked ch rest
  | .close c :: rest => if c = ch then true else closeAsked ch rest

/-! ## Lemmas on the status parser -/

theorem exists_first_LF (s : QByteArray) (h : LF ∈ s) :
    ∃ l rest, s = l ++ LF :: rest ∧ LF ∉ l := by
  induction s with
  | nil => simp at h
  | cons b bs ih =>
    by_cases hb : b = LF
    · exact ⟨[], bs, by simp [hb], by simp⟩
    · have hbs : LF ∈ bs := by
        rcases List.mem_cons.1 h with h1 | h1
        · exact absurd h1.symm hb
        · exact h1
      obtain ⟨l, rest, hs, hl⟩ := ih hbs
      refine ⟨b :: l, rest, by simp [hs], ?_⟩
      simp only [List.mem_cons, not_or]
      exact ⟨fun hc => hb hc.symm, hl⟩

theorem splitLines_of_not_mem (s : QByteArray) (h : LF ∉ s) : splitLines s = ([], s) := by
  induction s with
  | nil => rfl
  | cons b bs ih =>
    simp only [List.mem_cons, not_or] at h
    have hb : b ≠ LF := fun hc => h.1 hc.symm
    simp [splitLines, hb, ih h.2]

theorem splitLines_line (l rest : QByteArray) (h : LF ∉ l) :
    splitLines (l ++ LF :: rest) = (l :: (splitLines rest).1, (splitLines rest).2) := by
  induction l with
  | nil => simp [splitLines]
  | cons b bs ih =>
    simp only [List.mem_cons, not_or] at h
    have hb : b ≠ LF := fun hc => h.1 hc.symm
    simp [splitLines, hb, ih h.2]

theorem unterminatedTail_no_LF (s : QByteArray) : LF ∉ unterminatedTail s := by
  generalize hlen : s.length = n
  induction n using Nat.strong_induction_on generalizing s with
  | _ n ih =>
    by_cases h : LF ∈ s
    · obtain ⟨l, rest, hs, hl⟩ := exists_first_LF s h
      subst hs
      have := ih rest.length (by simp [← hlen]; omega) rest rfl
      simpa [unterminatedTail, splitLines_line l rest hl] using this
    · simpa [unterminatedTail, splitLines_of_not_mem s h] using h

theorem splitLines_append (x y : QByteArray) :
    splitLines (x ++ y) =
      ((splitLines x).1 ++ (splitLines ((splitLines x).2 ++ y)).1,
       (splitLines ((splitLines x).2 ++ y)).2) := by
  generalize hlen : x.length = n
  induction n using Nat.strong_induction_on generalizing x with
  | _ n ih =>
    by_cases h : LF ∈ x
    · obtain ⟨l, rest, hs, hl⟩ := exists_first_LF x h
      subst hs
      have h1 := ih rest.length (by simp [← hlen]; omega) rest rfl
      have h2 : l ++ LF :: rest ++ y = l ++ LF :: (rest ++ y) := by simp
      rw [h2, splitLines_line l (rest ++ y) hl, splitLines_line l rest hl, h1]
      simp
    · simp [splitLines_of_not_mem x h]

theorem loop_eq (fromUtf8 : QByteArray → QString) (s : QByteArray) (list : QStringList) :
    Private.processStatusData.loop fromUtf8 s list =
      (unterminatedTail s, list ++ (terminatedLines s).filterMap (lineEntry fromUtf8)) := by
  generalize hlen : s.length = n
  induction n using Nat.strong_induction_on generalizing s list with
  | _ n ih =>
    rw [Private.processStatusData.loop]
    by_cases h : LF ∈ s
    · obtain ⟨l, rest, hs, hl⟩ := exists_first_LF s h
      subst hs
      have hidx : QByteArray.indexOf (l ++ LF :: rest) LF = (l.length : Int) := by
        simp [QByteArray.indexOf, List.indexOf_append_of_not_mem hl]
      have hne : ¬ ((l.length : Int) = -1) := by omega
      have htn : ((l.length : Int) + 1).toNat = l.length + 1 := by omega
      have hnew : (((l ++ LF :: rest).length : Int) - ((l.length : Int) + 1)).toNat
          = rest.length := by
        simp only [List.length_append, List.length_cons]; omega
      have htake : List.take (l.length + 1) (l ++ LF :: rest) = l ++ [LF] := by
        rw [List.take_append_eq_append_take]; simp
      have hdrop : List.drop (l.length + 1) (l ++ LF :: rest) = rest := by
        rw [List.drop_append_eq_append_drop]; simp
      have ih1 := fun list1 => ih rest.length (by simp [← hlen]; omega) rest list1 rfl
      simp only [hidx, hne, dite_false, htn, hnew, htake, hdrop, List.take_length, ih1]
      simp only [unterminatedTail, terminatedLines, splitLines_line l rest hl,
        List.filterMap_cons, lineEntry]
      by_cases hh : QString.left (QString.truncate (fromUtf8 (l ++ [LF]))
          (((fromUtf8 (l ++ [LF])).length : Int) - 1)) 9 = header
      · simp [hh]
      · simp [hh]
    · have hidx : QByteArray.indexOf s LF = -1 := by simp [QByteArray.indexOf, h]
      simp [hidx, unterminatedTail, terminatedLines, splitLines_of_not_mem s h]

theorem processStatusData_eq (fromUtf8 : QByteArray → QString) (d : Private)
    (buf : QByteArray) :
    d.processStatusData fromUtf8 buf =
      ({ d with
          statusBuf := unterminatedTail (d.statusBuf ++ buf),
          statusLines := d.statusLines ++
            (terminatedLines (d.statusBuf ++ buf)).filterMap (lineEntry fromUtf8) },
       !((terminatedLines (d.statusBuf ++ buf)).filterMap (lineEntry fromUtf8)).isEmpty) := by
  unfold Private.processStatusData
  simp only [loop_eq, List.nil_append]
  by_cases h : ((terminatedLines (d.statusBuf ++ buf)).filterMap (lineEntry fromUtf8)).isEmpty
  · have h2 : (terminatedLines (d.statusBuf ++ buf)).filterMap (lineEntry fromUtf8) = [] := by
      simpa using h
    simp [h2]
  · simp [h]

theorem splitLines_flatten (s : QByteArray) :
    s = ((terminatedLines s).map fun l => l ++ [LF]).flatten ++ unterminatedTail s := by
  generalize hlen : s.length = n
  induction n using Nat.strong_induction_on generalizing s with
  | _ n ih =>
    by_cases h : LF ∈ s
    · obtain ⟨l, rest, hs, hl⟩ := exists_first_LF s h
      subst hs
      have h1 := ih rest.length (by simp [← hlen]; omega) rest rfl
      simp only [terminatedLines, unterminatedTail] at h1 ⊢
      rw [splitLines_line l rest hl]
      simp only [List.map_cons, List.flatten_cons, List.append_assoc, List.singleton_append]
      rw [List.cons_append, ← h1]
    · simp [terminatedLines, unterminatedTail, splitLines_of_not_mem s h]

theorem terminatedLines_no_LF (s : QByteArray) : ∀ l ∈ terminatedLines s, LF ∉ l := by
  generalize hlen : s.length = n
  induction n using Nat.strong_induction_on generalizing s with
  | _ n ih =>
    by_cases h : LF ∈ s
    · obtain ⟨l, rest, hs, hl⟩ := exists_first_LF s h
      subst hs
      have h1 := ih rest.length (by simp [← hlen]; omega) rest rfl
      simp only [terminatedLines] at h1 ⊢
      rw [splitLines_line l rest hl]
      intro l1 hl1
      rcases List.mem_cons.1 hl1 with h2 | h2
      · rw [h2]; exact hl
      · exact h1 l1 h2
    · simp [terminatedLines, splitLines_of_not_mem s h]

theorem unterminatedTail_after_LF (s : QByteArray) (h : LF ∈ s) :
    ∃ pre, s = pre ++ LF :: unterminatedTail s := by
  generalize hlen : s.length = n
  induction n using Nat.strong_induction_on generalizing s with
  | _ n ih =>
    obtain ⟨l, rest, hs, hl⟩ := exists_first_LF s h
    subst hs
    have ht : unterminatedTail (l ++ LF :: rest) = unterminatedTail rest := by
      simp [unterminatedTail, splitLines_line l rest hl]
    rw [ht]
    by_cases hr : LF ∈ rest
    · obtain ⟨pre, hpre⟩ := ih rest.length (by simp [← hlen]; omega) rest hr rfl
      refine ⟨l ++ LF :: pre, ?_⟩
      conv_lhs => rw [hpre]
      simp
    · refine ⟨l, ?_⟩
      simp [unterminatedTail, splitLines_of_not_mem rest hr]

theorem lineEntry_eq_statusEntry (fromUtf8 : QByteArray → QString) (l : QByteArray)
    (h : fromUtf8 (l ++ [LF]) = fromUtf8 l ++ ['\n']) :
    lineEntry fromUtf8 l = statusEntry fromUtf8 l := by
  have ht : QString.truncate (fromUtf8 l ++ ['\n'])
      (((fromUtf8 l ++ ['\n']).length : Int) - 1) = fromUtf8 l := by
    unfold QString.truncate
    have h1 : (((fromUtf8 l ++ ['\n']).length : Int) - 1) = ((fromUtf8 l).length : Int) := by
      simp
    rw [h1]
    simp
  unfold lineEntry statusEntry
  simp only [h, ht, QString.left, QString.mid]
  by_cases hh : List.take 9 (fromUtf8 l) = header <;> simp [hh]

theorem processStatusData_twice (fromUtf8 : QByteArray → QString) (d : Private)
    (x y : QByteArray) :
    ((d.processStatusData fromUtf8 x).1.processStatusData fromUtf8 y).1 =
      (d.processStatusData fromUtf8 (x ++ y)).1 := by
  simp only [processStatusData_eq, unterminatedTail, terminatedLines]
  rw [← List.append_assoc d.statusBuf x y, splitLines_append (d.statusBuf ++ x) y]
  simp

/-! ## The status parser: chunking, backlog, accumulator, return value -/

/-- C1. Chunk-invariance of the status parser: from every session record, for
every decoder and every non-empty sequence of chunks (empty chunks allowed),
calling `processStatusData` once per chunk, in order, ends in the same record
(so the same `statusBuf` and the same `statusLines`) as one call on the
concatenation of the chunks. -/
theorem processStatusData_chunk_invariant (fromUtf8 : QByteArray → QString) (d : Private)
    (c : QByteArray) (cs : List QByteArray) :
    feedChunks fromUtf8 d (c :: cs) =
        (d.processStatusData fromUtf8 (c ++ cs.flatten)).1
      ∧ (feedChunks fromUtf8 d (c :: cs)).statusBuf =
        (d.processStatusData fromUtf8 (c ++ cs.flatten)).1.statusBuf
      ∧ (feedChunks fromUtf8 d (c :: cs)).statusLines =
        (d.processStatusData fromUtf8 (c ++ cs.flatten)).1.statusLines := by
  have key : feedChunks fromUtf8 d (c :: cs) =
      (d.processStatusData fromUtf8 (c ++ cs.flatten)).1 := by
    induction cs generalizing d c with
    | nil => simp [feedChunks]
    | cons c1 cs ih =>
      have h := ih (d.processStatusData fromUtf8 c).1 c1
      rw [feedChunks, h, processStatusData_twice]
      simp
  exact ⟨key, by rw [key], by rw [key]⟩

/-- The backlog when the decoder reads every line through to its line feed.
For a decoder that turns every terminated line of the stream followed by a line
feed into the text of the line followed by a line-feed character,
`statusLines` after `processStatusData(buf)` is the previous `statusLines`
followed, in stream order, by the text after the nine-character header of each
line-feed-terminated line of `previous statusBuf ++ buf` whose text begins with
the header; the other lines add nothing.  Sample: with a decoder that reads
ASCII bytes as themselves, from an empty parser state the feed of two header
lines `LINE1`, `LINE2` and a line `ignored` makes `readStatusLines` return
`LINE1`, `LINE2`. -/
theorem processStatusData_backlog (fromUtf8 : QByteArray → QString) (d : Private)
    (buf : QByteArray)
    (hdec : ∀ l ∈ terminatedLines (d.statusBuf ++ buf),
      fromUtf8 (l ++ [LF]) = fromUtf8 l ++ ['\n'])
    (hascii : ∀ l : QByteArray, (∀ b ∈ l, 0 < b ∧ b < 128) → fromUtf8 l = bytewise l) :
    (d.processStatusData fromUtf8 buf).1.statusLines =
        d.statusLines ++
          (terminatedLines (d.statusBuf ++ buf)).filterMap (statusEntry fromUtf8)
      ∧ (∀ d0 : Private, d0.statusBuf = [] → d0.statusLines = [] →
          (GPGProc.readStatusLines
            (d0.processStatusData fromUtf8
              (bytesOf "[GNUPG:] LINE1\n[GNUPG:] LINE2\nignored\n")).1).1 =
            ["LINE1".toList, "LINE2".toList]) := by
  constructor
  · rw [processStatusData_eq]
    show d.statusLines ++ _ = _
    congr 1
    exact List.filterMap_congr fun l hl => lineEntry_eq_statusEntry fromUtf8 l (hdec l hl)
  · intro d0 hb hl
    rw [processStatusData_eq]
    show d0.statusLines ++ _ = _
    rw [hb, hl]
    have hlines : terminatedLines ([] ++ bytesOf "[GNUPG:] LINE1\n[GNUPG:] LINE2\nignored\n") =
        [bytesOf "[GNUPG:] LINE1", bytesOf "[GNUPG:] LINE2", bytesOf "ignored"] := by
      decide
    have e1 : lineEntry fromUtf8 (bytesOf "[GNUPG:] LINE1") = some "LINE1".toList := by
      unfold lineEntry
      rw [hascii _ (by decide)]
      decide
    have e2 : lineEntry fromUtf8 (bytesOf "[GNUPG:] LINE2") = some "LINE2".toList := by
      unfold lineEntry
      rw [hascii _ (by decide)]
      decide
    have e3 : lineEntry fromUtf8 (bytesOf "ignored") = none := by
      unfold lineEntry
      rw [hascii _ (by decide)]
      decide
    rw [hlines]
    simp [List.filterMap_cons, e1, e2, e3]

/-- The bytewise decoder on a constructed session reads every line through to
its line feed. -/
theorem processStatusData_backlog_witness :
    ((GPGProc.init false).processStatusData bytewise (bytesOf "[GNUPG:] A\nB\n")).1.statusLines =
        (GPGProc.init false).statusLines ++
          (terminatedLines ((GPGProc.init false).statusBuf ++ bytesOf "[GNUPG:] A\nB\n")).filterMap
            (statusEntry bytewise)
      ∧ (∀ d0 : Private, d0.statusBuf = [] → d0.statusLines = [] →
          (GPGProc.readStatusLines
            (d0.processStatusData bytewise
              (bytesOf "[GNUPG:] LINE1\n[GNUPG:] LINE2\nignored\n")).1).1 =
            ["LINE1".toList, "LINE2".toList]) :=
  processStatusData_backlog bytewise (GPGProc.init false) (bytesOf "[GNUPG:] A\nB\n")
    (fun l _ => by
      simp only [bytewise, List.map_append, List.map_cons, List.map_nil]
      exact congrArg _ (by decide))
    (fun _ _ => rfl)

/-- C2. The backlog at a line that holds a NUL byte.  The status bytes
`[GNUPG:] AB`, NUL, `CD`, line feed are one terminated line that begins with the
header.  `QString::fromUtf8` of Qt 4 and Qt 5 stops at the NUL, so the string
made from the line and its line feed is `[GNUPG:] AB`: it does not end in the
line feed, and `truncate(length - 1)`, which the source comments as
`convert to string without newline`, takes the `B` off.  From a constructed
session the backlog becomes `A`, and `readStatusLines` returns `A`; the text
after the header of that line, with only the line feed removed, is `AB`. -/
theorem processStatusData_nul_line :
    terminatedLines ((GPGProc.init false).statusBuf ++
        (bytesOf "[GNUPG:] AB" ++ [0] ++ bytesOf "CD\n"))
        = [bytesOf "[GNUPG:] AB" ++ [0] ++ bytesOf "CD"]
      ∧ untilNul (bytesOf "[GNUPG:] AB" ++ [0] ++ bytesOf "CD" ++ [LF]) = "[GNUPG:] AB".toList
      ∧ ((GPGProc.init false).processStatusData untilNul
          (bytesOf "[GNUPG:] AB" ++ [0] ++ bytesOf "CD\n")).1.statusLines = ["A".toList]
      ∧ (GPGProc.readStatusLines
          ((GPGProc.init false).processStatusData untilNul
            (bytesOf "[GNUPG:] AB" ++ [0] ++ bytesOf "CD\n")).1).1 = ["A".toList]
      ∧ (GPGProc.init false).statusLines ++
          (terminatedLines ((GPGProc.init false).statusBuf ++
            (bytesOf "[GNUPG:] AB" ++ [0] ++ bytesOf "CD\n"))).filterMap (statusEntry untilNul)
          = ["AB".toList] := by
  refine ⟨by decide, by decide, ?_, ?_, by decide⟩
  · rw [processStatusData_eq]
    decide
  · rw [processStatusData_eq]
    decide

/-- C3. Accumulator invariant: after `processStatusData(buf)` the accumulator
`statusBuf` holds no line feed and is exactly what follows the last line feed of
`previous statusBuf ++ buf` (all of it when it has no line feed); the stream is
the terminated lines, each with its line feed, followed by the accumulator, so
no unterminated bytes reach the backlog and no terminated line stays behind. -/
theorem processStatusData_accumulator (fromUtf8 : QByteArray → QString) (d : Private)
    (buf : QByteArray) :
    LF ∉ (d.processStatusData fromUtf8 buf).1.statusBuf
      ∧ (LF ∈ d.statusBuf ++ buf →
          ∃ pre, d.statusBuf ++ buf =
            pre ++ LF :: (d.processStatusData fromUtf8 buf).1.statusBuf)
      ∧ (LF ∉ d.statusBuf ++ buf →
          (d.processStatusData fromUtf8 buf).1.statusBuf = d.statusBuf ++ buf)
      ∧ d.statusBuf ++ buf =
          ((terminatedLines (d.statusBuf ++ buf)).map fun l => l ++ [LF]).flatten ++
            (d.processStatusData fromUtf8 buf).1.statusBuf
      ∧ (d.processStatusData fromUtf8 buf).1.statusLines =
          d.statusLines ++
            (terminatedLines (d.statusBuf ++ buf)).filterMap (lineEntry fromUtf8) := by
  rw [processStatusData_eq]
  refine ⟨unterminatedTail_no_LF _, unterminatedTail_after_LF _, ?_, splitLines_flatten _, rfl⟩
  intro h
  simp [unterminatedTail, splitLines_of_not_mem _ h]

theorem reset_session (d : Private) :
    (d.reset .ResetSession).1 =
      { d with pipeAux := d.pipeAux.reset, pipeCommand := d.pipeCommand.reset,
               pipeStatus := d.pipeStatus.reset, proc := none,
               pre_stdin := [], pre_aux := [], pre_command := [],
               pre_stdin_close := false, pre_aux_close := false,
               pre_command_close := false,
               need_status := false, fin_process := false, fin_status := false } := by
  unfold Private.reset Private.releaseProc Private.closePipes
  cases h : d.proc <;> simp [h, ResetMode.toNat]

theorem finals_append (a b : List Effect) : finals (a ++ b) = finals a ++ finals b := by
  simp [finals]

theorem reset_finals (d : Private) (mode : ResetMode) : finals (d.reset mode).2 = [] := by
  unfold Private.reset Private.releaseProc Private.closePipes finals
  cases h : d.proc with
  | none => simp [h, Effect.isFinal]
  | some p =>
    by_cases hs : p.state = .NotRunning <;> simp [h, hs, Effect.isFinal]

theorem reset_idle (d : Private) (mode : ResetMode) : (d.reset mode).1.idle := by
  unfold Private.reset Private.releaseProc Private.closePipes Private.idle
  cases h : d.proc <;> cases mode <;> simp [h, ResetMode.toNat]

theorem doTryDone_closed (d : Private) (h : d.barrierOpen = false) :
    d.doTryDone = some (d, []) := by
  unfold Private.doTryDone
  unfold Private.barrierOpen at h
  cases hf : d.fin_process <;> cases hn : d.need_status <;> cases hs : d.fin_status <;>
    simp_all

theorem doTryDone_open (d : Private) (p : SProcess) (hp : d.proc = some p)
    (h : d.barrierOpen = true) :
    ∃ effs, d.doTryDone = some (d.fired p, effs) ∧ finals effs = [d.outcome] := by
  unfold Private.barrierOpen at h
  have hf : d.fin_process = true := by
    cases hf : d.fin_process <;> simp_all
  have hg : (d.need_status && !d.fin_status) = false := by
    cases hn : d.need_status <;> cases hs : d.fin_status <;> simp_all
  unfold Private.doTryDone
  simp only [hf, hg, hp, Bool.not_true, Bool.false_eq_true, if_false]
  refine ⟨_, rfl, ?_⟩
  rw [finals_append, finals_append, reset_finals]
  simp only [reset_session, Private.outcome]
  by_cases hs : d.fin_process_success = true <;> simp [finals, hs, Effect.isFinal]

theorem status_read_frame (fromUtf8 : QByteArray → QString) (d : Private) (buf : QByteArray) :
    (d.status_read fromUtf8 buf).1.proc = d.proc
      ∧ (d.status_read fromUtf8 buf).1.need_status = d.need_status
      ∧ (d.status_read fromUtf8 buf).1.fin_process = d.fin_process
      ∧ (d.status_read fromUtf8 buf).1.fin_status = d.fin_status
      ∧ (d.status_read fromUtf8 buf).1.outcome = d.outcome
      ∧ finals (d.status_read fromUtf8 buf).2 = [] := by
  unfold Private.status_read
  by_cases hb : buf.isEmpty = true
  · simp [hb, finals]
  · simp only [hb, if_false, processStatusData_eq]
    split_ifs <;> simp [finals, Effect.isFinal, Private.outcome]

theorem proc_started_eq (d : Private) (p : SProcess) (hp : d.proc = some p) :
    d.proc_started =
      some
        ({ d with
            pipeAux :=
              { readEnd := QPipeEnd.invalid,
                writeEnd := if d.pre_aux_close then QPipeEnd.invalid else d.pipeAux.writeEnd },
            pipeCommand :=
              { readEnd := QPipeEnd.invalid,
                writeEnd :=
                  if d.pre_command_close then QPipeEnd.invalid else d.pipeCommand.writeEnd },
            pipeStatus := { d.pipeStatus with writeEnd := QPipeEnd.invalid },
            pre_stdin := [], pre_aux := [], pre_command := [] },
         [.debug "Process started".toList,
          .readEndClose .Aux, .readEndClose .Command, .writeEndClose .Status] ++
           (if !d.pre_stdin.isEmpty then [.procWrite d.pre_stdin] else []) ++
           (if !d.pre_aux.isEmpty then [.writeEndWrite .Aux d.pre_aux] else []) ++
           (if !d.pre_command.isEmpty then [.writeEndWrite .Command d.pre_command] else []) ++
           (if d.pre_stdin_close then [.procCloseWriteChannel] else []) ++
           (if d.pre_aux_close then [.writeEndClose .Aux] else []) ++
           (if d.pre_command_close then [.writeEndClose .Command] else [])) := by
  obtain ⟨proc, pa, pc, ps, sb, sl, err, ec, pin, paux, pcmd, c1, c2, c3, ns, fp, fps, fs,
    lo, le⟩ := d
  simp only at hp
  subst hp
  cases pin <;> cases paux <;> cases pcmd <;> cases c1 <;> cases c2 <;> cases c3 <;> rfl

theorem proc_started_frame (d : Private) (p : SProcess) (hp : d.proc = some p) :
    ∃ r, d.proc_started = some r
      ∧ r.1.proc = d.proc
      ∧ r.1.need_status = d.need_status
      ∧ r.1.fin_process = d.fin_process
      ∧ r.1.fin_status = d.fin_status
      ∧ r.1.outcome = d.outcome
      ∧ finals r.2 = [] := by
  refine ⟨_, proc_started_eq d p hp, rfl, rfl, rfl, rfl, rfl, ?_⟩
  simp only [finals_append]
  split_ifs <;> simp [finals, Effect.isFinal]

theorem fired_idle (d : Private) (p : SProcess) : (d.fired p).idle := reset_idle _ _

theorem doTryDone_cases (d : Private) (p : SProcess) (hp : d.proc = some p) (m : QString) :
    ∃ r, (d.doTryDone.map fun r => (r.1, [Effect.debug m] ++ r.2)) = some r ∧
      ((d.barrierOpen = false ∧ r.1 = d ∧ finals r.2 = [])
        ∨ (d.barrierOpen = true ∧ r.1 = d.fired p ∧ finals r.2 = [d.outcome])) := by
  by_cases h : d.barrierOpen = true
  · obtain ⟨effs, he, hf⟩ := doTryDone_open d p hp h
    refine ⟨(d.fired p, [Effect.debug m] ++ effs), by rw [he]; rfl, Or.inr ⟨h, rfl, ?_⟩⟩
    rw [finals_append, hf]
    simp [finals, Effect.isFinal]
  · have h2 : d.barrierOpen = false := by simpa using h
    refine ⟨(d, [Effect.debug m] ++ []), by rw [doTryDone_closed d h2]; rfl,
      Or.inl ⟨h2, rfl, ?_⟩⟩
    simp [finals, Effect.isFinal]

/-- What one delivered event does to a session that has a child: it emits no
final notification and the child stays, or it is a write fault, or the barrier
fires. -/
theorem deliver_step (fromUtf8 : QByteArray → QString) (d : Private) (p : SProcess)
    (hp : d.proc = some p) (ev : Event) :
    ∃ r, deliver fromUtf8 d ev = some r ∧
      ((finals r.2 = [] ∧ r.1.proc.isSome = true ∧ r.1.need_status = d.need_status
          ∧ (r.1.fin_process = true → d.fin_process = true ∨ ev.isProcessExit = true)
          ∧ (r.1.fin_status = true → d.fin_status = true ∨ ev.isStatusError = true)
          ∧ (∀ o, exitOutcome ev = some o → r.1.outcome = o)
          ∧ (ev.isProcessExit = false → r.1.outcome = d.outcome)
          ∧ (ev.isProcessExit = true → r.1.fin_process = true ∧ r.1.barrierOpen = false)
          ∧ (ev.isStatusError = true → r.1.fin_status = true ∧ r.1.barrierOpen = false)
          ∧ (ev.isProcessExit = false → r.1.fin_process = d.fin_process)
          ∧ (ev.isStatusError = false → r.1.fin_status = d.fin_status))
       ∨ (r.1.idle ∧ ev.isWriteFault = true ∧ finals r.2 = [.error .ErrorWrite])
       ∨ (r.1.idle ∧ ev.isWriteFault = false
          ∧ (d.fin_process = true ∨ ev.isProcessExit = true)
          ∧ (d.need_status = true → d.fin_status = true ∨ ev.isStatusError = true)
          ∧ ∃ f, finals r.2 = [f] ∧ (∀ o, exitOutcome ev = some o → f = o)
              ∧ (ev.isProcessExit = false → f = d.outcome))) := by
  obtain ⟨proc, pa, pc, ps, sb, sl, err, ec, pin, paux, pcmd, c1, c2, c3, ns, fp, fps, fs,
    lo, le⟩ := d
  simp only at hp
  subst hp
  cases ev with
  | aux_written x =>
    refine ⟨_, rfl, Or.inl ?_⟩
    simp [Private.aux_written, finals, Effect.isFinal, Event.isProcessExit, Event.isStatusError, exitOutcome]
  | command_written x =>
    refine ⟨_, rfl, Or.inl ?_⟩
    simp [Private.command_written, finals, Effect.isFinal, Event.isProcessExit, Event.isStatusError, exitOutcome]
  | aux_error e =>
    refine ⟨Private.aux_error _ e, rfl, Or.inr (Or.inl ⟨reset_idle _ _, rfl, ?_⟩)⟩
    simp only [Private.aux_error]
    rw [finals_append, finals_append, reset_finals]
    simp [finals, Effect.isFinal]
  | command_error e =>
    refine ⟨Private.command_error _ e, rfl, Or.inr (Or.inl ⟨reset_idle _ _, rfl, ?_⟩)⟩
    simp only [Private.command_error]
    rw [finals_append, finals_append, reset_finals]
    simp [finals, Effect.isFinal]
  | status_read buf =>
    refine ⟨_, rfl, Or.inl ?_⟩
    obtain ⟨h1, h2, h3, h4, h5, h6⟩ := status_read_frame fromUtf8
      ⟨some p, pa, pc, ps, sb, sl, err, ec, pin, paux, pcmd, c1, c2, c3, ns, fp, fps, fs,
        lo, le⟩ buf
    simp [h1, h2, h3, h4, h5, h6, Event.isProcessExit, Event.isStatusError, exitOutcome]
  | proc_started =>
    obtain ⟨r, hr, h1, h2, h3, h4, h5, h6⟩ := proc_started_frame
      ⟨some p, pa, pc, ps, sb, sl, err, ec, pin, paux, pcmd, c1, c2, c3, ns, fp, fps, fs,
        lo, le⟩ p rfl
    refine ⟨r, hr, Or.inl ?_⟩
    simp [h1, h2, h3, h4, h5, h6, Event.isProcessExit, Event.isStatusError, exitOutcome]
  | proc_readyReadStandardOutput =>
    refine ⟨_, rfl, Or.inl ?_⟩
    simp [Private.proc_readyReadStandardOutput, finals, Effect.isFinal,
      Event.isProcessExit, Event.isStatusError, exitOutcome]
  | proc_readyReadStandardError =>
    refine ⟨_, rfl, Or.inl ?_⟩
    simp [Private.proc_readyReadStandardError, finals, Effect.isFinal,
      Event.isProcessExit, Event.isStatusError, exitOutcome]
  | proc_bytesWritten lx =>
    refine ⟨_, rfl, Or.inl ?_⟩
    simp [Private.proc_bytesWritten, finals, Effect.isFinal, Event.isProcessExit,
      Event.isStatusError, exitOutcome]
  | childState st =>
    refine ⟨_, rfl, Or.inl ?_⟩
    simp [finals, Event.isProcessExit, Event.isStatusError, exitOutcome, Private.outcome]
  | childStdout a =>
    refine ⟨_, rfl, Or.inl ?_⟩
    simp [finals, Event.isProcessExit, Event.isStatusError, exitOutcome, Private.outcome]
  | childStderr a =>
    refine ⟨_, rfl, Or.inl ?_⟩
    simp [finals, Event.isProcessExit, Event.isStatusError, exitOutcome, Private.outcome]
  | status_error e =>
    have hmsg : ∃ m, (if e = PipeError.ErrorEOF then Effect.debug "Status: Closed (EOF)".toList
        else Effect.debug "Status: Closed (gone)".toList) = Effect.debug m := by
      by_cases he : e = PipeError.ErrorEOF
      · exact ⟨_, if_pos he⟩
      · exact ⟨_, if_neg he⟩
    obtain ⟨m, hm⟩ := hmsg
    obtain ⟨r, hr, hc⟩ := doTryDone_cases
      ⟨some p, pa, pc, ps, sb, sl, err, ec, pin, paux, pcmd, c1, c2, c3, ns, fp, fps, true,
        lo, le⟩ p rfl m
    refine ⟨r, by simp only [deliver, Private.status_error, hm]; exact hr, ?_⟩
    rcases hc with ⟨hb, hs, hf⟩ | ⟨hb, hs, hf⟩
    · left
      simp [hs, hf, hb, Event.isStatusError, Event.isProcessExit, exitOutcome, Private.outcome]
    · right; right
      refine ⟨by rw [hs]; exact fired_idle _ _, rfl, ?_, ?_, _, hf, ?_, ?_⟩
      · simp only [Private.barrierOpen, Bool.and_eq_true] at hb
        exact Or.inl hb.1
      · intro _; exact Or.inr rfl
      · simp [exitOutcome]
      · intro _; rfl
  | proc_finished x =>
    obtain ⟨r, hr, hc⟩ := doTryDone_cases
      ⟨some p, pa, pc, ps, sb, sl, err, x, pin, paux, pcmd, c1, c2, c3, ns, true, true, fs,
        lo, le⟩ p rfl (finishedMessage x)
    refine ⟨r, by simp only [deliver, Private.proc_finished]; exact hr, ?_⟩
    rcases hc with ⟨hb, hs, hf⟩ | ⟨hb, hs, hf⟩
    · left
      simp [hs, hf, hb, Event.isStatusError, Event.isProcessExit, exitOutcome, Private.outcome]
    · right; right
      refine ⟨by rw [hs]; exact fired_idle _ _, rfl, Or.inr rfl, ?_, _, hf, ?_, ?_⟩
      · intro hn
        simp only [Private.barrierOpen, Bool.and_eq_true, Bool.or_eq_true,
          Bool.not_eq_true'] at hb
        have hn2 : ns = true := hn
        rcases hb.2 with h1 | h1
        · rw [hn2] at h1; exact absurd h1 (by decide)
        · exact Or.inl h1
      · simp [exitOutcome, Private.outcome]
      · simp [Event.isProcessExit]
  | proc_error x =>
    have hcl : (if x = ProcessError.FailedToStart then Error.FailedToStart
        else if x = ProcessError.WriteError then Error.ErrorWrite
        else Error.UnexpectedExit) = classify x := by
      cases x <;> rfl
    obtain ⟨r, hr, hc⟩ := doTryDone_cases
      ⟨some p, pa, pc, ps, sb, sl, classify x, ec, pin, paux, pcmd, c1, c2, c3, ns, true, false,
        fs, lo, le⟩ p rfl ("Process error: ".toList ++ errmap x)
    refine ⟨r, by simp only [deliver, Private.proc_error, hcl]; exact hr, ?_⟩
    rcases hc with ⟨hb, hs, hf⟩ | ⟨hb, hs, hf⟩
    · left
      simp [hs, hf, hb, Event.isStatusError, Event.isProcessExit, exitOutcome, Private.outcome]
    · right; right
      refine ⟨by rw [hs]; exact fired_idle _ _, rfl, Or.inr rfl, ?_, _, hf, ?_, ?_⟩
      · intro hn
        simp only [Private.barrierOpen, Bool.and_eq_true, Bool.or_eq_true,
          Bool.not_eq_true'] at hb
        have hn2 : ns = true := hn
        rcases hb.2 with h1 | h1
        · rw [hn2] at h1; exact absurd h1 (by decide)
        · exact Or.inl h1
      · simp [exitOutcome, Private.outcome]
      · simp [Event.isProcessExit]

/-! ## Lemmas on sequences of events -/

theorem deliver_no_child (fromUtf8 : QByteArray → QString) (d : Private) (h : d.proc = none)
    (ev : Event) : deliver fromUtf8 d ev = some (d, []) := by
  unfold deliver
  rw [h]

theorem run_no_child (fromUtf8 : QByteArray → QString) (d : Private) (h : d.proc = none)
    (evs : List Event) : run fromUtf8 d evs = some (d, []) := by
  induction evs with
  | nil => rfl
  | cons ev evs ih => simp [run, deliver_no_child fromUtf8 d h, ih]

theorem run_cons_some (fromUtf8 : QByteArray → QString) (d : Private) (ev : Event)
    (evs : List Event) (r1 r2 : Private × List Effect)
    (h1 : deliver fromUtf8 d ev = some r1) (h2 : run fromUtf8 r1.1 evs = some r2) :
    run fromUtf8 d (ev :: evs) = some (r2.1, r1.2 ++ r2.2) := by
  simp [run, h1, h2]

theorem run_append_some (fromUtf8 : QByteArray → QString) (d : Private)
    (evs1 evs2 : List Event) (r1 r2 : Private × List Effect)
    (h1 : run fromUtf8 d evs1 = some r1) (h2 : run fromUtf8 r1.1 evs2 = some r2) :
    run fromUtf8 d (evs1 ++ evs2) = some (r2.1, r1.2 ++ r2.2) := by
  induction evs1 generalizing d r1 with
  | nil =>
    simp only [run, Option.some.injEq] at h1
    subst h1
    simpa using h2
  | cons ev evs ih =>
    simp only [run] at h1
    cases hd : deliver fromUtf8 d ev with
    | none => simp [hd] at h1
    | some a =>
      simp only [hd] at h1
      cases hr : run fromUtf8 a.1 evs with
      | none => simp [hr] at h1
      | some b =>
        simp only [hr, Option.some.injEq] at h1
        subst h1
        have := ih a.1 b hr h2
        simp [run, hd, this]

/-- Every sequence of events runs to an end; it emits no final notification,
or exactly one and then the session is idle. -/
theorem run_spec (fromUtf8 : QByteArray → QString) (d : Private) (evs : List Event) :
    ∃ r, run fromUtf8 d evs = some r ∧
      (finals r.2 = [] ∨ (r.1.idle ∧ ∃ f, finals r.2 = [f])) := by
  induction evs generalizing d with
  | nil => exact ⟨(d, []), rfl, Or.inl rfl⟩
  | cons ev evs ih =>
    cases hp : d.proc with
    | none => exact ⟨(d, []), run_no_child fromUtf8 d hp _, Or.inl rfl⟩
    | some p =>
      obtain ⟨r1, h1, hc⟩ := deliver_step fromUtf8 d p hp ev
      rcases hc with ⟨hf, _⟩ | ⟨hi, _, hf⟩ | ⟨hi, _, _, _, f, hf, _⟩
      · obtain ⟨r2, h2, hc2⟩ := ih r1.1
        refine ⟨_, run_cons_some fromUtf8 d ev evs r1 r2 h1 h2, ?_⟩
        simpa [finals_append, hf] using hc2
      · refine ⟨_, run_cons_some fromUtf8 d ev evs r1 (r1.1, []) h1
          (run_no_child fromUtf8 r1.1 hi.1 evs), Or.inr ⟨hi, .error .ErrorWrite, ?_⟩⟩
        simpa using hf
      · refine ⟨_, run_cons_some fromUtf8 d ev evs r1 (r1.1, []) h1
          (run_no_child fromUtf8 r1.1 hi.1 evs), Or.inr ⟨hi, f, ?_⟩⟩
        simpa using hf

/-- When a run without write faults emits a final notification, the process
has ended and, if the round needs the status channel, that channel has
closed: by the flags held at the start or by an event of the run. -/
theorem run_needs_both (fromUtf8 : QByteArray → QString) (d : Private) (evs : List Event)
    (r : Private × List Effect) (hrun : run fromUtf8 d evs = some r)
    (hw : ∀ ev ∈ evs, ev.isWriteFault = false) (hfin : finals r.2 ≠ []) :
    (d.fin_process = true ∨ ∃ ev ∈ evs, ev.isProcessExit = true)
      ∧ (d.need_status = true →
          d.fin_status = true ∨ ∃ ev ∈ evs, ev.isStatusError = true) := by
  induction evs generalizing d r with
  | nil =>
    simp only [run, Option.some.injEq] at hrun
    subst hrun
    exact absurd rfl hfin
  | cons ev evs ih =>
    cases hp : d.proc with
    | none =>
      rw [run_no_child fromUtf8 d hp] at hrun
      simp only [Option.some.injEq] at hrun
      subst hrun
      exact absurd rfl hfin
    | some p =>
      obtain ⟨r1, h1, hc⟩ := deliver_step fromUtf8 d p hp ev
      rcases hc with ⟨hf, _, hns, hfp, hfs, _⟩ | ⟨_, hwf, _⟩ | ⟨_, _, hA, hB, _⟩
      · obtain ⟨r2, h2, _⟩ := run_spec fromUtf8 r1.1 evs
        rw [run_cons_some fromUtf8 d ev evs r1 r2 h1 h2] at hrun
        simp only [Option.some.injEq] at hrun
        subst hrun
        have hfin2 : finals r2.2 ≠ [] := by simpa [finals_append, hf] using hfin
        obtain ⟨i1, i2⟩ := ih r1.1 r2 h2 (fun e he => hw e (List.mem_cons_of_mem _ he)) hfin2
        constructor
        · rcases i1 with i1 | ⟨e, he, hx⟩
          · rcases hfp i1 with h | h
            · exact Or.inl h
            · exact Or.inr ⟨ev, List.mem_cons_self _ _, h⟩
          · exact Or.inr ⟨e, List.mem_cons_of_mem _ he, hx⟩
        · intro hn
          rcases i2 (by rw [hns]; exact hn) with i2 | ⟨e, he, hx⟩
          · rcases hfs i2 with h | h
            · exact Or.inl h
            · exact Or.inr ⟨ev, List.mem_cons_self _ _, h⟩
          · exact Or.inr ⟨e, List.mem_cons_of_mem _ he, hx⟩
      · rw [hw ev (List.mem_cons_self _ _)] at hwf
        exact absurd hwf (by decide)
      · constructor
        · rcases hA with h | h
          · exact Or.inl h
          · exact Or.inr ⟨ev, List.mem_cons_self _ _, h⟩
        · intro hn
          rcases hB hn with h | h
          · exact Or.inl h
          · exact Or.inr ⟨ev, List.mem_cons_self _ _, h⟩

/-! ## Lemmas on `start` -/

theorem setupPipes_frame (os : StartEnv) (d : Private) (makeAux : Bool) :
    (d.setupPipes os makeAux).2.1.proc = d.proc
      ∧ (d.setupPipes os makeAux).2.1.need_status = d.need_status
      ∧ (d.setupPipes os makeAux).2.1.fin_process = d.fin_process
      ∧ (d.setupPipes os makeAux).2.1.fin_status = d.fin_status := by
  unfold Private.setupPipes Private.closePipes
  cases makeAux <;> cases os.aux <;> cases os.command <;> cases os.status <;>
    simp [QPipe.create]

theorem start_reset_flags (d : Private) (hd : d.proc = none → d.idle) :
    (if GPGProc.isActive d then d.reset .ResetSessionAndData else (d, [])).1.idle := by
  cases hp : d.proc with
  | none => simpa [GPGProc.isActive, hp] using hd hp
  | some p => simpa [GPGProc.isActive, hp] using reset_idle d .ResetSessionAndData

theorem enablePipes_frame (d : Private) :
    (GPGProc.start.enablePipes d).1.proc = d.proc
      ∧ (GPGProc.start.enablePipes d).1.need_status = d.need_status
      ∧ (GPGProc.start.enablePipes d).1.fin_process = d.fin_process
      ∧ (GPGProc.start.enablePipes d).1.fin_status = d.fin_status := by
  obtain ⟨proc, ⟨ar, ⟨av, ae, ai, ais⟩⟩, ⟨cr, ⟨cv, ce, ci, cis⟩⟩, ⟨⟨sv, se, si, sis⟩, sw⟩,
    sb, sl, err, ec, pin, paux, pcmd, c1, c2, c3, ns, fp, fps, fs, lo, le⟩ := d
  cases av <;> cases cv <;> cases sv <;> exact ⟨rfl, rfl, rfl, rfl⟩

theorem launch_flags (d : Private) (bin : QString) (args : QStringList) (mode : Mode) :
    (GPGProc.start.launch d bin args mode).1.proc.isSome = true
      ∧ (GPGProc.start.launch d bin args mode).1.need_status =
          (if mode = .ExtendedMode then true else d.need_status)
      ∧ (GPGProc.start.launch d bin args mode).1.fin_process = d.fin_process
      ∧ (GPGProc.start.launch d bin args mode).1.fin_status = d.fin_status := by
  unfold GPGProc.start.launch
  simp only [Option.isSome_some, true_and]
  refine ⟨?_, ?_, ?_⟩
  · rw [(enablePipes_frame _).2.1]
    cases mode <;> simp
  · rw [(enablePipes_frame _).2.2.1]
    cases mode <;> simp
  · rw [(enablePipes_frame _).2.2.2]
    cases mode <;> simp

/-- The barrier flags of a round that `start` has opened: `need_status` is set
in `ExtendedMode` only, `fin_process` and `fin_status` are down; in `BasicMode`
a child is always there. -/
theorem start_flags (os : StartEnv) (d : Private) (bin : QString) (args : QStringList)
    (mode : Mode) (hd : d.proc = none → d.idle) :
    (GPGProc.start os d bin args mode).1.fin_process = false
      ∧ (GPGProc.start os d bin args mode).1.fin_status = false
      ∧ ((GPGProc.start os d bin args mode).1.proc.isSome = true →
          (GPGProc.start os d bin args mode).1.need_status = decide (mode = .ExtendedMode))
      ∧ (mode = .BasicMode → (GPGProc.start os d bin args mode).1.proc.isSome = true) := by
  have h0 := start_reset_flags d hd
  generalize hr0 : (if GPGProc.isActive d then d.reset .ResetSessionAndData else (d, [])) = r0
    at h0
  obtain ⟨hp0, hn0, hf0, hs0⟩ := h0
  cases mode with
  | BasicMode =>
    obtain ⟨l1, l2, l3, l4⟩ := launch_flags r0.1 bin args .BasicMode
    simp only [GPGProc.start, hr0, reduceCtorEq, if_false]
    refine ⟨l3.trans hf0, l4.trans hs0, fun _ => ?_, fun _ => l1⟩
    rw [l2]
    simpa using hn0
  | ExtendedMode =>
    generalize hmk : args.contains auxToken = mk
    obtain ⟨q1, q2, q3, q4⟩ := setupPipes_frame os r0.1 mk
    obtain ⟨l1, l2, l3, l4⟩ := launch_flags (r0.1.setupPipes os mk).2.1 bin args .ExtendedMode
    simp only [GPGProc.start, hr0, hmk, if_true]
    by_cases hsp : (r0.1.setupPipes os mk).1 = true
    · simp only [hsp, Bool.not_true, Bool.false_eq_true, if_false]
      refine ⟨l3.trans (q3.trans hf0), l4.trans (q4.trans hs0), fun _ => ?_,
        by intro h; cases h⟩
      rw [l2]
      simp
    · simp only [hsp, Bool.not_false, if_true]
      refine ⟨q3.trans hf0, q4.trans hs0, fun h => ?_, by intro h; cases h⟩
      have : (r0.1.setupPipes os mk).2.1.proc = none := q1.trans hp0
      simp [this] at h

/-! ## The completion barrier -/

theorem exitOutcome_some (ex : Event) (o : Effect) (h : exitOutcome ex = some o) :
    ex.isProcessExit = true ∧ ex.isWriteFault = false ∧ ex.isStatusError = false := by
  cases ex <;> simp [exitOutcome] at h <;> exact ⟨rfl, rfl, rfl⟩

theorem barrierOpen_of_flags (d : Private) (h1 : d.fin_process = true)
    (h2 : d.need_status = false ∨ d.fin_status = true) : d.barrierOpen = true := by
  unfold Private.barrierOpen
  rcases h2 with h2 | h2 <;> simp [h1, h2]

/-- In a session with a child whose round does not wait for the status
channel, a process-exit event fires the barrier with the outcome of that
event. -/
theorem deliver_exit_fires (fromUtf8 : QByteArray → QString) (d : Private) (p : SProcess)
    (hp : d.proc = some p) (hn : d.need_status = false ∨ d.fin_status = true)
    (ex : Event) (o : Effect) (hex : exitOutcome ex = some o) :
    ∃ r, deliver fromUtf8 d ex = some r ∧ finals r.2 = [o] ∧ r.1.idle := by
  obtain ⟨hx, hw, hse⟩ := exitOutcome_some ex o hex
  obtain ⟨r, hr, hc⟩ := deliver_step fromUtf8 d p hp ex
  refine ⟨r, hr, ?_⟩
  rcases hc with ⟨_, _, hns, _, _, _, _, hfp, _, _, hfs⟩ | ⟨_, hwf, _⟩
      | ⟨hi, _, _, _, f, hf, hfo, _⟩
  · obtain ⟨h1, h2⟩ := hfp hx
    have h3 : r.1.barrierOpen = true := by
      apply barrierOpen_of_flags _ h1
      rcases hn with hn | hn
      · exact Or.inl (hns.trans hn)
      · exact Or.inr ((hfs hse).trans hn)
    rw [h2] at h3
    exact absurd h3 (by decide)
  · rw [hw] at hwf
    exact absurd hwf (by decide)
  · exact ⟨by rw [hf, hfo o hex], hi⟩

/-- In a session with a child whose process has not ended, events other than
process exits and write faults emit no final notification and leave the child,
`need_status` and `fin_process` as they are. -/
theorem run_quiet (fromUtf8 : QByteArray → QString) (d : Private) (evs : List Event)
    (hp : d.proc.isSome = true) (hf : d.fin_process = false)
    (hev : ∀ ev ∈ evs, ev.isProcessExit = false ∧ ev.isWriteFault = false) :
    ∃ r, run fromUtf8 d evs = some r ∧ finals r.2 = [] ∧ r.1.proc.isSome = true
      ∧ r.1.need_status = d.need_status ∧ r.1.fin_process = false := by
  induction evs generalizing d with
  | nil => exact ⟨(d, []), rfl, rfl, hp, rfl, hf⟩
  | cons ev evs ih =>
    obtain ⟨p, hp2⟩ := Option.isSome_iff_exists.1 hp
    obtain ⟨hx, hw⟩ := hev ev (List.mem_cons_self _ _)
    obtain ⟨r1, h1, hc⟩ := deliver_step fromUtf8 d p hp2 ev
    rcases hc with ⟨hfin, hps, hns, _, _, _, _, _, _, hfp, _⟩ | ⟨_, hwf, _⟩
        | ⟨_, _, hA, _⟩
    · obtain ⟨r2, h2, g1, g2, g3, g4⟩ := ih r1.1 hps ((hfp hx).trans hf)
        (fun e he => hev e (List.mem_cons_of_mem _ he))
      refine ⟨_, run_cons_some fromUtf8 d ev evs r1 r2 h1 h2, ?_, g2, g3.trans hns, g4⟩
      simp [finals_append, hfin, g1]
    · rw [hw] at hwf
      exact absurd hwf (by decide)
    · rcases hA with h | h
      · rw [hf] at h
        exact absurd h (by decide)
      · rw [hx] at h
        exact absurd h (by decide)

/-- C5. The completion barrier.  `doTryDone` changes nothing and emits nothing
unless `fin_process` holds and (`need_status` is down or `fin_status` holds);
when that holds, in a session with a child, it resets the session (keeping the
unread output as leftover) and emits exactly one final notification.  In a
round started in `ExtendedMode` on a session that was active or idle, a run of
events without write faults emits a final notification only if a process-exit
event and a `status_error` event are both among them.  In a round started in
`BasicMode`, events other than process exits and write faults emit no final
notification, and the next process-exit event emits its outcome and leaves the
session idle. -/
theorem doTryDone_barrier (fromUtf8 : QByteArray → QString) (d : Private) (p : SProcess)
    (os : StartEnv) (s : Private) (bin : QString) (args : QStringList)
    (hp : d.proc = some p) (hs : s.proc = none → s.idle) :
    (∀ d0 : Private, d0.barrierOpen = false → d0.doTryDone = some (d0, []))
      ∧ (d.barrierOpen = true →
          ∃ effs, d.doTryDone = some (d.fired p, effs) ∧ finals effs = [d.outcome]
            ∧ (d.fired p).idle)
      ∧ (∀ (evs : List Event) (r : Private × List Effect),
          (GPGProc.start os s bin args .ExtendedMode).1.proc.isSome = true →
          (∀ ev ∈ evs, ev.isWriteFault = false) →
          run fromUtf8 (GPGProc.start os s bin args .ExtendedMode).1 evs = some r →
          finals r.2 ≠ [] →
          (∃ ev ∈ evs, ev.isProcessExit = true) ∧ (∃ ev ∈ evs, ev.isStatusError = true))
      ∧ (∀ evs : List Event,
          (∀ ev ∈ evs, ev.isProcessExit = false ∧ ev.isWriteFault = false) →
          ∃ r, run fromUtf8 (GPGProc.start os s bin args .BasicMode).1 evs = some r
            ∧ finals r.2 = []
            ∧ ∀ (ex : Event) (o : Effect), exitOutcome ex = some o →
                ∃ r2, deliver fromUtf8 r.1 ex = some r2 ∧ finals r2.2 = [o] ∧ r2.1.idle) := by
  refine ⟨doTryDone_closed, ?_, ?_, ?_⟩
  · intro h
    obtain ⟨effs, he, hf⟩ := doTryDone_open d p hp h
    exact ⟨effs, he, hf, fired_idle d p⟩
  · intro evs r hstart hw hrun hfin
    obtain ⟨f1, f2, f3, _⟩ := start_flags os s bin args .ExtendedMode hs
    obtain ⟨g1, g2⟩ := run_needs_both fromUtf8 _ evs r hrun hw hfin
    constructor
    · rcases g1 with g | g
      · rw [f1] at g
        exact absurd g (by decide)
      · exact g
    · rcases g2 (by rw [f3 hstart]; rfl) with g | g
      · rw [f2] at g
        exact absurd g (by decide)
      · exact g
  · intro evs hev
    obtain ⟨f1, f2, f3, f4⟩ := start_flags os s bin args .BasicMode hs
    obtain ⟨r, hr, g1, g2, g3, g4⟩ := run_quiet fromUtf8 _ evs (f4 rfl) f1 hev
    refine ⟨r, hr, g1, ?_⟩
    intro ex o hex
    obtain ⟨q, hq⟩ := Option.isSome_iff_exists.1 g2
    have hn : r.1.need_status = false := by
      rw [g3, f3 (f4 rfl)]
      rfl
    exact deliver_exit_fires fromUtf8 r.1 q hq (Or.inl hn) ex o hex

/-- Witness of C5: a `BasicMode` round whose process has finished with code 0;
the barrier is open and `doTryDone` emits `finished(0)`. -/
theorem doTryDone_barrier_witness :
    (GPGProc.init false).idle
      ∧ ∃ effs,
          ({ sampleRound .BasicMode with
              exitCode := 0, fin_process := true, fin_process_success := true }
            : Private).doTryDone =
            some (({ sampleRound .BasicMode with
              exitCode := 0, fin_process := true, fin_process_success := true }
                : Private).fired sampleChild, effs)
          ∧ finals effs = [.finished 0] :=
  ⟨reset_idle _ _,
   (doTryDone_barrier bytewise
      { sampleRound .BasicMode with
          exitCode := 0, fin_process := true, fin_process_success := true }
      sampleChild sampleEnv (GPGProc.init false) "gpg".toList ["--op".toList]
      rfl (fun _ => reset_idle _ _)).2.1 rfl |>.imp fun _ h => ⟨h.1, h.2.1⟩⟩

/-- C6. Completion is reported at most once.  From every session record, every
sequence of events runs to an end and emits at most one final notification;
when it has emitted one, the session is idle (no child, `need_status`,
`fin_process`, `fin_status` down), a further `doTryDone` changes and emits
nothing, and no further event does.  Sample: in a round started in
`ExtendedMode` on a session that was active or idle, `proc_finished(0)` emits no
final notification and the following `status_error` emits exactly
`finished(0)`. -/
theorem completion_once (fromUtf8 : QByteArray → QString) (d : Private) (evs : List Event)
    (os : StartEnv) (s : Private) (bin : QString) (args : QStringList) (e : PipeError)
    (hs : s.proc = none → s.idle)
    (hstart : (GPGProc.start os s bin args .ExtendedMode).1.proc.isSome = true) :
    (∃ r, run fromUtf8 d evs = some r ∧ (finals r.2).length ≤ 1
        ∧ (finals r.2 ≠ [] →
            r.1.idle ∧ r.1.doTryDone = some (r.1, [])
              ∧ ∀ evs2, run fromUtf8 r.1 evs2 = some (r.1, [])))
      ∧ (∃ r1 r2,
          deliver fromUtf8 (GPGProc.start os s bin args .ExtendedMode).1 (.proc_finished 0)
              = some r1
            ∧ finals r1.2 = []
            ∧ deliver fromUtf8 r1.1 (.status_error e) = some r2
            ∧ finals r2.2 = [.finished 0]
            ∧ r2.1.idle) := by
  constructor
  · obtain ⟨r, hr, hc⟩ := run_spec fromUtf8 d evs
    refine ⟨r, hr, ?_, ?_⟩
    · rcases hc with h | ⟨_, f, h⟩ <;> simp [h]
    · intro hne
      rcases hc with h | ⟨hi, _⟩
      · exact absurd h hne
      · refine ⟨hi, doTryDone_closed _ ?_, fun evs2 => run_no_child fromUtf8 _ hi.1 evs2⟩
        simp [Private.barrierOpen, hi.2.2.1]
  · obtain ⟨f1, f2, f3, _⟩ := start_flags os s bin args .ExtendedMode hs
    obtain ⟨p, hp⟩ := Option.isSome_iff_exists.1 hstart
    obtain ⟨r1, h1, hc⟩ := deliver_step fromUtf8 _ p hp (.proc_finished 0)
    have hns : (GPGProc.start os s bin args .ExtendedMode).1.need_status = true := by
      rw [f3 hstart]; rfl
    rcases hc with ⟨hfin, hps, hn1, _, _, ho, _, hfp, _, _, hfs⟩ | ⟨_, hwf, _⟩
        | ⟨_, _, _, hB, _⟩
    · obtain ⟨q, hq⟩ := Option.isSome_iff_exists.1 hps
      have hfs1 : r1.1.fin_status = true ∨ r1.1.need_status = false → False := by
        intro h
        rcases h with h | h
        · rw [hfs rfl, f2] at h
          exact absurd h (by decide)
        · rw [hn1, hns] at h
          exact absurd h (by decide)
      obtain ⟨r2, h2, hc2⟩ := deliver_step fromUtf8 r1.1 q hq (.status_error e)
      refine ⟨r1, r2, h1, hfin, h2, ?_⟩
      rcases hc2 with ⟨_, _, hn2, _, _, _, _, _, hse, hfp2, _⟩ | ⟨_, hwf, _⟩
          | ⟨hi, _, _, _, f, hf, _, hfo⟩
      · obtain ⟨k1, k2⟩ := hse rfl
        have : r2.1.barrierOpen = true :=
          barrierOpen_of_flags _ ((hfp2 rfl).trans (hfp rfl).1) (Or.inr k1)
        rw [k2] at this
        exact absurd this (by decide)
      · simp [Event.isWriteFault] at hwf
      · refine ⟨?_, hi⟩
        rw [hf, hfo rfl, ho _ rfl]
    · simp [Event.isWriteFault] at hwf
    · rcases hB hns with h | h
      · rw [f2] at h
        exact absurd h (by decide)
      · simp [Event.isStatusError] at h

/-- Witness of C6: the sample round in `ExtendedMode`, closed by end of
stream. -/
theorem completion_once_witness :
    ∃ r1 r2,
      deliver bytewise (sampleRound .ExtendedMode) (.proc_finished 0) = some r1
        ∧ finals r1.2 = []
        ∧ deliver bytewise r1.1 (.status_error .ErrorEOF) = some r2
        ∧ finals r2.2 = [.finished 0]
        ∧ r2.1.idle :=
  (completion_once bytewise (sampleRound .ExtendedMode) [] sampleEnv (GPGProc.init false)
    "gpg".toList ["--op".toList] .ErrorEOF (fun _ => reset_idle _ _) (by decide)).2

/-! ## The outcome of a round -/

/-- Events other than process exits and write faults emit, as final
notification, nothing but the outcome the record already stands for. -/
theorem run_keeps_outcome (fromUtf8 : QByteArray → QString) (d : Private) (evs : List Event)
    (hev : ∀ ev ∈ evs, ev.isProcessExit = false ∧ ev.isWriteFault = false) :
    ∃ r, run fromUtf8 d evs = some r ∧ ∀ f ∈ finals r.2, f = d.outcome := by
  induction evs generalizing d with
  | nil => exact ⟨(d, []), rfl, by simp [finals]⟩
  | cons ev evs ih =>
    cases hp : d.proc with
    | none => exact ⟨(d, []), run_no_child fromUtf8 d hp _, by simp [finals]⟩
    | some p =>
      obtain ⟨hx, hw⟩ := hev ev (List.mem_cons_self _ _)
      obtain ⟨r1, h1, hc⟩ := deliver_step fromUtf8 d p hp ev
      rcases hc with ⟨hfin, _, _, _, _, _, hout, _⟩ | ⟨_, hwf, _⟩ | ⟨hi, _, _, _, f, hf, _, hfo⟩
      · obtain ⟨r2, h2, g⟩ := ih r1.1 (fun e he => hev e (List.mem_cons_of_mem _ he))
        refine ⟨_, run_cons_some fromUtf8 d ev evs r1 r2 h1 h2, ?_⟩
        intro f hf
        rw [finals_append, hfin, List.nil_append] at hf
        exact (g f hf).trans (hout hx)
      · rw [hw] at hwf
        exact absurd hwf (by decide)
      · refine ⟨_, run_cons_some fromUtf8 d ev evs r1 (r1.1, []) h1
          (run_no_child fromUtf8 r1.1 hi.1 evs), ?_⟩
        intro g hg
        simp only [List.append_nil, hf, List.mem_singleton] at hg
        rw [hg, hfo hx]

theorem status_error_eq (d : Private) (e : PipeError) :
    ∃ m, d.status_error e =
      (Private.doTryDone { d with fin_status := true }).map fun r =>
        (r.1, [Effect.debug m] ++ r.2) := by
  unfold Private.status_error
  by_cases he : e = PipeError.ErrorEOF
  · exact ⟨"Status: Closed (EOF)".toList, by simp only [he, if_true]⟩
  · exact ⟨"Status: Closed (gone)".toList, by simp only [he, if_false]⟩

theorem write_no_child (ch : OutChannel) (d : Private) (a : QByteArray) (h : d.proc = none) :
    GPGProc.write ch d a = (d, []) := by
  cases ch <;>
    simp [GPGProc.write, GPGProc.writeStdin, GPGProc.writeAux, GPGProc.writeCommand, h]

theorem write_empty (ch : OutChannel) (d : Private) : GPGProc.write ch d [] = (d, []) := by
  cases ch <;> cases h : d.proc <;>
    simp [GPGProc.write, GPGProc.writeStdin, GPGProc.writeAux, GPGProc.writeCommand, h]

theorem write_buffered (ch : OutChannel) (d : Private) (p : SProcess) (a : QByteArray)
    (hp : d.proc = some p) (hs : p.state ≠ .Running) :
    (GPGProc.write ch d a).2 = []
      ∧ (GPGProc.write ch d a).1.proc = some p
      ∧ ∀ c, (GPGProc.write ch d a).1.pending c =
          if c = ch then d.pending c ++ a else d.pending c := by
  cases a with
  | nil =>
    rw [write_empty]
    refine ⟨rfl, hp, fun c => ?_⟩
    by_cases hc : c = ch <;> simp [hc]
  | cons b bs =>
    cases ch <;> refine ⟨?_, ?_, fun c => ?_⟩ <;> (try cases c) <;>
      simp [GPGProc.write, GPGProc.writeStdin, GPGProc.writeAux, GPGProc.writeCommand, hp, hs,
        Private.pending]

theorem write_direct (ch : OutChannel) (d : Private) (p : SProcess) (a : QByteArray)
    (hp : d.proc = some p) (hs : p.state = .Running) :
    (GPGProc.write ch d a).1 = d
      ∧ ∀ c, written c (GPGProc.write ch d a).2 = if c = ch ∧ a ≠ [] then [a] else [] := by
  cases a with
  | nil =>
    rw [write_empty]
    exact ⟨rfl, fun c => by simp [written]⟩
  | cons b bs =>
    cases ch <;> refine ⟨?_, fun c => ?_⟩ <;> (try cases c) <;>
      simp [GPGProc.write, GPGProc.writeStdin, GPGProc.writeAux, GPGProc.writeCommand, hp, hs,
        written]

theorem written_append (ch : OutChannel) (a b : List Effect) :
    written ch (a ++ b) = written ch a ++ written ch b := by
  induction a with
  | nil => rfl
  | cons e es ih =>
    cases e with
    | procWrite x =>
      cases ch <;> simp [written, ih]
    | writeEndWrite q x =>
      cases q <;> cases ch <;> simp [written, ih]
    | _ => simp [written, ih]

theorem writeAll_buffered (d : Private) (p : SProcess) (l : List (OutChannel × QByteArray))
    (hp : d.proc = some p) (hs : p.state ≠ .Running) :
    (writeAll d l).2 = []
      ∧ (writeAll d l).1.proc = some p
      ∧ ∀ c, (writeAll d l).1.pending c = d.pending c ++ (payloadsFor c l).flatten := by
  induction l generalizing d with
  | nil => exact ⟨rfl, hp, fun c => by simp [writeAll, payloadsFor]⟩
  | cons w rest ih =>
    obtain ⟨h1, h2, h3⟩ := write_buffered w.1 d p w.2 hp hs
    obtain ⟨g1, g2, g3⟩ := ih (GPGProc.write w.1 d w.2).1 h2
    refine ⟨by simp [writeAll, h1, g1], g2, fun c => ?_⟩
    simp only [writeAll, g3 c, h3 c, payloadsFor]
    by_cases hc : c = w.1
    · simp [hc]
    · have hc2 : ¬ w.1 = c := fun h => hc h.symm
      simp [hc, hc2]

theorem writeAll_direct (d : Private) (p : SProcess) (l : List (OutChannel × QByteArray))
    (hp : d.proc = some p) (hs : p.state = .Running) :
    (writeAll d l).1 = d
      ∧ ∀ c, written c (writeAll d l).2 = (payloadsFor c l).filter fun a => a ≠ [] := by
  induction l with
  | nil => exact ⟨rfl, fun c => by simp [writeAll, payloadsFor, written]⟩
  | cons w rest ih =>
    obtain ⟨h1, h2⟩ := write_direct w.1 d p w.2 hp hs
    obtain ⟨g1, g2⟩ := ih
    refine ⟨by simp [writeAll, h1, g1], fun c => ?_⟩
    simp only [writeAll, written_append, h1, h2 c, g2 c, payloadsFor]
    by_cases hc : c = w.1
    · by_cases ha : w.2 = [] <;> simp [hc, ha]
    · have hc2 : ¬ w.1 = c := fun h => hc h.symm
      simp [hc, hc2]

theorem childRunning_some (d : Private) (p : SProcess) (hp : d.proc = some p) :
    d.childRunning.proc = some { p with state := .Running }
      ∧ ∀ c, d.childRunning.pending c = d.pending c := by
  unfold Private.childRunning
  rw [hp]
  exact ⟨rfl, fun c => by cases c <;> rfl⟩

theorem proc_started_written (d : Private) (p : SProcess) (hp : d.proc = some p) :
    ∃ r, d.proc_started = some r
      ∧ r.1.proc = some p
      ∧ r.1.pre_stdin = [] ∧ r.1.pre_aux = [] ∧ r.1.pre_command = []
      ∧ ∀ c, written c r.2 = if d.pending c = [] then [] else [d.pending c] := by
  refine ⟨_, proc_started_eq d p hp, hp, rfl, rfl, rfl, fun c => ?_⟩
  simp only [written_append]
  cases c <;> cases h1 : d.pre_stdin <;> cases h2 : d.pre_aux <;> cases h3 : d.pre_command <;>
    cases d.pre_stdin_close <;> cases d.pre_aux_close <;> cases d.pre_command_close <;>
    simp [written, Private.pending, h1, h2, h3]

/-- C8. Writes before startup are buffered and flushed once, in call order.
In a session whose child is not `Running`, a sequence of write calls on the
three channels writes nothing, and the pending buffer of each channel grows by
the concatenation of the payloads passed to that channel, in call order.  Once
the child is `Running`, `proc_started` writes to each channel exactly its
pending buffer, as one write and only if it is not empty, and empties the three
pending buffers, so that a second `proc_started` writes nothing.  The write
calls that follow go to their channel directly, one write per non-empty
payload, and leave the pending buffers empty.  Over the whole sequence each
channel thus receives the flushed bytes first, then the direct writes. -/
theorem prestart_writes_flushed (d : Private) (p : SProcess) (ch : OutChannel)
    (pre post : List (OutChannel × QByteArray))
    (hp : d.proc = some p) (hs : p.state ≠ .Running) :
    (writeAll d pre).2 = []
      ∧ (writeAll d pre).1.pending ch = d.pending ch ++ (payloadsFor ch pre).flatten
      ∧ ∃ r, (writeAll d pre).1.childRunning.proc_started = some r
          ∧ written ch r.2 =
              (if d.pending ch ++ (payloadsFor ch pre).flatten = [] then []
               else [d.pending ch ++ (payloadsFor ch pre).flatten])
          ∧ r.1.pre_stdin = [] ∧ r.1.pre_aux = [] ∧ r.1.pre_command = []
          ∧ (∃ r2, r.1.proc_started = some r2 ∧ written ch r2.2 = [])
          ∧ (writeAll r.1 post).1 = r.1
          ∧ written ch (writeAll r.1 post).2 = (payloadsFor ch post).filter (fun a => a ≠ [])
          ∧ written ch ((writeAll d pre).2 ++ r.2 ++ (writeAll r.1 post).2) =
              (if d.pending ch ++ (payloadsFor ch pre).flatten = [] then []
               else [d.pending ch ++ (payloadsFor ch pre).flatten]) ++
                (payloadsFor ch post).filter (fun a => a ≠ []) := by
  obtain ⟨h1, h2, h3⟩ := writeAll_buffered d p pre hp hs
  obtain ⟨k1, k2⟩ := childRunning_some _ p h2
  obtain ⟨r, hr, g1, g2, g3, g4, g5⟩ := proc_started_written _ _ k1
  obtain ⟨r2, hr2, _, _, _, _, q5⟩ := proc_started_written r.1 _ g1
  obtain ⟨w1, w2⟩ := writeAll_direct r.1 _ post g1 rfl
  have hflush : written ch r.2 =
      (if d.pending ch ++ (payloadsFor ch pre).flatten = [] then []
       else [d.pending ch ++ (payloadsFor ch pre).flatten]) := by
    rw [g5 ch, k2 ch, h3 ch]
  refine ⟨h1, h3 ch, r, hr, hflush, g2, g3, g4, ⟨r2, hr2, ?_⟩, w1, w2 ch, ?_⟩
  · rw [q5 ch]
    cases ch <;> simp [Private.pending, g2, g3, g4]
  · rw [written_append, written_append, h1, hflush, w2 ch]
    simp [written]

/-- Witness of C8: in the sample round, whose child is `Starting`, two writes
to stdin and one to the command channel before startup, one write to stdin
after it. -/
theorem prestart_writes_flushed_witness :
    ∃ r, Private.proc_started (Private.childRunning (writeAll (sampleRound .ExtendedMode)
            [(.Stdin, bytesOf "ab"), (.Command, bytesOf "y"), (.Stdin, bytesOf "cd")]).1)
          = some r
      ∧ written .Stdin r.2 = [bytesOf "abcd"]
      ∧ written .Stdin (writeAll r.1 [(.Stdin, bytesOf "ef")]).2 = [bytesOf "ef"] := by
  obtain ⟨_, _, r, hr, h1, _, _, _, _, _, h2, _⟩ :=
    prestart_writes_flushed (sampleRound .ExtendedMode) sampleChild .Stdin
      [(.Stdin, bytesOf "ab"), (.Command, bytesOf "y"), (.Stdin, bytesOf "cd")]
      [(.Stdin, bytesOf "ef")] rfl (by decide)
  refine ⟨r, hr, ?_, ?_⟩
  · rw [h1]
    decide
  · rw [h2]
    decide

/-! ## Calls without a child -/

/-- C9. Write and close operations are no-ops without a child: in a session
that is not active the three write operations, for every payload, and the three
close operations return the record unchanged and do nothing; and in every
session, with or without a child, a write operation given the empty payload
returns the record unchanged and does nothing. -/
theorem write_close_noop (d d2 : Private) (a : QByteArray)
    (h : GPGProc.isActive d = false) :
    GPGProc.writeStdin d a = (d, [])
      ∧ GPGProc.writeAux d a = (d, [])
      ∧ GPGProc.writeCommand d a = (d, [])
      ∧ GPGProc.closeStdin d = (d, [])
      ∧ GPGProc.closeAux d = (d, [])
      ∧ GPGProc.closeCommand d = (d, [])
      ∧ GPGProc.writeStdin d2 [] = (d2, [])
      ∧ GPGProc.writeAux d2 [] = (d2, [])
      ∧ GPGProc.writeCommand d2 [] = (d2, []) := by
  have hp : d.proc = none := by
    cases hq : d.proc with
    | none => rfl
    | some q => simp [GPGProc.isActive, hq] at h
  refine ⟨?_, ?_, ?_, ?_, ?_, ?_, write_empty .Stdin d2, write_empty .Aux d2,
    write_empty .Command d2⟩ <;>
    simp [GPGProc.writeStdin, GPGProc.writeAux, GPGProc.writeCommand, GPGProc.closeStdin,
      GPGProc.closeAux, GPGProc.closeCommand, hp]

/-- Witness of C9: a constructed session, and the sample round for the empty
payload. -/
theorem write_close_noop_witness :
    GPGProc.writeStdin (GPGProc.init false) (bytesOf "x") = (GPGProc.init false, [])
      ∧ GPGProc.closeCommand (GPGProc.init false) = (GPGProc.init false, [])
      ∧ GPGProc.writeAux (sampleRound .ExtendedMode) [] = (sampleRound .ExtendedMode, []) :=
  have h := write_close_noop (GPGProc.init false) (sampleRound .ExtendedMode) (bytesOf "x")
    (by decide)
  ⟨h.1, h.2.2.2.2.2.1, h.2.2.2.2.2.2.2.1⟩

/-! ## Leftover output -/

theorem onceThenEmpty_nil (n : Nat) : onceThenEmpty [] n = List.replicate n [] := by
  cases n <;> simp [onceThenEmpty, List.replicate_succ]

theorem call_no_child (d : Private) (c : Call) (hp : d.proc = none)
    (hc : c.isStartOrReset = false) :
    (GPGProc.call d c).1.proc = none
      ∧ (GPGProc.call d c).1.leftover_stdout =
          (if c = .readStdout then [] else d.leftover_stdout)
      ∧ (GPGProc.call d c).1.leftover_stderr =
          (if c = .readStderr then [] else d.leftover_stderr) := by
  cases c <;>
    simp_all [GPGProc.call, Call.isStartOrReset, GPGProc.writeStdin, GPGProc.writeAux,
      GPGProc.writeCommand, GPGProc.closeStdin, GPGProc.closeAux, GPGProc.closeCommand,
      GPGProc.readStdout, GPGProc.readStderr, GPGProc.readStatusLines]

theorem stdoutReads_no_child (d : Private) (cs : List Call) (hp : d.proc = none)
    (hcs : ∀ c ∈ cs, c.isStartOrReset = false) :
    stdoutReads d cs = onceThenEmpty d.leftover_stdout (cs.count .readStdout) := by
  induction cs generalizing d with
  | nil => rfl
  | cons c rest ih =>
    obtain ⟨h1, h2, _⟩ := call_no_child d c hp (hcs c (List.mem_cons_self _ _))
    have ih2 := ih (GPGProc.call d c).1 h1 (fun x hx => hcs x (List.mem_cons_of_mem _ hx))
    by_cases hc : c = .readStdout
    · subst hc
      rw [stdoutReads, ih2, h2, if_pos rfl, onceThenEmpty_nil, List.count_cons_self,
        onceThenEmpty]
      simp [GPGProc.readStdout, hp]
    · have hcount : (c :: rest).count .readStdout = rest.count .readStdout :=
        List.count_cons_of_ne (fun h => hc h.symm) _
      rw [hcount, ← (show (GPGProc.call d c).1.leftover_stdout = d.leftover_stdout by
        rw [h2, if_neg hc]), ← ih2]
      cases c <;> first | rfl | exact absurd rfl hc

theorem stderrReads_no_child (d : Private) (cs : List Call) (hp : d.proc = none)
    (hcs : ∀ c ∈ cs, c.isStartOrReset = false) :
    stderrReads d cs = onceThenEmpty d.leftover_stderr (cs.count .readStderr) := by
  induction cs generalizing d with
  | nil => rfl
  | cons c rest ih =>
    obtain ⟨h1, _, h2⟩ := call_no_child d c hp (hcs c (List.mem_cons_self _ _))
    have ih2 := ih (GPGProc.call d c).1 h1 (fun x hx => hcs x (List.mem_cons_of_mem _ hx))
    by_cases hc : c = .readStderr
    · subst hc
      rw [stderrReads, ih2, h2, if_pos rfl, onceThenEmpty_nil, List.count_cons_self,
        onceThenEmpty]
      simp [GPGProc.readStderr, hp]
    · have hcount : (c :: rest).count .readStderr = rest.count .readStderr :=
        List.count_cons_of_ne (fun h => hc h.symm) _
      rw [hcount, ← (show (GPGProc.call d c).1.leftover_stderr = d.leftover_stderr by
        rw [h2, if_neg hc]), ← ih2]
      cases c <;> first | rfl | exact absurd rfl hc

theorem fired_leftover (d : Private) (p : SProcess) :
    (d.fired p).proc = none ∧ (d.fired p).leftover_stdout = p.stdoutData
      ∧ (d.fired p).leftover_stderr = p.stderrData := by
  unfold Private.fired
  rw [reset_session]
  exact ⟨rfl, rfl, rfl⟩

/-- C10. Leftover output after completion.  When the barrier fires over a
child that holds the unread stdout bytes `o` and the unread stderr bytes `e`,
then in every sequence of calls that follows and contains no `start` and no
`reset`, the first `readStdout` returns `o` and every later one the empty byte
string, and the first `readStderr` returns `e` and every later one the empty
byte string; in particular the first `readStdout` and the first `readStderr`
right after completion return `o` and `e`, and a second call of either returns
the empty byte string. -/
theorem leftover_output (d : Private) (p : SProcess) (cs : List Call)
    (hp : d.proc = some p) (hb : d.barrierOpen = true)
    (hcs : ∀ c ∈ cs, c.isStartOrReset = false) :
    ∃ effs, d.doTryDone = some (d.fired p, effs)
      ∧ stdoutReads (d.fired p) cs = onceThenEmpty p.stdoutData (cs.count .readStdout)
      ∧ stderrReads (d.fired p) cs = onceThenEmpty p.stderrData (cs.count .readStderr)
      ∧ (GPGProc.readStdout (d.fired p)).1 = p.stdoutData
      ∧ (GPGProc.readStdout (GPGProc.readStdout (d.fired p)).2).1 = []
      ∧ (GPGProc.readStderr (d.fired p)).1 = p.stderrData
      ∧ (GPGProc.readStderr (GPGProc.readStderr (d.fired p)).2).1 = [] := by
  obtain ⟨effs, he, _⟩ := doTryDone_open d p hp hb
  obtain ⟨f1, f2, f3⟩ := fired_leftover d p
  refine ⟨effs, he, ?_, ?_, ?_, ?_, ?_, ?_⟩
  · rw [stdoutReads_no_child _ cs f1 hcs, f2]
  · rw [stderrReads_no_child _ cs f1 hcs, f3]
  · simp [GPGProc.readStdout, f1, f2]
  · simp [GPGProc.readStdout, f1]
  · simp [GPGProc.readStderr, f1, f3]
  · simp [GPGProc.readStderr, f1]

/-- Witness of C10: a `BasicMode` round whose child has left `out` on stdout
and `err` on stderr and has finished; afterwards the owner reads stdout, closes
stdin, reads stderr, and reads stdout again. -/
theorem leftover_output_witness :
    stdoutReads
        (Private.fired
          { sampleRound .BasicMode with
              proc := some { state := .NotRunning, stdoutData := bytesOf "out",
                             stderrData := bytesOf "err" },
              fin_process := true, fin_process_success := true, exitCode := 0 }
          { state := .NotRunning, stdoutData := bytesOf "out", stderrData := bytesOf "err" })
        [.readStdout, .closeStdin, .readStderr, .readStdout] = [bytesOf "out", []]
      ∧ stderrReads
        (Private.fired
          { sampleRound .BasicMode with
              proc := some { state := .NotRunning, stdoutData := bytesOf "out",
                             stderrData := bytesOf "err" },
              fin_process := true, fin_process_success := true, exitCode := 0 }
          { state := .NotRunning, stdoutData := bytesOf "out", stderrData := bytesOf "err" })
        [.readStdout, .closeStdin, .readStderr, .readStdout] = [bytesOf "err"] := by
  obtain ⟨_, _, h1, h2, _⟩ := leftover_output
    { sampleRound .BasicMode with
        proc := some { state := .NotRunning, stdoutData := bytesOf "out",
                       stderrData := bytesOf "err" },
        fin_process := true, fin_process_success := true, exitCode := 0 }
    { state := .NotRunning, stdoutData := bytesOf "out", stderrData := bytesOf "err" }
    [.readStdout, .closeStdin, .readStderr, .readStdout] rfl rfl (by decide)
  exact ⟨h1.trans (by decide), h2.trans (by decide)⟩

/-! ## The backlog and the reset tiers -/

/-- C11. `readStatusLines` drains the backlog: in every session record it
returns `statusLines`, leaves `statusLines` empty and every other field
(`statusBuf` among them) as it is, so that a second call right after returns
the empty list; and neither `reset(ResetSession)` nor `doTryDone`, whether the
barrier fires or not, changes what the next `readStatusLines` returns. -/
theorem readStatusLines_drains (d : Private) :
    GPGProc.readStatusLines d = (d.statusLines, { d with statusLines := [] })
      ∧ (GPGProc.readStatusLines d).2.statusBuf = d.statusBuf
      ∧ (GPGProc.readStatusLines (GPGProc.readStatusLines d).2).1 = []
      ∧ (GPGProc.readStatusLines (d.reset .ResetSession).1).1 = (GPGProc.readStatusLines d).1
      ∧ (∀ p : SProcess, (GPGProc.readStatusLines (d.fired p)).1 = (GPGProc.readStatusLines d).1)
      ∧ (∀ r : Private × List Effect, d.doTryDone = some r →
          (GPGProc.readStatusLines r.1).1 = (GPGProc.readStatusLines d).1) := by
  refine ⟨rfl, rfl, rfl, ?_, ?_, ?_⟩
  · simp only [GPGProc.readStatusLines, reset_session]
  · intro p
    simp only [GPGProc.readStatusLines, Private.fired, reset_session]
  · intro r hr
    by_cases hb : d.barrierOpen = true
    · cases hp : d.proc with
      | none =>
        have hf : d.fin_process = true := by
          simp only [Private.barrierOpen, Bool.and_eq_true] at hb
          exact hb.1
        have hg : (d.need_status && !d.fin_status) = false := by
          simp only [Private.barrierOpen, Bool.and_eq_true] at hb
          cases hn : d.need_status <;> cases hs : d.fin_status <;> simp_all
        unfold Private.doTryDone at hr
        simp [hf, hg, hp] at hr
      | some p =>
        obtain ⟨effs, he, _⟩ := doTryDone_open d p hp hb
        rw [he] at hr
        simp only [Option.some.injEq] at hr
        subst hr
        simp only [GPGProc.readStatusLines, Private.fired, reset_session]
    · rw [doTryDone_closed d (by simpa using hb)] at hr
      simp only [Option.some.injEq] at hr
      subst hr
      rfl

/-- C12. Postcondition of `reset`.  In every tier the child and the three
pipes are released (the pipes are reset first, then the child is disconnected,
terminated unless it is `NotRunning`, and deleted), the pending buffers are
emptied, and the pending-close flags, `need_status`, `fin_process` and
`fin_status` are put down.  `ResetSession` leaves every other field as it is;
`ResetSessionAndData` also empties `statusBuf`, `statusLines` and both leftover
buffers and sets `error = FailedToStart`, `exitCode = -1`; `ResetAll` gives
exactly what `ResetSessionAndData` gives. -/
theorem reset_postcondition (d : Private) :
    (d.reset .ResetSession).1 =
        { d with proc := none, pipeAux := QPipe.closed, pipeCommand := QPipe.closed,
                 pipeStatus := QPipe.closed,
                 pre_stdin := [], pre_aux := [], pre_command := [],
                 pre_stdin_close := false, pre_aux_close := false,
                 pre_command_close := false,
                 need_status := false, fin_process := false, fin_status := false }
      ∧ (d.reset .ResetSessionAndData).1 =
        { d with proc := none, pipeAux := QPipe.closed, pipeCommand := QPipe.closed,
                 pipeStatus := QPipe.closed,
                 pre_stdin := [], pre_aux := [], pre_command := [],
                 pre_stdin_close := false, pre_aux_close := false,
                 pre_command_close := false,
                 need_status := false, fin_process := false, fin_status := false,
                 statusBuf := [], statusLines := [],
                 leftover_stdout := [], leftover_stderr := [],
                 error := .FailedToStart, exitCode := -1 }
      ∧ d.reset .ResetAll = d.reset .ResetSessionAndData
      ∧ (∀ mode, (d.reset mode).2 =
          [.pipeReset .Aux, .pipeReset .Command, .pipeReset .Status] ++
            (match d.proc with
             | none => []
             | some p =>
               [.procDisconnect] ++ (if p.state ≠ .NotRunning then [.procTerminate] else []) ++
                 [.procDeleteLater])) := by
  refine ⟨?_, ?_, ?_, ?_⟩
  · unfold Private.reset Private.releaseProc Private.closePipes
    cases h : d.proc <;> simp [h, ResetMode.toNat, QPipe.reset, QPipe.closed]
  · unfold Private.reset Private.releaseProc Private.closePipes
    cases h : d.proc <;> simp [h, ResetMode.toNat, QPipe.reset, QPipe.closed]
  · unfold Private.reset
    simp [ResetMode.toNat]
  · intro mode
    unfold Private.reset Private.releaseProc Private.closePipes
    cases h : d.proc <;> simp [h]

/-! ## Write faults -/

/-- C16. Write-side channel faults are fatal at once.  In every session record
with a child, whatever the barrier flags, `aux_error` and `command_error`
perform `reset(ResetSession)` (the pipes are reset, the child is disconnected
and deleted, the pending state is cleared, the other fields stay) and emit
`error(ErrorWrite)` as their only notification; every event that follows, the
exit of the old child among them, changes nothing and emits nothing. -/
theorem write_fault_fatal (fromUtf8 : QByteArray → QString) (d : Private) (p : SProcess)
    (e : PipeError) (hp : d.proc = some p) :
    deliver fromUtf8 d (.aux_error e) = some (d.aux_error e)
      ∧ deliver fromUtf8 d (.command_error e) = some (d.command_error e)
      ∧ (d.aux_error e).1 = (d.reset .ResetSession).1
      ∧ (d.command_error e).1 = (d.reset .ResetSession).1
      ∧ (d.reset .ResetSession).1 =
          { d with proc := none, pipeAux := QPipe.closed, pipeCommand := QPipe.closed,
                   pipeStatus := QPipe.closed,
                   pre_stdin := [], pre_aux := [], pre_command := [],
                   pre_stdin_close := false, pre_aux_close := false,
                   pre_command_close := false,
                   need_status := false, fin_process := false, fin_status := false }
      ∧ (d.aux_error e).2 =
          [.debug "Aux: Pipe error".toList,
           .pipeReset .Aux, .pipeReset .Command, .pipeReset .Status, .procDisconnect] ++
            (if p.state ≠ .NotRunning then [.procTerminate] else []) ++
            [.procDeleteLater, .error .ErrorWrite]
      ∧ (d.command_error e).2 =
          [.debug "Command: Pipe error".toList,
           .pipeReset .Aux, .pipeReset .Command, .pipeReset .Status, .procDisconnect] ++
            (if p.state ≠ .NotRunning then [.procTerminate] else []) ++
            [.procDeleteLater, .error .ErrorWrite]
      ∧ (d.aux_error e).2.filter Effect.isNotification = [.error .ErrorWrite]
      ∧ (d.command_error e).2.filter Effect.isNotification = [.error .ErrorWrite]
      ∧ (∀ ev : Event,
          deliver fromUtf8 (d.aux_error e).1 ev = some ((d.aux_error e).1, [])
            ∧ deliver fromUtf8 (d.command_error e).1 ev = some ((d.command_error e).1, [])) := by
  have hproc : (d.reset .ResetSession).1.proc = none := (reset_idle d .ResetSession).1
  have heff : (d.reset .ResetSession).2 =
      [.pipeReset .Aux, .pipeReset .Command, .pipeReset .Status, .procDisconnect] ++
        (if p.state ≠ .NotRunning then [.procTerminate] else []) ++ [.procDeleteLater] := by
    unfold Private.reset Private.releaseProc Private.closePipes
    simp [hp]
  refine ⟨?_, ?_, rfl, rfl, ?_, ?_, ?_, ?_, ?_, ?_⟩
  · unfold deliver
    rw [hp]
  · unfold deliver
    rw [hp]
  · unfold Private.reset Private.releaseProc Private.closePipes
    simp [hp, ResetMode.toNat, QPipe.reset, QPipe.closed]
  · simp only [Private.aux_error, heff]
    simp
  · simp only [Private.command_error, heff]
    simp
  · simp only [Private.aux_error, heff]
    by_cases hs : p.state = .NotRunning <;> simp [hs, Effect.isNotification]
  · simp only [Private.command_error, heff]
    by_cases hs : p.state = .NotRunning <;> simp [hs, Effect.isNotification]
  · intro ev
    exact ⟨deliver_no_child fromUtf8 _ hproc ev, deliver_no_child fromUtf8 _ hproc ev⟩

/-- Witness of C16: the aux pipe of the sample `ExtendedMode` round fails, then
the old child exits. -/
theorem write_fault_fatal_witness :
    (Private.aux_error (sampleRound .ExtendedMode) .ErrorBroken).2.filter Effect.isNotification
        = [.error .ErrorWrite]
      ∧ deliver bytewise (Private.aux_error (sampleRound .ExtendedMode) .ErrorBroken).1
          (.proc_finished 0)
        = some ((Private.aux_error (sampleRound .ExtendedMode) .ErrorBroken).1, []) :=
  have h := write_fault_fatal bytewise (sampleRound .ExtendedMode) sampleChild .ErrorBroken rfl
  ⟨h.2.2.2.2.2.2.2.1, (h.2.2.2.2.2.2.2.2.2 (.proc_finished 0)).1⟩

/-! ## Startup ordering -/

theorem childRunning_pending (d : Private) :
    d.childRunning.pre_stdin = d.pre_stdin ∧ d.childRunning.pre_aux = d.pre_aux
      ∧ d.childRunning.pre_command = d.pre_command
      ∧ d.childRunning.pre_stdin_close = d.pre_stdin_close
      ∧ d.childRunning.pre_aux_close = d.pre_aux_close
      ∧ d.childRunning.pre_command_close = d.pre_command_close := by
  unfold Private.childRunning
  cases d.proc <;> exact ⟨rfl, rfl, rfl, rfl, rfl, rfl⟩

/-- The effects of `proc_started`, in a session with a child. -/
theorem proc_started_effects (d : Private) (p : SProcess) (hp : d.proc = some p) :
    ∃ r, d.proc_started = some r ∧
      r.2 =
        [.debug "Process started".toList,
         .readEndClose .Aux, .readEndClose .Command, .writeEndClose .Status] ++
          ((if d.pre_stdin ≠ [] then [.procWrite d.pre_stdin] else []) ++
           (if d.pre_aux ≠ [] then [.writeEndWrite .Aux d.pre_aux] else []) ++
           (if d.pre_command ≠ [] then [.writeEndWrite .Command d.pre_command] else [])) ++
          ((if d.pre_stdin_close then [.procCloseWriteChannel] else []) ++
           (if d.pre_aux_close then [.writeEndClose .Aux] else []) ++
           (if d.pre_command_close then [.writeEndClose .Command] else [])) := by
  refine ⟨_, proc_started_eq d p hp, ?_⟩
  cases h1 : d.pre_stdin <;> cases h2 : d.pre_aux <;> cases h3 : d.pre_command <;> simp

/-- In the list of effects of a startup no closing of an outbound channel is
followed by a write to an outbound channel. -/
theorem startup_pairwise (s1 s2 s3 : QByteArray) (c1 c2 c3 : Bool) :
    List.Pairwise (fun x y : Effect => x.isOutClose = true → y.isOutWrite = false)
      ([.debug "Process started".toList,
        .readEndClose .Aux, .readEndClose .Command, .writeEndClose .Status] ++
          ((if s1 ≠ [] then [.procWrite s1] else []) ++
           (if s2 ≠ [] then [.writeEndWrite .Aux s2] else []) ++
           (if s3 ≠ [] then [.writeEndWrite .Command s3] else [])) ++
          ((if c1 then [.procCloseWriteChannel] else []) ++
           (if c2 then [.writeEndClose .Aux] else []) ++
           (if c3 then [.writeEndClose .Command] else []))) := by
  cases c1 <;> cases c2 <;> cases c3 <;> by_cases h1 : s1 = [] <;> by_cases h2 : s2 = [] <;>
    by_cases h3 : s3 = [] <;> simp [h1, h2, h3, Effect.isOutClose, Effect.isOutWrite]

/-- One write or close call while the child is not `Running`: nothing is done
to the outside, the payload is added to the pending buffer of its channel, the
pending-close flag of the channel is raised. -/
theorem outOp_buffered (d : Private) (p : SProcess) (op : OutOp) (hp : d.proc = some p)
    (hs : p.state ≠ .Running) :
    (GPGProc.outOp d op).2 = []
      ∧ (GPGProc.outOp d op).1.proc = some p
      ∧ (∀ c, (GPGProc.outOp d op).1.pending c = d.pending c ++ writtenTo c [op])
      ∧ (∀ c, (GPGProc.outOp d op).1.pendingClose c = (d.pendingClose c || closeAsked c [op])) := by
  cases op with
  | write ch a =>
    cases a with
    | nil =>
      have he : GPGProc.outOp d (.write ch []) = (d, []) := write_empty ch d
      rw [he]
      refine ⟨rfl, hp, fun c => ?_, fun c => ?_⟩
      · by_cases hc : ch = c <;> simp [writtenTo, hc]
      · simp [closeAsked]
    | cons b bs =>
      cases ch <;> refine ⟨?_, ?_, fun c => ?_, fun c => ?_⟩ <;> (try cases c) <;>
        simp [GPGProc.outOp, GPGProc.write, GPGProc.writeStdin, GPGProc.writeAux,
          GPGProc.writeCommand, hp, hs, Private.pending, Private.pendingClose, writtenTo,
          closeAsked]
  | close ch =>
    cases ch <;> refine ⟨?_, ?_, fun c => ?_, fun c => ?_⟩ <;> (try cases c) <;>
      simp [GPGProc.outOp, GPGProc.close, GPGProc.closeStdin, GPGProc.closeAux,
        GPGProc.closeCommand, hp, hs, Private.pending, Private.pendingClose, writtenTo,
        closeAsked]

theorem writtenTo_cons (c : OutChannel) (op : OutOp) (rest : List OutOp) :
    writtenTo c (op :: rest) = writtenTo c [op] ++ writtenTo c rest := by
  cases op with
  | write ch a => by_cases h : ch = c <;> simp [writtenTo, h]
  | close ch => simp [writtenTo]

theorem closeAsked_cons (c : OutChannel) (op : OutOp) (rest : List OutOp) :
    closeAsked c (op :: rest) = (closeAsked c [op] || closeAsked c rest) := by
  cases op with
  | write ch a => simp [closeAsked]
  | close ch => by_cases h : ch = c <;> simp [closeAsked, h]

/-- A sequence of write and close calls while the child is not `Running`. -/
theorem outOps_buffered (d : Private) (p : SProcess) (ops : List OutOp)
    (hp : d.proc = some p) (hs : p.state ≠ .Running) :
    (outOps d ops).2 = []
      ∧ (outOps d ops).1.proc = some p
      ∧ (∀ c, (outOps d ops).1.pending c = d.pending c ++ writtenTo c ops)
      ∧ (∀ c, (outOps d ops).1.pendingClose c = (d.pendingClose c || closeAsked c ops)) := by
  induction ops generalizing d with
  | nil => exact ⟨rfl, hp, fun c => by simp [outOps, writtenTo], fun c => by simp [outOps, closeAsked]⟩
  | cons op rest ih =>
    obtain ⟨h1, h2, h3, h4⟩ := outOp_buffered d p op hp hs
    obtain ⟨g1, g2, g3, g4⟩ := ih (GPGProc.outOp d op).1 h2
    refine ⟨by simp [outOps, h1, g1], g2, fun c => ?_, fun c => ?_⟩
    · simp only [outOps, g3 c, h3 c, writtenTo_cons c op rest, List.append_assoc]
    · simp only [outOps, g4 c, h4 c, closeAsked_cons c op rest, Bool.or_assoc]

/-- C19. Startup ordering.  In every session record with a child,
`proc_started` performs, in this order: the trace, the closing of the aux read
end, of the command read end and of the status write end; then one write per
non-empty pending buffer, to stdin, aux, command; then the pending closes, of
stdin, aux, command; so no closing of an outbound channel is followed by a write
to an outbound channel.  While the child is not `Running`, `closeStdin`,
`closeAux` and `closeCommand` do nothing but raise their pending-close flag, and
every sequence of write and close calls on the three channels, in any order,
does nothing to the outside: each pending buffer grows by the bytes written to
its channel, each pending-close flag is raised when its close was called.  The
startup that follows writes each non-empty pending buffer and then closes each
channel whose flag is up, every write before every close.  In particular, with
nothing pending, a close of a channel followed by a write of a non-empty `a` to
the same channel makes the startup write `a` to that channel and close it
after. -/
theorem proc_started_order (d : Private) (p : SProcess) (ops : List OutOp)
    (hp : d.proc = some p) :
    (∃ r, d.proc_started = some r ∧
        r.2 =
          [.debug "Process started".toList,
           .readEndClose .Aux, .readEndClose .Command, .writeEndClose .Status] ++
            ((if d.pre_stdin ≠ [] then [.procWrite d.pre_stdin] else []) ++
             (if d.pre_aux ≠ [] then [.writeEndWrite .Aux d.pre_aux] else []) ++
             (if d.pre_command ≠ [] then [.writeEndWrite .Command d.pre_command] else [])) ++
            ((if d.pre_stdin_close then [.procCloseWriteChannel] else []) ++
             (if d.pre_aux_close then [.writeEndClose .Aux] else []) ++
             (if d.pre_command_close then [.writeEndClose .Command] else []))
        ∧ List.Pairwise (fun x y : Effect => x.isOutClose = true → y.isOutWrite = false) r.2)
      ∧ (p.state ≠ .Running →
          GPGProc.closeStdin d = ({ d with pre_stdin_close := true }, [])
          ∧ GPGProc.closeAux d = ({ d with pre_aux_close := true }, [])
          ∧ GPGProc.closeCommand d = ({ d with pre_command_close := true }, [])
          ∧ (outOps d ops).2 = []
          ∧ (∀ ch, (outOps d ops).1.pending ch = d.pending ch ++ writtenTo ch ops)
          ∧ (∀ ch, (outOps d ops).1.pendingClose ch = (d.pendingClose ch || closeAsked ch ops))
          ∧ ∃ r, Private.proc_started (Private.childRunning (outOps d ops).1) = some r
              ∧ r.2 =
                [.debug "Process started".toList,
                 .readEndClose .Aux, .readEndClose .Command, .writeEndClose .Status] ++
                  ((if d.pre_stdin ++ writtenTo .Stdin ops ≠ [] then
                      [.procWrite (d.pre_stdin ++ writtenTo .Stdin ops)] else []) ++
                   (if d.pre_aux ++ writtenTo .Aux ops ≠ [] then
                      [.writeEndWrite .Aux (d.pre_aux ++ writtenTo .Aux ops)] else []) ++
                   (if d.pre_command ++ writtenTo .Command ops ≠ [] then
                      [.writeEndWrite .Command (d.pre_command ++ writtenTo .Command ops)]
                    else [])) ++
                  ((if (d.pre_stdin_close || closeAsked .Stdin ops) then
                      [.procCloseWriteChannel] else []) ++
                   (if (d.pre_aux_close || closeAsked .Aux ops) then
                      [.writeEndClose .Aux] else []) ++
                   (if (d.pre_command_close || closeAsked .Command ops) then
                      [.writeEndClose .Command] else []))
              ∧ List.Pairwise (fun x y : Effect => x.isOutClose = true → y.isOutWrite = false)
                  r.2)
      ∧ (p.state ≠ .Running → d.nothingPending →
          ∀ (ch : OutChannel) (a : QByteArray), a ≠ [] →
            ∃ r, Private.proc_started
                  (Private.childRunning (outOps d [.close ch, .write ch a]).1) = some r
              ∧ r.2 =
                [.debug "Process started".toList,
                 .readEndClose .Aux, .readEndClose .Command, .writeEndClose .Status,
                 writeEffect ch a, closeEffect ch]) := by
  have general : ∀ ops1 : List OutOp, p.state ≠ .Running →
      ∃ r, Private.proc_started (Private.childRunning (outOps d ops1).1) = some r
        ∧ r.2 =
          [.debug "Process started".toList,
           .readEndClose .Aux, .readEndClose .Command, .writeEndClose .Status] ++
            ((if d.pre_stdin ++ writtenTo .Stdin ops1 ≠ [] then
                [.procWrite (d.pre_stdin ++ writtenTo .Stdin ops1)] else []) ++
             (if d.pre_aux ++ writtenTo .Aux ops1 ≠ [] then
                [.writeEndWrite .Aux (d.pre_aux ++ writtenTo .Aux ops1)] else []) ++
             (if d.pre_command ++ writtenTo .Command ops1 ≠ [] then
                [.writeEndWrite .Command (d.pre_command ++ writtenTo .Command ops1)]
              else [])) ++
            ((if (d.pre_stdin_close || closeAsked .Stdin ops1) then
                [.procCloseWriteChannel] else []) ++
             (if (d.pre_aux_close || closeAsked .Aux ops1) then
                [.writeEndClose .Aux] else []) ++
             (if (d.pre_command_close || closeAsked .Command ops1) then
                [.writeEndClose .Command] else [])) := by
    intro ops1 hs
    obtain ⟨_, h2, h3, h4⟩ := outOps_buffered d p ops1 hp hs
    obtain ⟨k1, _⟩ := childRunning_some _ p h2
    obtain ⟨q1, q2, q3, q4, q5, q6⟩ := childRunning_pending (outOps d ops1).1
    obtain ⟨r, hr, he⟩ := proc_started_effects _ _ k1
    refine ⟨r, hr, ?_⟩
    have e1 : (outOps d ops1).1.pre_stdin = d.pre_stdin ++ writtenTo .Stdin ops1 := h3 .Stdin
    have e2 : (outOps d ops1).1.pre_aux = d.pre_aux ++ writtenTo .Aux ops1 := h3 .Aux
    have e3 : (outOps d ops1).1.pre_command = d.pre_command ++ writtenTo .Command ops1 :=
      h3 .Command
    have e4 : (outOps d ops1).1.pre_stdin_close = (d.pre_stdin_close || closeAsked .Stdin ops1) :=
      h4 .Stdin
    have e5 : (outOps d ops1).1.pre_aux_close = (d.pre_aux_close || closeAsked .Aux ops1) :=
      h4 .Aux
    have e6 : (outOps d ops1).1.pre_command_close =
        (d.pre_command_close || closeAsked .Command ops1) := h4 .Command
    rw [he, q1, q2, q3, q4, q5, q6, e1, e2, e3, e4, e5, e6]
  refine ⟨?_, ?_, ?_⟩
  · obtain ⟨r, hr, he⟩ := proc_started_effects d p hp
    refine ⟨r, hr, he, ?_⟩
    rw [he]
    exact startup_pairwise _ _ _ _ _ _
  · intro hs
    obtain ⟨h1, _, h3, h4⟩ := outOps_buffered d p ops hp hs
    obtain ⟨r, hr, he⟩ := general ops hs
    refine ⟨?_, ?_, ?_, h1, h3, h4, r, hr, he, ?_⟩
    · simp [GPGProc.closeStdin, hp, hs]
    · simp [GPGProc.closeAux, hp, hs]
    · simp [GPGProc.closeCommand, hp, hs]
    · rw [he]
      exact startup_pairwise _ _ _ _ _ _
  · intro hs hc ch a ha
    obtain ⟨c1, c2, c3, c4, c5, c6⟩ := hc
    obtain ⟨r, hr, he⟩ := general [.close ch, .write ch a] hs
    refine ⟨r, hr, ?_⟩
    rw [he]
    cases ch <;>
      simp [c1, c2, c3, c4, c5, c6, ha, writtenTo, closeAsked, writeEffect, closeEffect]

/-- Witness of C19: in the sample round, whose child is `Starting`, the owner
closes stdin and the aux channel, writes `k` to the aux channel and `x` to
stdin, and closes the command channel; the startup writes `x` and `k` and then
closes the three channels. -/
theorem proc_started_order_witness :
    (outOps (sampleRound .ExtendedMode)
        [.close .Stdin, .close .Aux, .write .Aux (bytesOf "k"), .write .Stdin (bytesOf "x"),
         .close .Command]).2 = []
      ∧ ∃ r, Private.proc_started
            (Private.childRunning
              (outOps (sampleRound .ExtendedMode)
                [.close .Stdin, .close .Aux, .write .Aux (bytesOf "k"),
                 .write .Stdin (bytesOf "x"), .close .Command]).1)
          = some r
        ∧ r.2 =
          [.debug "Process started".toList,
           .readEndClose .Aux, .readEndClose .Command, .writeEndClose .Status,
           .procWrite (bytesOf "x"), .writeEndWrite .Aux (bytesOf "k"),
           .procCloseWriteChannel, .writeEndClose .Aux, .writeEndClose .Command] := by
  obtain ⟨h1, _, _, r, hr, he, _⟩ :=
    ((proc_started_order (sampleRound .ExtendedMode) sampleChild
      [.close .Stdin, .close .Aux, .write .Aux (bytesOf "k"), .write .Stdin (bytesOf "x"),
       .close .Command] rfl).2.1 (by decide)).2.2.2
  exact ⟨h1, r, hr, he.trans (by decide)⟩

/-! ## Lemmas on the effects and the record of `start` -/

theorem quiet_notifications (effs : List Effect) (h : effs.all Effect.isQuiet = true) :
    effs.filter Effect.isNotification = [] ∧ effs.filter Effect.isQueued = []
      ∧ finals effs = [] ∧ spawnedArgs effs = none ∧ ∀ ch, written ch effs = [] := by
  induction effs with
  | nil => exact ⟨rfl, rfl, rfl, rfl, fun _ => rfl⟩
  | cons e es ih =>
    simp only [List.all_cons, Bool.and_eq_true] at h
    obtain ⟨i1, i2, i3, i4, i5⟩ := ih h.2
    have he := h.1
    cases e <;> simp [Effect.isQuiet] at he <;>
      exact ⟨by simp [Effect.isNotification, i1], by simp [Effect.isQueued, i2],
        by rw [← List.singleton_append, finals_append, i3]; simp [finals, Effect.isFinal],
        by simp [spawnedArgs, i4], fun ch => by simp [written, i5]⟩

theorem spawnedArgs_append (a b : List Effect) (h : spawnedArgs a = none) :
    spawnedArgs (a ++ b) = spawnedArgs b := by
  induction a with
  | nil => rfl
  | cons e es ih =>
    cases e <;> simp [spawnedArgs] at h ⊢ <;> exact ih h

theorem reset_quiet (d : Private) (mode : ResetMode) :
    (d.reset mode).2.all Effect.isQuiet = true := by
  unfold Private.reset Private.releaseProc Private.closePipes
  cases h : d.proc with
  | none => simp [h, Effect.isQuiet]
  | some p => by_cases hs : p.state = .NotRunning <;> simp [h, hs, Effect.isQuiet]

theorem setupPipes_quiet (os : StartEnv) (d : Private) (mk : Bool) :
    (d.setupPipes os mk).2.2.all Effect.isQuiet = true := by
  obtain ⟨oa, oc, ost⟩ := os
  cases mk <;> cases oa <;> cases oc <;> cases ost <;>
    simp [Private.setupPipes, Private.closePipes, QPipe.create, Effect.isQuiet]

theorem setupPipes_eq (os : StartEnv) (d : Private) (mk : Bool) :
    (d.setupPipes os mk).1 = ((!mk || os.aux.isSome) && os.command.isSome && os.status.isSome)
      ∧ ((d.setupPipes os mk).1 = false →
          (d.setupPipes os mk).2.1 =
            { d with pipeAux := QPipe.closed, pipeCommand := QPipe.closed,
                     pipeStatus := QPipe.closed })
      ∧ (∀ cids sids, os.command = some cids → os.status = some sids →
          (d.setupPipes os mk).1 = true →
          (d.setupPipes os mk).2.1 =
            { d with pipeAux := (if mk then (d.pipeAux.create os.aux).2 else d.pipeAux),
                     pipeCommand := QPipe.created cids,
                     pipeStatus := QPipe.created sids }) := by
  obtain ⟨oa, oc, ost⟩ := os
  cases mk <;> cases oa <;> cases oc <;> cases ost <;>
    simp [Private.setupPipes, Private.closePipes, QPipe.create, QPipe.reset, QPipe.closed,
      QPipe.created]

theorem enablePipes_eq (d : Private) :
    (GPGProc.start.enablePipes d).1 =
        { d with
            pipeAux := { d.pipeAux with writeEnd := d.pipeAux.writeEnd.enableIfValid },
            pipeCommand :=
              { d.pipeCommand with writeEnd := d.pipeCommand.writeEnd.enableIfValid },
            pipeStatus := { d.pipeStatus with readEnd := d.pipeStatus.readEnd.enableIfValid } }
      ∧ (GPGProc.start.enablePipes d).2.all Effect.isQuiet = true := by
  obtain ⟨proc, ⟨ar, ⟨av, ae, ai, ais⟩⟩, ⟨cr, ⟨cv, ce, ci, cis⟩⟩, ⟨⟨sv, se, si, sis⟩, sw⟩,
    sb, sl, err, ec, pin, paux, pcmd, c1, c2, c3, ns, fp, fps, fs, lo, le⟩ := d
  cases av <;> cases cv <;> cases sv <;> exact ⟨rfl, rfl⟩

theorem substArgs_eq_map (d : Private) (mode : Mode) (args : QStringList) :
    substArgs d mode args =
      args.map fun a =>
        if mode = .ExtendedMode then substToken d.pipeAux.readEnd.idAsString a else a := by
  induction args with
  | nil => rfl
  | cons a rest ih =>
    cases mode <;> simp [substArgs, substToken, ih]

/-- The record and the effects of the launch part of `start`. -/
theorem launch_eq (d : Private) (bin : QString) (args : QStringList) (mode : Mode) :
    (GPGProc.start.launch d bin args mode).1 =
        { d with
            pipeAux := { d.pipeAux with writeEnd := d.pipeAux.writeEnd.enableIfValid },
            pipeCommand :=
              { d.pipeCommand with writeEnd := d.pipeCommand.writeEnd.enableIfValid },
            pipeStatus := { d.pipeStatus with readEnd := d.pipeStatus.readEnd.enableIfValid },
            need_status := (if mode = .ExtendedMode then true else d.need_status),
            proc := some SProcess.fresh }
      ∧ (∃ quiet : List Effect, quiet.all Effect.isQuiet = true
          ∧ (GPGProc.start.launch d bin args mode).2 =
              quiet ++ [.procStart bin (GPGProc.start.fullargs d args mode)]) := by
  unfold GPGProc.start.launch
  constructor
  · simp only [(enablePipes_eq _).1]
    cases mode <;> simp [SProcess.fresh]
  · refine ⟨_, ?_, rfl⟩
    simp [List.all_append, (enablePipes_eq _).2, Effect.isQuiet]

theorem start_entry (d : Private) :
    (GPGProc.start.entry d).1.proc = none
      ∧ (GPGProc.start.entry d).2.all Effect.isQuiet = true
      ∧ (d.proc = none → GPGProc.start.entry d = (d, []))
      ∧ (∀ p, d.proc = some p → GPGProc.start.entry d = d.reset .ResetSessionAndData) := by
  unfold GPGProc.start.entry
  cases hp : d.proc with
  | none => simp [GPGProc.isActive, hp]
  | some p =>
    simp only [GPGProc.isActive, hp, Option.isSome_some, if_true]
    refine ⟨(reset_idle d _).1, reset_quiet d _, ?_, ?_⟩
    · intro h
      simp at h
    · intro q _
      trivial

theorem setupOk_eq (os : StartEnv) (args : QStringList) (d : Private) :
    (d.setupPipes os (args.contains auxToken)).1 = os.setupOk args :=
  (setupPipes_eq os d (args.contains auxToken)).1

/-- The three ways through `start`: `BasicMode`, `ExtendedMode` with a failed
pipe setup, `ExtendedMode` with the pipes made. -/
theorem start_eq (os : StartEnv) (d : Private) (bin : QString) (args : QStringList) :
    GPGProc.start os d bin args .BasicMode =
        ((GPGProc.start.launch (GPGProc.start.entry d).1 bin args .BasicMode).1,
         (GPGProc.start.entry d).2 ++
           (GPGProc.start.launch (GPGProc.start.entry d).1 bin args .BasicMode).2)
      ∧ (os.setupOk args = false →
          GPGProc.start os d bin args .ExtendedMode =
            ({ (GPGProc.start.entry d).1 with
                 pipeAux := QPipe.closed, pipeCommand := QPipe.closed,
                 pipeStatus := QPipe.closed, error := .FailedToStart },
             (GPGProc.start.entry d).2 ++
               ((GPGProc.start.entry d).1.setupPipes os (args.contains auxToken)).2.2 ++
               [.errorQueued .FailedToStart]))
      ∧ (os.setupOk args = true →
          ∃ cids sids, os.command = some cids ∧ os.status = some sids
            ∧ GPGProc.start os d bin args .ExtendedMode =
              ((GPGProc.start.launch
                  { (GPGProc.start.entry d).1 with
                      pipeAux :=
                        (if args.contains auxToken then
                          ((GPGProc.start.entry d).1.pipeAux.create os.aux).2
                         else (GPGProc.start.entry d).1.pipeAux),
                      pipeCommand := QPipe.created cids,
                      pipeStatus := QPipe.created sids }
                  bin args .ExtendedMode).1,
               (GPGProc.start.entry d).2 ++
                 ((GPGProc.start.entry d).1.setupPipes os (args.contains auxToken)).2.2 ++
                 [.debug "Pipe setup complete".toList] ++
                 (GPGProc.start.launch
                  { (GPGProc.start.entry d).1 with
                      pipeAux :=
                        (if args.contains auxToken then
                          ((GPGProc.start.entry d).1.pipeAux.create os.aux).2
                         else (GPGProc.start.entry d).1.pipeAux),
                      pipeCommand := QPipe.created cids,
                      pipeStatus := QPipe.created sids }
                  bin args .ExtendedMode).2)) := by
  generalize hmk : args.contains auxToken = mk
  refine ⟨?_, ?_, ?_⟩
  · simp only [GPGProc.start, GPGProc.start.entry, reduceCtorEq, if_false]
  · intro hok
    have h1 := setupOk_eq os args (GPGProc.start.entry d).1
    rw [hmk, hok] at h1
    have h2 := (setupPipes_eq os (GPGProc.start.entry d).1 mk).2.1 h1
    simp only [GPGProc.start, ← GPGProc.start.entry.eq_1, hmk, if_true, h1, Bool.not_false, h2]
  · intro hok
    have h1 := setupOk_eq os args (GPGProc.start.entry d).1
    rw [hmk, hok] at h1
    have hc : ∃ cids, os.command = some cids := by
      cases hcc : os.command with
      | none => simp [StartEnv.setupOk, hcc] at hok
      | some c => exact ⟨c, rfl⟩
    have hst : ∃ sids, os.status = some sids := by
      cases hcc : os.status with
      | none => simp [StartEnv.setupOk, hcc] at hok
      | some c => exact ⟨c, rfl⟩
    obtain ⟨cids, hc⟩ := hc
    obtain ⟨sids, hst⟩ := hst
    have h2 := (setupPipes_eq os (GPGProc.start.entry d).1 mk).2.2 cids sids hc hst h1
    refine ⟨cids, sids, hc, hst, ?_⟩
    simp only [GPGProc.start, ← GPGProc.start.entry.eq_1, hmk, if_true, h1, Bool.not_true,
      Bool.false_eq_true, if_false, h2]

theorem map_substToken_of_not_mem (x : QString) (args : QStringList) (h : auxToken ∉ args) :
    args.map (substToken x) = args := by
  induction args with
  | nil => rfl
  | cons a rest ih =>
    simp only [List.mem_cons, not_or] at h
    have ha : ¬ a = auxToken := fun hc => h.1 hc.symm
    simp [substToken, ha, ih h.2]

theorem spawnedArgs_quiet_procStart (quiet : List Effect) (bin : QString) (l : QStringList)
    (h : quiet.all Effect.isQuiet = true) :
    spawnedArgs (quiet ++ [.procStart bin l]) = some l := by
  rw [spawnedArgs_append _ _ (quiet_notifications quiet h).2.2.2.1]
  rfl

/-- The argument list of the child in `BasicMode`. -/
theorem start_spawned_basic (os : StartEnv) (d : Private) (bin : QString)
    (args : QStringList) :
    spawnedArgs (GPGProc.start os d bin args .BasicMode).2 = some ("--no-tty".toList :: args) := by
  rw [(start_eq os d bin args).1]
  obtain ⟨quiet, hq, he⟩ := (launch_eq (GPGProc.start.entry d).1 bin args .BasicMode).2
  simp only [he, ← List.append_assoc]
  rw [spawnedArgs_quiet_procStart _ _ _
    (by simp [List.all_append, (start_entry d).2.1, hq])]
  simp [GPGProc.start.fullargs, substArgs_eq_map]

/-- The argument list of the child in `ExtendedMode`, when the pipes can be
made. -/
theorem start_spawned_extended (os : StartEnv) (d : Private) (bin : QString)
    (args : QStringList) (hok : os.setupOk args = true) :
    ∃ cids sids, os.command = some cids ∧ os.status = some sids
      ∧ spawnedArgs (GPGProc.start os d bin args .ExtendedMode).2 =
          some (["--no-tty".toList, "--enable-special-filenames".toList,
                 "--status-fd".toList, sids.writeIdAsString,
                 "--command-fd".toList, cids.readIdAsString] ++
                args.map (substToken os.auxReadId)) := by
  obtain ⟨cids, sids, hc, hst, he⟩ := (start_eq os d bin args).2.2 hok
  refine ⟨cids, sids, hc, hst, ?_⟩
  rw [he]
  generalize hd1 : ({ (GPGProc.start.entry d).1 with
      pipeAux :=
        (if args.contains auxToken then
          ((GPGProc.start.entry d).1.pipeAux.create os.aux).2
         else (GPGProc.start.entry d).1.pipeAux),
      pipeCommand := QPipe.created cids,
      pipeStatus := QPipe.created sids } : Private) = d1
  obtain ⟨quiet, hq, hl⟩ := (launch_eq d1 bin args .ExtendedMode).2
  simp only [hl, ← List.append_assoc]
  rw [spawnedArgs_quiet_procStart _ _ _
    (by simp [List.all_append, (start_entry d).2.1, setupPipes_quiet, hq, Effect.isQuiet])]
  have hs1 : d1.pipeStatus = QPipe.created sids := by rw [← hd1]
  have hc1 : d1.pipeCommand = QPipe.created cids := by rw [← hd1]
  have ha1 : args.map (substToken d1.pipeAux.readEnd.idAsString) =
      args.map (substToken os.auxReadId) := by
    by_cases hmem : auxToken ∈ args
    · have hmk : args.contains auxToken = true := by simpa using hmem
      have haux : ∃ aids, os.aux = some aids := by
        cases ha : os.aux with
        | none => simp [StartEnv.setupOk, ha, hmem] at hok
        | some a => exact ⟨a, rfl⟩
      obtain ⟨aids, haux⟩ := haux
      have : d1.pipeAux = QPipe.created aids := by
        rw [← hd1]
        simp [hmem, haux, QPipe.create, QPipe.created]
      rw [this]
      simp [StartEnv.auxReadId, haux, QPipe.created]
    · rw [map_substToken_of_not_mem _ _ hmem, map_substToken_of_not_mem _ _ hmem]
  simp only [GPGProc.start.fullargs, substArgs_eq_map, if_true, hs1, hc1, ha1]
  simp [QPipe.created]

/-! ## The arguments of the child -/

/-- C17. Exact-match placeholder substitution.  In `BasicMode` the child is
started with `--no-tty` followed by the caller's arguments, all unchanged, the
placeholder `-&?` included.  In `ExtendedMode`, when the pipes can be made,
the argument list of the child ends with the caller's arguments in their order
and number, where each token that is exactly `-&?` has become `-&` followed by
the identifier string of the read end of the aux pipe and every other token,
also one that only starts with or contains `-&?`, is unchanged. -/
theorem start_placeholder (os : StartEnv) (d : Private) (bin : QString)
    (args : QStringList) (x : QString) (hok : os.setupOk args = true) :
    spawnedArgs (GPGProc.start os d bin args .BasicMode).2 = some ("--no-tty".toList :: args)
      ∧ (∃ front : QStringList,
          spawnedArgs (GPGProc.start os d bin args .ExtendedMode).2 =
            some (front ++ args.map (substToken os.auxReadId)))
      ∧ (args.map (substToken os.auxReadId)).length = args.length
      ∧ (∀ (i : Nat) (a : QString), args[i]? = some a →
          (args.map (substToken os.auxReadId))[i]? =
            some (if a = "-&?".toList then "-&".toList ++ os.auxReadId else a))
      ∧ substToken x "-&?".toList = "-&".toList ++ x
      ∧ (∀ a : QString, a ≠ "-&?".toList → substToken x a = a)
      ∧ substToken x "-&?1".toList = "-&?1".toList
      ∧ substToken x "x-&?".toList = "x-&?".toList := by
  obtain ⟨cids, sids, _, _, he⟩ := start_spawned_extended os d bin args hok
  refine ⟨start_spawned_basic os d bin args, ⟨_, he⟩, by simp, ?_, ?_, ?_, ?_, ?_⟩
  · intro i a hi
    simp [List.getElem?_map, hi, substToken, auxToken]
  · simp [substToken, auxToken]
  · intro a ha
    unfold substToken auxToken
    rw [if_neg ha]
  · simp [substToken, auxToken]
  · simp [substToken, auxToken]

/-- Witness of C17: the sample operating system and an argument list with the
placeholder and with a token that only starts with it. -/
theorem start_placeholder_witness :
    spawnedArgs (GPGProc.start sampleEnv (GPGProc.init false) "gpg".toList
        ["--op".toList, "-&?".toList, "-&?1".toList] .BasicMode).2
        = some ["--no-tty".toList, "--op".toList, "-&?".toList, "-&?1".toList]
      ∧ ∃ front : QStringList,
          spawnedArgs (GPGProc.start sampleEnv (GPGProc.init false) "gpg".toList
            ["--op".toList, "-&?".toList, "-&?1".toList] .ExtendedMode).2
            = some (front ++ ["--op".toList, "-&3".toList, "-&?1".toList]) :=
  have h := start_placeholder sampleEnv (GPGProc.init false) "gpg".toList
    ["--op".toList, "-&?".toList, "-&?1".toList] [] (by decide)
  ⟨h.1, h.2.1⟩

/-- Counterexample to C18 as stated: started in `ExtendedMode` with the one
argument `--op`, the child gets the protocol arguments before `--op`, not after
it. -/
theorem start_protocol_args_counterexample :
    spawnedArgs (GPGProc.start sampleEnv (GPGProc.init false) "gpg".toList
        ["--op".toList] .ExtendedMode).2
        = some ["--no-tty".toList, "--enable-special-filenames".toList,
                "--status-fd".toList, "8".toList, "--command-fd".toList, "5".toList,
                "--op".toList]
      ∧ List.indexOf "--status-fd".toList
          ["--no-tty".toList, "--enable-special-filenames".toList,
           "--status-fd".toList, "8".toList, "--command-fd".toList, "5".toList,
           "--op".toList]
        < List.indexOf "--op".toList
          ["--no-tty".toList, "--enable-special-filenames".toList,
           "--status-fd".toList, "8".toList, "--command-fd".toList, "5".toList,
           "--op".toList]
      ∧ ¬ ∃ front : QStringList,
          spawnedArgs (GPGProc.start sampleEnv (GPGProc.init false) "gpg".toList
            ["--op".toList] .ExtendedMode).2
            = some (front ++ ["--op".toList] ++
                ["--status-fd".toList, "8".toList, "--command-fd".toList, "5".toList]) := by
  have h : spawnedArgs (GPGProc.start sampleEnv (GPGProc.init false) "gpg".toList
        ["--op".toList] .ExtendedMode).2
        = some ["--no-tty".toList, "--enable-special-filenames".toList,
                "--status-fd".toList, "8".toList, "--command-fd".toList, "5".toList,
                "--op".toList] := by decide
  refine ⟨h, by decide, ?_⟩
  rintro ⟨front, hf⟩
  rw [h] at hf
  simp only [Option.some.injEq] at hf
  have hlen := congrArg List.length hf
  simp only [List.length_cons, List.length_nil, List.length_append] at hlen
  have h0 : front.length = 2 := by omega
  match front, h0 with
  | [a, b], _ =>
    simp only [List.cons_append, List.nil_append, List.cons.injEq] at hf
    exact absurd hf.2.2.1 (by decide)

/-- C18, amended.  In `ExtendedMode`, when the pipes can be made, the argument
list of the child is `--no-tty`, `--enable-special-filenames`, `--status-fd`
with the identifier string of the write end of the status pipe, `--command-fd`
with the identifier string of the read end of the command pipe, and then the
caller's arguments with the placeholder replaced: the protocol arguments are
added to the list before the caller's arguments and come before them. -/
theorem start_protocol_args (os : StartEnv) (d : Private) (bin : QString)
    (args : QStringList) (hok : os.setupOk args = true) :
    ∃ cids sids, os.command = some cids ∧ os.status = some sids
      ∧ spawnedArgs (GPGProc.start os d bin args .ExtendedMode).2 =
          some (["--no-tty".toList, "--enable-special-filenames".toList,
                 "--status-fd".toList, sids.writeIdAsString,
                 "--command-fd".toList, cids.readIdAsString] ++
                args.map (substToken os.auxReadId)) :=
  start_spawned_extended os d bin args hok

/-- Witness of C18, amended: the sample operating system, two arguments. -/
theorem start_protocol_args_witness :
    ∃ cids sids, sampleEnv.command = some cids ∧ sampleEnv.status = some sids
      ∧ spawnedArgs (GPGProc.start sampleEnv (GPGProc.init false) "gpg".toList
          ["--op".toList, "-&?".toList] .ExtendedMode).2 =
          some (["--no-tty".toList, "--enable-special-filenames".toList,
                 "--status-fd".toList, sids.writeIdAsString,
                 "--command-fd".toList, cids.readIdAsString] ++
                ["--op".toList, "-&3".toList]) :=
  start_protocol_args sampleEnv (GPGProc.init false) "gpg".toList
    ["--op".toList, "-&?".toList] (by decide)

/-! ## Failure of the pipe setup -/

/-- C15. Channel-setup failure in `start`.  In `ExtendedMode`, on a session
that was active or idle, when the aux pipe is asked for and cannot be made, or
the command pipe or the status pipe cannot be made, `start` leaves no child
(`isActive` is false), leaves the three pipes closed, records
`error = FailedToStart`, emits no notification apart from the trace (no `error`
among its effects), posts exactly one `error(FailedToStart)` for later
delivery, as its last effect, starts no child, and leaves `need_status`
down. -/
theorem start_setup_failure (os : StartEnv) (d : Private) (bin : QString)
    (args : QStringList) (hs : d.proc = none → d.idle)
    (hfail : (auxToken ∈ args ∧ os.aux = none) ∨ os.command = none ∨ os.status = none) :
    GPGProc.isActive (GPGProc.start os d bin args .ExtendedMode).1 = false
      ∧ (GPGProc.start os d bin args .ExtendedMode).1.pipeAux = QPipe.closed
      ∧ (GPGProc.start os d bin args .ExtendedMode).1.pipeCommand = QPipe.closed
      ∧ (GPGProc.start os d bin args .ExtendedMode).1.pipeStatus = QPipe.closed
      ∧ (GPGProc.start os d bin args .ExtendedMode).1.error = .FailedToStart
      ∧ (GPGProc.start os d bin args .ExtendedMode).1.need_status = false
      ∧ (GPGProc.start os d bin args .ExtendedMode).2.filter Effect.isNotification = []
      ∧ (∀ e, Effect.error e ∉ (GPGProc.start os d bin args .ExtendedMode).2)
      ∧ (GPGProc.start os d bin args .ExtendedMode).2.filter Effect.isQueued =
          [.errorQueued .FailedToStart]
      ∧ (∃ quiet : List Effect, quiet.all Effect.isQuiet = true
          ∧ (GPGProc.start os d bin args .ExtendedMode).2 =
              quiet ++ [.errorQueued .FailedToStart])
      ∧ spawnedArgs (GPGProc.start os d bin args .ExtendedMode).2 = none := by
  have hok : os.setupOk args = false := by
    unfold StartEnv.setupOk
    rcases hfail with ⟨h1, h2⟩ | h | h
    · simp [h1, h2]
    · simp [h]
    · simp [h]
  have he := (start_eq os d bin args).2.1 hok
  obtain ⟨e1, e2, _, _⟩ := start_entry d
  have hidle := start_reset_flags d hs
  have hq : ((GPGProc.start.entry d).2 ++
      ((GPGProc.start.entry d).1.setupPipes os (args.contains auxToken)).2.2).all
        Effect.isQuiet = true := by
    simp [List.all_append, e2, setupPipes_quiet]
  obtain ⟨q1, q2, _, q4, _⟩ := quiet_notifications _ hq
  have hn : (GPGProc.start os d bin args .ExtendedMode).2.filter Effect.isNotification = [] := by
    rw [he]
    simp only [List.filter_append, q1]
    simp [Effect.isNotification]
  rw [he]
  refine ⟨?_, rfl, rfl, rfl, rfl, hidle.2.1, ?_, ?_, ?_, ⟨_, hq, rfl⟩, ?_⟩
  · simp [GPGProc.isActive, e1]
  · rw [← he]; exact hn
  · intro e hmem
    rw [← he] at hmem
    have : Effect.error e ∈ (GPGProc.start os d bin args .ExtendedMode).2.filter
        Effect.isNotification := by
      simp [List.mem_filter, hmem, Effect.isNotification]
    rw [hn] at this
    simp at this
  · simp only [List.filter_append, q2]
    simp [Effect.isQueued]
  · rw [spawnedArgs_append _ _ q4]
    rfl

/-- Witness of C15: the operating system makes no status pipe. -/
theorem start_setup_failure_witness :
    GPGProc.isActive
        (GPGProc.start { sampleEnv with status := none } (sampleRound .BasicMode)
          "gpg".toList ["--op".toList] .ExtendedMode).1 = false
      ∧ (GPGProc.start { sampleEnv with status := none } (sampleRound .BasicMode)
          "gpg".toList ["--op".toList] .ExtendedMode).2.filter Effect.isQueued =
          [.errorQueued .FailedToStart] :=
  have h := start_setup_failure { sampleEnv with status := none } (sampleRound .BasicMode)
    "gpg".toList ["--op".toList] (fun h => absurd h (by decide)) (Or.inr (Or.inr rfl))
  ⟨h.1, h.2.2.2.2.2.2.2.2.1⟩

/-! ## Lemmas on the record after `start` -/

theorem reset_sessionAndData (d : Private) :
    (d.reset .ResetSessionAndData).1 =
      { d with proc := none, pipeAux := QPipe.closed, pipeCommand := QPipe.closed,
               pipeStatus := QPipe.closed,
               pre_stdin := [], pre_aux := [], pre_command := [],
               pre_stdin_close := false, pre_aux_close := false,
               pre_command_close := false,
               need_status := false, fin_process := false, fin_status := false,
               statusBuf := [], statusLines := [],
               leftover_stdout := [], leftover_stderr := [],
               error := .FailedToStart, exitCode := -1 } := by
  unfold Private.reset Private.releaseProc Private.closePipes
  cases h : d.proc <;> simp [h, ResetMode.toNat, QPipe.reset, QPipe.closed]

theorem reset_cleared (d : Private) (mode : ResetMode) :
    (d.reset mode).1.proc = none ∧ (d.reset mode).1.cleared := by
  unfold Private.reset Private.releaseProc Private.closePipes Private.cleared
  cases h : d.proc <;> cases mode <;> simp [h, ResetMode.toNat]

theorem reset_effects (d : Private) (p : SProcess) (hp : d.proc = some p) (mode : ResetMode) :
    (d.reset mode).2 =
      [.pipeReset .Aux, .pipeReset .Command, .pipeReset .Status, .procDisconnect] ++
        (if p.state ≠ .NotRunning then [.procTerminate] else []) ++ [.procDeleteLater] := by
  unfold Private.reset Private.releaseProc Private.closePipes
  simp [hp]

/-- What `start` leaves of the record it works on: every field other than the
pipes, `need_status`, `error` and `proc` is kept; either a fresh child is there
and `error` is kept, or no child is there, `need_status` is kept and `error` is
`FailedToStart`. -/
theorem start_fields (os : StartEnv) (d : Private) (bin : QString) (args : QStringList)
    (mode : Mode) :
    (GPGProc.start os d bin args mode).1.statusBuf = (GPGProc.start.entry d).1.statusBuf
      ∧ (GPGProc.start os d bin args mode).1.statusLines = (GPGProc.start.entry d).1.statusLines
      ∧ (GPGProc.start os d bin args mode).1.exitCode = (GPGProc.start.entry d).1.exitCode
      ∧ (GPGProc.start os d bin args mode).1.leftover_stdout =
          (GPGProc.start.entry d).1.leftover_stdout
      ∧ (GPGProc.start os d bin args mode).1.leftover_stderr =
          (GPGProc.start.entry d).1.leftover_stderr
      ∧ (GPGProc.start os d bin args mode).1.pre_stdin = (GPGProc.start.entry d).1.pre_stdin
      ∧ (GPGProc.start os d bin args mode).1.pre_aux = (GPGProc.start.entry d).1.pre_aux
      ∧ (GPGProc.start os d bin args mode).1.pre_command = (GPGProc.start.entry d).1.pre_command
      ∧ (GPGProc.start os d bin args mode).1.pre_stdin_close =
          (GPGProc.start.entry d).1.pre_stdin_close
      ∧ (GPGProc.start os d bin args mode).1.pre_aux_close =
          (GPGProc.start.entry d).1.pre_aux_close
      ∧ (GPGProc.start os d bin args mode).1.pre_command_close =
          (GPGProc.start.entry d).1.pre_command_close
      ∧ (GPGProc.start os d bin args mode).1.fin_process = (GPGProc.start.entry d).1.fin_process
      ∧ (GPGProc.start os d bin args mode).1.fin_status = (GPGProc.start.entry d).1.fin_status
      ∧ (((GPGProc.start os d bin args mode).1.proc = some SProcess.fresh
            ∧ (GPGProc.start os d bin args mode).1.error = (GPGProc.start.entry d).1.error
            ∧ (mode = .BasicMode ∨ os.setupOk args = true))
          ∨ ((GPGProc.start os d bin args mode).1.proc = none
            ∧ (GPGProc.start os d bin args mode).1.error = .FailedToStart
            ∧ (GPGProc.start os d bin args mode).1.need_status =
                (GPGProc.start.entry d).1.need_status
            ∧ mode = .ExtendedMode ∧ os.setupOk args = false)) := by
  cases mode with
  | BasicMode =>
    rw [(start_eq os d bin args).1, (launch_eq _ bin args .BasicMode).1]
    exact ⟨rfl, rfl, rfl, rfl, rfl, rfl, rfl, rfl, rfl, rfl, rfl, rfl, rfl,
      Or.inl ⟨rfl, rfl, Or.inl rfl⟩⟩
  | ExtendedMode =>
    by_cases hok : os.setupOk args = true
    · obtain ⟨cids, sids, _, _, he⟩ := (start_eq os d bin args).2.2 hok
      rw [he, (launch_eq _ bin args .ExtendedMode).1]
      exact ⟨rfl, rfl, rfl, rfl, rfl, rfl, rfl, rfl, rfl, rfl, rfl, rfl, rfl,
        Or.inl ⟨rfl, rfl, Or.inr hok⟩⟩
    · have hok2 : os.setupOk args = false := by simpa using hok
      rw [(start_eq os d bin args).2.1 hok2]
      exact ⟨rfl, rfl, rfl, rfl, rfl, rfl, rfl, rfl, rfl, rfl, rfl, rfl, rfl,
        Or.inr ⟨(start_entry d).1, rfl, rfl, rfl, hok2⟩⟩

/-- The effects of `start` after those of its entry: housekeeping, then the
start of the child or the posted error. -/
theorem start_effects (os : StartEnv) (d : Private) (bin : QString) (args : QStringList)
    (mode : Mode) :
    ∃ quiet last, quiet.all Effect.isQuiet = true
      ∧ (GPGProc.start os d bin args mode).2 = (GPGProc.start.entry d).2 ++ quiet ++ [last]
      ∧ ((∃ l, last = .procStart bin l) ∨ last = .errorQueued .FailedToStart) := by
  cases mode with
  | BasicMode =>
    rw [(start_eq os d bin args).1]
    obtain ⟨quiet, hq, hl⟩ := (launch_eq (GPGProc.start.entry d).1 bin args .BasicMode).2
    exact ⟨quiet, _, hq, by rw [hl, List.append_assoc], Or.inl ⟨_, rfl⟩⟩
  | ExtendedMode =>
    by_cases hok : os.setupOk args = true
    · obtain ⟨cids, sids, _, _, he⟩ := (start_eq os d bin args).2.2 hok
      have he1 : ∃ d1, GPGProc.start os d bin args .ExtendedMode =
          ((GPGProc.start.launch d1 bin args .ExtendedMode).1,
           (GPGProc.start.entry d).2 ++
             ((GPGProc.start.entry d).1.setupPipes os (args.contains auxToken)).2.2 ++
             [.debug "Pipe setup complete".toList] ++
             (GPGProc.start.launch d1 bin args .ExtendedMode).2) := ⟨_, he⟩
      obtain ⟨d1, he1⟩ := he1
      rw [he1]
      obtain ⟨quiet, hq, hl⟩ := (launch_eq d1 bin args .ExtendedMode).2
      refine ⟨((GPGProc.start.entry d).1.setupPipes os (args.contains auxToken)).2.2 ++
        [.debug "Pipe setup complete".toList] ++ quiet,
        .procStart bin (GPGProc.start.fullargs d1 args .ExtendedMode), ?_, ?_, Or.inl ⟨_, rfl⟩⟩
      · simp [List.all_append, setupPipes_quiet, hq, Effect.isQuiet]
      · simp only [hl, List.append_assoc]
    · have hok2 : os.setupOk args = false := by simpa using hok
      rw [(start_eq os d bin args).2.1 hok2]
      exact ⟨_, _, setupPipes_quiet _ _ _, rfl, Or.inr rfl⟩

/-! ## `start` on an active and on a used session -/

/-- C13. `start` while a round is active discards the old round.  In every
session record with a child, the effects of `start` begin with the reset of the
three pipes, the disconnection of the old child, its termination unless it is
`NotRunning`, and its deletion; what follows writes to no channel.  In the
record afterwards no write and no close is pending and the backlog, the
accumulator and both leftover buffers are empty, so that `readStatusLines`,
`readStdout` and `readStderr` return nothing of the old round and the startup
of the new child flushes nothing. -/
theorem start_discards_old_round (os : StartEnv) (d : Private) (bin : QString)
    (args : QStringList) (mode : Mode) (p : SProcess) (hp : d.proc = some p) :
    (∃ rest : List Effect,
        (GPGProc.start os d bin args mode).2 =
          [.pipeReset .Aux, .pipeReset .Command, .pipeReset .Status, .procDisconnect] ++
            (if p.state ≠ .NotRunning then [.procTerminate] else []) ++
            [.procDeleteLater] ++ rest
        ∧ ∀ ch, written ch rest = [])
      ∧ (∀ ch, written ch (GPGProc.start os d bin args mode).2 = [])
      ∧ (GPGProc.start os d bin args mode).1.nothingPending
      ∧ (GPGProc.start os d bin args mode).1.statusLines = []
      ∧ (GPGProc.start os d bin args mode).1.statusBuf = []
      ∧ (GPGProc.start os d bin args mode).1.leftover_stdout = []
      ∧ (GPGProc.start os d bin args mode).1.leftover_stderr = []
      ∧ (GPGProc.readStatusLines (GPGProc.start os d bin args mode).1).1 = []
      ∧ (GPGProc.readStdout (GPGProc.start os d bin args mode).1).1 = []
      ∧ (GPGProc.readStderr (GPGProc.start os d bin args mode).1).1 = []
      ∧ (∀ q, (GPGProc.start os d bin args mode).1.proc = some q →
          ∃ r2, (GPGProc.start os d bin args mode).1.proc_started = some r2
            ∧ ∀ ch, written ch r2.2 = []) := by
  have hentry : GPGProc.start.entry d = d.reset .ResetSessionAndData :=
    (start_entry d).2.2.2 p hp
  obtain ⟨quiet, last, hq, he, hlast⟩ := start_effects os d bin args mode
  obtain ⟨f1, f2, f3, f4, f5, f6, f7, f8, f9, f10, f11, _, _, hproc⟩ :=
    start_fields os d bin args mode
  rw [hentry, reset_sessionAndData] at f1 f2 f3 f4 f5 f6 f7 f8 f9 f10 f11
  rw [hentry, reset_effects d p hp] at he
  have hrest : ∀ ch, written ch (quiet ++ [last]) = [] := by
    intro ch
    rw [written_append, (quiet_notifications quiet hq).2.2.2.2 ch]
    rcases hlast with ⟨l, hl⟩ | hl <;> rw [hl] <;> rfl
  have hall : ∀ ch, written ch (GPGProc.start os d bin args mode).2 = [] := by
    intro ch
    rw [he, List.append_assoc, written_append, hrest ch]
    by_cases hs : p.state = .NotRunning <;> simp [hs, written]
  refine ⟨⟨quiet ++ [last], by rw [he, List.append_assoc], hrest⟩, hall,
    ⟨f6, f7, f8, f9, f10, f11⟩, f2, f1, f4, f5, f2, ?_, ?_, ?_⟩
  · rcases hproc with ⟨h, _⟩ | ⟨h, _⟩
    · simp [GPGProc.readStdout, h, SProcess.fresh]
    · simp [GPGProc.readStdout, h, f4]
  · rcases hproc with ⟨h, _⟩ | ⟨h, _⟩
    · simp [GPGProc.readStderr, h, SProcess.fresh]
    · simp [GPGProc.readStderr, h, f5]
  · intro q hq2
    obtain ⟨r2, h1, _, _, _, _, h2⟩ := proc_started_written _ q hq2
    refine ⟨r2, h1, fun ch => ?_⟩
    rw [h2 ch]
    cases ch <;> simp [Private.pending, f6, f7, f8]

/-- Witness of C13: the sample round with a write and a close pending, a
backlog entry and an unterminated status line, started again. -/
theorem start_discards_old_round_witness :
    (GPGProc.start sampleEnv
        { sampleRound .ExtendedMode with
            pre_stdin := bytesOf "old", pre_command_close := true,
            statusLines := ["OLD".toList], statusBuf := bytesOf "[GNUPG:] PA" }
        "gpg".toList ["--op".toList] .ExtendedMode).1.statusLines = []
      ∧ (GPGProc.start sampleEnv
        { sampleRound .ExtendedMode with
            pre_stdin := bytesOf "old", pre_command_close := true,
            statusLines := ["OLD".toList], statusBuf := bytesOf "[GNUPG:] PA" }
        "gpg".toList ["--op".toList] .ExtendedMode).1.nothingPending
      ∧ ∀ ch, written ch (GPGProc.start sampleEnv
        { sampleRound .ExtendedMode with
            pre_stdin := bytesOf "old", pre_command_close := true,
            statusLines := ["OLD".toList], statusBuf := bytesOf "[GNUPG:] PA" }
        "gpg".toList ["--op".toList] .ExtendedMode).2 = [] :=
  have h := start_discards_old_round sampleEnv
    { sampleRound .ExtendedMode with
        pre_stdin := bytesOf "old", pre_command_close := true,
        statusLines := ["OLD".toList], statusBuf := bytesOf "[GNUPG:] PA" }
    "gpg".toList ["--op".toList] .ExtendedMode sampleChild rfl
  ⟨h.2.2.2.1, h.2.2.1, h.2.1⟩

/-- Counterexample to C14 as stated: a round in `ExtendedMode` reads a status
line `OLD` and the beginning of a second line, its child leaves `out` on stdout
and exits with code 7, the status channel closes; the session is idle.  A
`start` on it leaves the backlog, the accumulator, the leftover stdout and the
exit code as they are. -/
theorem start_on_used_session_counterexample :
    (run bytewise (sampleRound .ExtendedMode)
        [.status_read (bytesOf "[GNUPG:] OLD\n[GN"), .childStdout (bytesOf "out"),
         .proc_finished 7, .status_error .ErrorEOF]).map
      (fun r =>
        (GPGProc.isActive r.1,
         (GPGProc.start sampleEnv r.1 "gpg".toList ["--op".toList] .ExtendedMode).1.statusLines,
         (GPGProc.start sampleEnv r.1 "gpg".toList ["--op".toList] .ExtendedMode).1.statusBuf,
         (GPGProc.start sampleEnv r.1 "gpg".toList ["--op".toList]
            .ExtendedMode).1.leftover_stdout,
         (GPGProc.start sampleEnv r.1 "gpg".toList ["--op".toList] .ExtendedMode).1.exitCode))
      = some (false, ["OLD".toList], bytesOf "[GN", bytesOf "out", 7) := by
  have hpsd : (sampleRound .ExtendedMode).processStatusData bytewise
      (bytesOf "[GNUPG:] OLD\n[GN") =
      ({ sampleRound .ExtendedMode with
          statusBuf := bytesOf "[GN", statusLines := ["OLD".toList] }, true) := by
    rw [processStatusData_eq]
    decide
  have h1 : deliver bytewise (sampleRound .ExtendedMode)
      (.status_read (bytesOf "[GNUPG:] OLD\n[GN")) =
      some ({ sampleRound .ExtendedMode with
          statusBuf := bytesOf "[GN", statusLines := ["OLD".toList] },
        [.readyReadStatusLines]) := by
    have h0 : deliver bytewise (sampleRound .ExtendedMode)
        (.status_read (bytesOf "[GNUPG:] OLD\n[GN")) =
        some (Private.status_read bytewise (sampleRound .ExtendedMode)
          (bytesOf "[GNUPG:] OLD\n[GN")) := rfl
    rw [h0]
    unfold Private.status_read
    rw [hpsd]
    rfl
  rw [run, h1]
  decide

/-- C14, amended.  `start` resets the data only when a child is present.  On a
session without a child it performs no reset: `statusLines`, `statusBuf`, both
leftover buffers and `exitCode` stay as the earlier round left them, and
`error` stays too when the new child is created (it becomes `FailedToStart`
when the pipe setup fails).  On a session with a child these fields are
cleared: empty, `FailedToStart`, `-1`. -/
theorem start_data_reset_only_when_active (os : StartEnv) (d d2 : Private) (bin : QString)
    (args : QStringList) (mode : Mode) (q : SProcess)
    (hp : d.proc = none) (hq : d2.proc = some q) :
    (GPGProc.start os d bin args mode).1.statusLines = d.statusLines
      ∧ (GPGProc.start os d bin args mode).1.statusBuf = d.statusBuf
      ∧ (GPGProc.start os d bin args mode).1.leftover_stdout = d.leftover_stdout
      ∧ (GPGProc.start os d bin args mode).1.leftover_stderr = d.leftover_stderr
      ∧ (GPGProc.start os d bin args mode).1.exitCode = d.exitCode
      ∧ (((GPGProc.start os d bin args mode).1.proc = some SProcess.fresh
            ∧ (GPGProc.start os d bin args mode).1.error = d.error)
          ∨ ((GPGProc.start os d bin args mode).1.proc = none
            ∧ (GPGProc.start os d bin args mode).1.error = .FailedToStart
            ∧ mode = .ExtendedMode ∧ os.setupOk args = false))
      ∧ (GPGProc.start os d2 bin args mode).1.statusLines = []
      ∧ (GPGProc.start os d2 bin args mode).1.statusBuf = []
      ∧ (GPGProc.start os d2 bin args mode).1.leftover_stdout = []
      ∧ (GPGProc.start os d2 bin args mode).1.leftover_stderr = []
      ∧ (GPGProc.start os d2 bin args mode).1.exitCode = -1
      ∧ (GPGProc.start os d2 bin args mode).1.error = .FailedToStart := by
  obtain ⟨f1, f2, f3, f4, f5, _, _, _, _, _, _, _, _, hproc⟩ := start_fields os d bin args mode
  obtain ⟨g1, g2, g3, g4, g5, _, _, _, _, _, _, _, _, gproc⟩ :=
    start_fields os d2 bin args mode
  rw [(start_entry d).2.2.1 hp] at f1 f2 f3 f4 f5 hproc
  rw [(start_entry d2).2.2.2 q hq, reset_sessionAndData] at g1 g2 g3 g4 g5 gproc
  refine ⟨f2, f1, f4, f5, f3, ?_, g2, g1, g4, g5, g3, ?_⟩
  · rcases hproc with ⟨h1, h2, _⟩ | ⟨h1, h2, _, h3, h4⟩
    · exact Or.inl ⟨h1, h2⟩
    · exact Or.inr ⟨h1, h2, h3, h4⟩
  · rcases gproc with ⟨_, h2, _⟩ | ⟨_, h2, _⟩ <;> exact h2

/-- Witness of C14, amended: a constructed session whose backlog holds `OLD`
and whose exit code is 7, and the sample round. -/
theorem start_data_reset_only_when_active_witness :
    (GPGProc.start sampleEnv
        { GPGProc.init false with statusLines := ["OLD".toList], exitCode := 7 }
        "gpg".toList ["--op".toList] .BasicMode).1.statusLines = ["OLD".toList]
      ∧ (GPGProc.start sampleEnv
        { GPGProc.init false with statusLines := ["OLD".toList], exitCode := 7 }
        "gpg".toList ["--op".toList] .BasicMode).1.exitCode = 7
      ∧ (GPGProc.start sampleEnv (sampleRound .ExtendedMode)
        "gpg".toList ["--op".toList] .BasicMode).1.exitCode = -1 :=
  have h := start_data_reset_only_when_active sampleEnv
    { GPGProc.init false with statusLines := ["OLD".toList], exitCode := 7 }
    (sampleRound .ExtendedMode) "gpg".toList ["--op".toList] .BasicMode sampleChild rfl rfl
  ⟨h.1, h.2.2.2.2.1, h.2.2.2.2.2.2.2.2.2.2.1⟩

/-! ## The idle-state invariant -/

theorem fired_cleared (d : Private) (p : SProcess) : (d.fired p).cleared :=
  (reset_cleared _ _).2

/-- An event delivered to a session with a child leaves a child, or a record in
which nothing of the round is left. -/
theorem deliver_child_or_cleared (fromUtf8 : QByteArray → QString) (d : Private)
    (p : SProcess) (hp : d.proc = some p) (ev : Event) :
    ∃ r, deliver fromUtf8 d ev = some r ∧ (r.1.proc.isSome = true ∨ r.1.cleared) := by
  obtain ⟨proc, pa, pc, ps, sb, sl, err, ec, pin, paux, pcmd, c1, c2, c3, ns, fp, fps, fs,
    lo, le⟩ := d
  simp only at hp
  subst hp
  cases ev with
  | aux_written x => exact ⟨_, rfl, Or.inl rfl⟩
  | command_written x => exact ⟨_, rfl, Or.inl rfl⟩
  | aux_error e => exact ⟨Private.aux_error _ e, rfl, Or.inr (reset_cleared _ _).2⟩
  | command_error e => exact ⟨Private.command_error _ e, rfl, Or.inr (reset_cleared _ _).2⟩
  | status_read buf =>
    refine ⟨_, rfl, Or.inl ?_⟩
    rw [(status_read_frame fromUtf8 _ buf).1]
    rfl
  | proc_started =>
    obtain ⟨r, hr, h1, _⟩ := proc_started_frame
      ⟨some p, pa, pc, ps, sb, sl, err, ec, pin, paux, pcmd, c1, c2, c3, ns, fp, fps, fs,
        lo, le⟩ p rfl
    refine ⟨r, hr, Or.inl ?_⟩
    rw [h1]
    rfl
  | proc_readyReadStandardOutput => exact ⟨_, rfl, Or.inl rfl⟩
  | proc_readyReadStandardError => exact ⟨_, rfl, Or.inl rfl⟩
  | proc_bytesWritten lx => exact ⟨_, rfl, Or.inl rfl⟩
  | childState st => exact ⟨_, rfl, Or.inl rfl⟩
  | childStdout a => exact ⟨_, rfl, Or.inl rfl⟩
  | childStderr a => exact ⟨_, rfl, Or.inl rfl⟩
  | status_error e =>
    obtain ⟨m, hm⟩ := status_error_eq
      ⟨some p, pa, pc, ps, sb, sl, err, ec, pin, paux, pcmd, c1, c2, c3, ns, fp, fps, fs,
        lo, le⟩ e
    obtain ⟨r, hr, hc⟩ := doTryDone_cases
      ⟨some p, pa, pc, ps, sb, sl, err, ec, pin, paux, pcmd, c1, c2, c3, ns, fp, fps, true,
        lo, le⟩ p rfl m
    refine ⟨r, by simp only [deliver]; rw [hm]; exact hr, ?_⟩
    rcases hc with ⟨_, hs, _⟩ | ⟨_, hs, _⟩
    · exact Or.inl (by rw [hs]; rfl)
    · exact Or.inr (by rw [hs]; exact fired_cleared _ _)
  | proc_finished x =>
    obtain ⟨r, hr, hc⟩ := doTryDone_cases
      ⟨some p, pa, pc, ps, sb, sl, err, x, pin, paux, pcmd, c1, c2, c3, ns, true, true, fs,
        lo, le⟩ p rfl (finishedMessage x)
    refine ⟨r, by simp only [deliver, Private.proc_finished]; exact hr, ?_⟩
    rcases hc with ⟨_, hs, _⟩ | ⟨_, hs, _⟩
    · exact Or.inl (by rw [hs]; rfl)
    · exact Or.inr (by rw [hs]; exact fired_cleared _ _)
  | proc_error x =>
    have hcl : (if x = ProcessError.FailedToStart then Error.FailedToStart
        else if x = ProcessError.WriteError then Error.ErrorWrite
        else Error.UnexpectedExit) = classify x := by
      cases x <;> rfl
    obtain ⟨r, hr, hc⟩ := doTryDone_cases
      ⟨some p, pa, pc, ps, sb, sl, classify x, ec, pin, paux, pcmd, c1, c2, c3, ns, true, false,
        fs, lo, le⟩ p rfl ("Process error: ".toList ++ errmap x)
    refine ⟨r, by simp only [deliver, Private.proc_error, hcl]; exact hr, ?_⟩
    rcases hc with ⟨_, hs, _⟩ | ⟨_, hs, _⟩
    · exact Or.inl (by rw [hs]; rfl)
    · exact Or.inr (by rw [hs]; exact fired_cleared _ _)

/-- A call keeps the invariant: when no child is there afterwards, nothing of
a round is left, provided that held before. -/
theorem call_keeps_cleared (d : Private) (c : Call) (hinv : d.proc = none → d.cleared) :
    (GPGProc.call d c).1.proc = none → (GPGProc.call d c).1.cleared := by
  cases c with
  | start os bin args mode =>
    intro hnone
    obtain ⟨_, _, _, _, _, f6, f7, f8, f9, f10, f11, f12, f13, hproc⟩ :=
      start_fields os d bin args mode
    have hnone2 : (GPGProc.start os d bin args mode).1.proc = none := hnone
    have hentry : (GPGProc.start.entry d).1.cleared := by
      cases hp : d.proc with
      | none =>
        rw [(start_entry d).2.2.1 hp]
        exact hinv hp
      | some p =>
        rw [(start_entry d).2.2.2 p hp]
        exact (reset_cleared _ _).2
    obtain ⟨e1, e2, e3, e4, e5, e6, e7, e8, e9⟩ := hentry
    rcases hproc with ⟨h, _⟩ | ⟨_, _, hns, _⟩
    · rw [hnone2] at h
      cases h
    · exact ⟨f6.trans e1, f7.trans e2, f8.trans e3, f9.trans e4, f10.trans e5, f11.trans e6,
        hns.trans e7, f12.trans e8, f13.trans e9⟩
  | reset =>
    intro _
    exact (reset_cleared d .ResetAll).2
  | writeStdin a =>
    cases hp : d.proc with
    | none =>
      intro _
      simpa [GPGProc.call, GPGProc.writeStdin, hp] using hinv hp
    | some p =>
      intro h
      by_cases ha : a.isEmpty = true <;> by_cases hs : p.state = .Running <;>
        simp [GPGProc.call, GPGProc.writeStdin, hp, ha, hs] at h
  | writeAux a =>
    cases hp : d.proc with
    | none =>
      intro _
      simpa [GPGProc.call, GPGProc.writeAux, hp] using hinv hp
    | some p =>
      intro h
      by_cases ha : a.isEmpty = true <;> by_cases hs : p.state = .Running <;>
        simp [GPGProc.call, GPGProc.writeAux, hp, ha, hs] at h
  | writeCommand a =>
    cases hp : d.proc with
    | none =>
      intro _
      simpa [GPGProc.call, GPGProc.writeCommand, hp] using hinv hp
    | some p =>
      intro h
      by_cases ha : a.isEmpty = true <;> by_cases hs : p.state = .Running <;>
        simp [GPGProc.call, GPGProc.writeCommand, hp, ha, hs] at h
  | closeStdin =>
    cases hp : d.proc with
    | none =>
      intro _
      simpa [GPGProc.call, GPGProc.closeStdin, hp] using hinv hp
    | some p =>
      intro h
      by_cases hs : p.state = .Running <;>
        simp [GPGProc.call, GPGProc.closeStdin, hp, hs] at h
  | closeAux =>
    cases hp : d.proc with
    | none =>
      intro _
      simpa [GPGProc.call, GPGProc.closeAux, hp] using hinv hp
    | some p =>
      intro h
      by_cases hs : p.state = .Running <;>
        simp [GPGProc.call, GPGProc.closeAux, hp, hs] at h
  | closeCommand =>
    cases hp : d.proc with
    | none =>
      intro _
      simpa [GPGProc.call, GPGProc.closeCommand, hp] using hinv hp
    | some p =>
      intro h
      by_cases hs : p.state = .Running <;>
        simp [GPGProc.call, GPGProc.closeCommand, hp, hs] at h
  | readStdout =>
    cases hp : d.proc with
    | none =>
      intro _
      simpa [GPGProc.call, GPGProc.readStdout, hp, Private.cleared] using hinv hp
    | some p =>
      intro h
      simp [GPGProc.call, GPGProc.readStdout, hp] at h
  | readStderr =>
    cases hp : d.proc with
    | none =>
      intro _
      simpa [GPGProc.call, GPGProc.readStderr, hp, Private.cleared] using hinv hp
    | some p =>
      intro h
      simp [GPGProc.call, GPGProc.readStderr, hp] at h
  | readStatusLines =>
    intro h
    have h2 : d.proc = none := h
    simpa [GPGProc.call, GPGProc.readStatusLines, Private.cleared] using hinv h2

theorem step_keeps_cleared (fromUtf8 : QByteArray → QString) (d : Private) (st : Step)
    (hinv : d.proc = none → d.cleared) :
    ∃ d1, step fromUtf8 d st = some d1 ∧ (d1.proc = none → d1.cleared) := by
  cases st with
  | call c => exact ⟨_, rfl, call_keeps_cleared d c hinv⟩
  | event ev =>
    cases hp : d.proc with
    | none =>
      refine ⟨d, ?_, hinv⟩
      simp [step, deliver_no_child fromUtf8 d hp]
    | some p =>
      obtain ⟨r, hr, hc⟩ := deliver_child_or_cleared fromUtf8 d p hp ev
      refine ⟨r.1, by simp [step, hr], ?_⟩
      intro hnone
      rcases hc with h | h
      · rw [hnone] at h
        cases h
      · exact h

theorem steps_keep_cleared (fromUtf8 : QByteArray → QString) (d : Private) (ss : List Step)
    (hinv : d.proc = none → d.cleared) :
    ∃ d1, steps fromUtf8 d ss = some d1 ∧ (d1.proc = none → d1.cleared) := by
  induction ss generalizing d with
  | nil => exact ⟨d, rfl, hinv⟩
  | cons st rest ih =>
    obtain ⟨d1, h1, hinv1⟩ := step_keeps_cleared fromUtf8 d st hinv
    obtain ⟨d2, h2, hinv2⟩ := ih d1 hinv1
    exact ⟨d2, by simp [steps, h1, h2], hinv2⟩

/-- C20. Idle-state invariant.  From a constructed session, every sequence of
calls of the owner (`start`, `reset`, the writes, the closes, the reads) and of
events, events being delivered only while a child is present, runs to an end,
and in the record it reaches, whenever no child is present (`isActive` is
false) the three pending buffers are empty, the three pending-close flags are
down, and `need_status`, `fin_process` and `fin_status` are down. -/
theorem idle_state_invariant (fromUtf8 : QByteArray → QString) (fin_process_success : Bool)
    (ss : List Step) :
    ∃ d, steps fromUtf8 (GPGProc.init fin_process_success) ss = some d
      ∧ (GPGProc.isActive d = false →
          d.pre_stdin = [] ∧ d.pre_aux = [] ∧ d.pre_command = []
            ∧ d.pre_stdin_close = false ∧ d.pre_aux_close = false
            ∧ d.pre_command_close = false
            ∧ d.need_status = false ∧ d.fin_process = false ∧ d.fin_status = false) := by
  obtain ⟨d, hd, hinv⟩ := steps_keep_cleared fromUtf8 (GPGProc.init fin_process_success) ss
    (fun _ => (reset_cleared _ _).2)
  refine ⟨d, hd, fun hact => hinv ?_⟩
  cases hp : d.proc with
  | none => rfl
  | some p => simp [GPGProc.isActive, hp] at hact

end gpgQCAPlugin
